import Mathlib

/-!
# RocksDBKVStore: a shallow embedding

Source: `engines/ep/src/rocksdb-kvstore/rocksdb-kvstore.cc`.

Conventions of the embedding

* A byte is a natural number below 256 and a slice is a list of bytes.
* Unsigned machine integers are `Nat`, signed ones are `Int`; the packed
  `MetaData` record is written out byte by byte (native order taken to be
  little-endian, two's complement for the signed fields).
* A column family is the list of the puts applied to it, newest first. A point
  lookup returns the newest put of the key. The seqno column family is iterated
  in the numeric order of its keys, one entry per distinct key.
* Code that may throw returns `Except Exn _`, or carries the exception in its
  result when the state reached at the throw matters.
-/

namespace RocksKV

/-! ## Codec -/

/-- A slice of bytes. -/
abbrev Bytes := List Nat

/-- The `w` low bytes of `n`, least significant first. -/
def toBytesLE : Nat → Nat → Bytes
  | 0, _ => []
  | w + 1, n => (n % 256) :: toBytesLE w (n / 256)

/-- The number whose little-endian bytes are given. -/
def fromBytesLE : Bytes → Nat
  | [] => 0
  | b :: bs => b + 256 * fromBytesLE bs

/-- The 64-bit two's complement image of a signed integer. -/
def toU64 (x : Int) : Nat := (x % 2 ^ 64).toNat

/-- The signed value of a 64-bit pattern. -/
def toI64 (u : Nat) : Int := if u < 2 ^ 63 then (u : Int) else (u : Int) - 2 ^ 64

/-- The class `rockskv::MetaData`: `deleted` is a 1-bit field, `version` a 7-bit
field sharing its byte, `exptime` a `time_t` (64-bit signed). -/
structure MetaData where
  deleted : Bool
  version : Nat
  datatype : Nat
  flags : Nat
  valueSize : Nat
  exptime : Int
  cas : Nat
  revSeqno : Nat
  bySeqno : Int
deriving DecidableEq, Repr

/-- The default constructor `MetaData()`. -/
def MetaData.zero : MetaData :=
  { deleted := false, version := 0, datatype := 0, flags := 0, valueSize := 0,
    exptime := 0, cas := 0, revSeqno := 0, bySeqno := 0 }

/-- The value of `sizeof(rockskv::MetaData)` under `#pragma pack(1)`. -/
def sizeofMetaData : Nat := 42

/-- The bytes of a `MetaData` object, as wrapped by `getDocMetaSlice`. -/
def MetaData.encode (m : MetaData) : Bytes :=
  [((if m.deleted then 1 else 0) + 2 * (m.version % 128))]
    ++ toBytesLE 1 m.datatype
    ++ toBytesLE 4 m.flags
    ++ toBytesLE 4 m.valueSize
    ++ toBytesLE 8 (toU64 m.exptime)
    ++ toBytesLE 8 m.cas
    ++ toBytesLE 8 m.revSeqno
    ++ toBytesLE 8 (toU64 m.bySeqno)

/-- The `MetaData` object obtained by `memcpy` from the first `sizeof(MetaData)`
bytes of a slice. -/
def MetaData.decode (s : Bytes) : MetaData :=
  { deleted := decide (s.headD 0 % 2 = 1)
    version := s.headD 0 / 2 % 128
    datatype := fromBytesLE ((s.drop 1).take 1)
    flags := fromBytesLE ((s.drop 2).take 4)
    valueSize := fromBytesLE ((s.drop 6).take 4)
    exptime := toI64 (fromBytesLE ((s.drop 10).take 8))
    cas := fromBytesLE ((s.drop 18).take 8)
    revSeqno := fromBytesLE ((s.drop 26).take 8)
    bySeqno := toI64 (fromBytesLE ((s.drop 34).take 8)) }

/-- The fields of a `MetaData` fit their C++ types. -/
def MetaData.WF (m : MetaData) : Prop :=
  m.version < 128 ∧ m.datatype < 2 ^ 8 ∧ m.flags < 2 ^ 32 ∧ m.valueSize < 2 ^ 32 ∧
  (-(2 ^ 63) ≤ m.exptime ∧ m.exptime < 2 ^ 63) ∧ m.cas < 2 ^ 64 ∧ m.revSeqno < 2 ^ 64 ∧
  (-(2 ^ 63) ≤ m.bySeqno ∧ m.bySeqno < 2 ^ 63)

/-! ## Items and requests -/

/-- The namespace tag of a document key. -/
inductive DocNamespace where
  | DefaultCollection
  | Collections
  | System
deriving DecidableEq, Repr

/-- A document key: bytes and a namespace tag. -/
structure DocKey where
  data : Bytes
  ns : DocNamespace
deriving DecidableEq, Repr

/-- The members of `Item` that the store reads and writes. A null `value_t` and
an empty value are both the empty byte string: `getDocBodySlice` and
`getNBytes` give size 0 for either. -/
structure Item where
  key : DocKey
  flags : Nat
  exptime : Int
  value : Bytes
  datatype : Nat
  cas : Nat
  bySeqno : Int
  vbucketId : Nat
  revSeqno : Nat
  deleted : Bool
deriving DecidableEq, Repr

/-- The fields of an `Item` fit their C++ types. -/
def Item.WF (i : Item) : Prop :=
  i.datatype < 2 ^ 8 ∧ i.flags < 2 ^ 32 ∧ i.value.length < 2 ^ 32 ∧
  (-(2 ^ 63) ≤ i.exptime ∧ i.exptime < 2 ^ 63) ∧ i.cas < 2 ^ 64 ∧ i.revSeqno < 2 ^ 64 ∧
  (-(2 ^ 63) ≤ i.bySeqno ∧ i.bySeqno < 2 ^ 63)

/-- Which member of the `MutationRequestCallback` union the caller filled in. -/
inductive MutationRequestCallback where
  | setCb
  | delCb
deriving DecidableEq, Repr

/-- The class `RocksRequest` with the members of its base `IORequest`. -/
structure RocksRequest where
  vbucketId : Nat
  callback : MutationRequestCallback
  deleted : Bool
  key : DocKey
  docMeta : MetaData
  docBody : Bytes
deriving DecidableEq, Repr

/-- The constructor `RocksRequest::RocksRequest(item, callback)`; `now` is the
value `ep_real_time()` returns when the request is built. -/
def RocksRequest.make (item : Item) (callback : MutationRequestCallback) (now : Int) :
    RocksRequest :=
  { vbucketId := item.vbucketId
    callback := callback
    deleted := item.deleted
    key := item.key
    docBody := item.value
    docMeta :=
      { deleted := item.deleted
        version := 0
        datatype := item.datatype
        flags := item.flags
        valueSize := item.value.length
        exptime := if item.deleted then now else item.exptime
        cas := item.cas
        revSeqno := item.revSeqno
        bySeqno := item.bySeqno } }

/-- The method `getDocMetaSlice`. -/
def RocksRequest.getDocMetaSlice (r : RocksRequest) : Bytes := r.docMeta.encode

/-- The method `getDocBodySlice`. -/
def RocksRequest.getDocBodySlice (r : RocksRequest) : Bytes := r.docBody

/-- The static `getKeySlice`: the bytes of the key, without its namespace. -/
def getKeySlice (key : DocKey) : Bytes := key.data

/-- A seqno slice: the 8 bytes of an `int64_t`. The comparator of the seqno column
family reads both slices back as `int64_t` and orders them numerically, so the
embedding keeps the number itself as the slice. -/
abbrev SeqnoSlice := Int

/-- The static `getSeqnoSlice`. -/
def getSeqnoSlice (seqno : Int) : SeqnoSlice := seqno

/-- The static `getNumericSeqno`. -/
def getNumericSeqno (seqnoSlice : SeqnoSlice) : Int := seqnoSlice

/-! ## The per-vBucket database -/

/-- The codes of `rocksdb::Status::Code`. -/
inductive Code where
  | kOk
  | kNotFound
  | kCorruption
  | kNotSupported
  | kInvalidArgument
  | kIOError
  | kMergeInProgress
  | kIncomplete
  | kShutdownInProgress
  | kTimedOut
  | kAborted
  | kBusy
  | kExpired
  | kTryAgain
deriving DecidableEq, Repr

/-- The method `rocksdb::Status::ok`. -/
def Code.ok (c : Code) : Bool := decide (c = Code.kOk)

/-- A column family: the puts applied to it, newest first. -/
abbrev ColumnFamily (κ : Type) (ν : Type) := List (κ × ν)

/-- A point lookup: the newest put of the key, if any. -/
def ColumnFamily.get {κ ν : Type} [DecidableEq κ] (cf : ColumnFamily κ ν) (k : κ) : Option ν :=
  match cf with
  | [] => none
  | (k1, v) :: rest => if k1 = k then some v else ColumnFamily.get rest k

/-- One put into a column family. -/
def ColumnFamily.put {κ ν : Type} (cf : ColumnFamily κ ν) (k : κ) (v : ν) : ColumnFamily κ ν :=
  (k, v) :: cf

/-- The contents of the database of one vBucket (class `KVRocksDB`): the
default column family (key to metadata and body), the seqno column family
(seqno to key) and the local column family. -/
structure KVRocksDB where
  defaultCF : ColumnFamily Bytes Bytes
  seqnoCF : ColumnFamily SeqnoSlice Bytes
  localCF : ColumnFamily String String
deriving DecidableEq, Repr

/-- A database that has just been created (`create_if_missing`). -/
def KVRocksDB.empty : KVRocksDB := { defaultCF := [], seqnoCF := [], localCF := [] }

/-- One record of a `rocksdb::WriteBatch`. -/
inductive BatchOp where
  | putDefault (key : Bytes) (value : Bytes)
  | putSeqno (seqno : SeqnoSlice) (key : Bytes)
  | putLocal (key : String) (value : String)
deriving DecidableEq, Repr

/-- A `rocksdb::WriteBatch`: its records in the order they were added. -/
abbrev WriteBatch := List BatchOp

/-- The effect of one record of a batch on the database. -/
def KVRocksDB.applyOp (db : KVRocksDB) : BatchOp → KVRocksDB
  | BatchOp.putDefault k v => { db with defaultCF := db.defaultCF.put k v }
  | BatchOp.putSeqno s k => { db with seqnoCF := db.seqnoCF.put s k }
  | BatchOp.putLocal k v => { db with localCF := db.localCF.put k v }

/-- The effect of a successful `rocksdb::DB::Write` of a batch: its records are
applied in order, atomically. -/
def KVRocksDB.write (db : KVRocksDB) (batch : WriteBatch) : KVRocksDB :=
  batch.foldl KVRocksDB.applyOp db

/-- The keys of the seqno column family in the order of its comparator
(numeric), each once. -/
def KVRocksDB.seqnoKeys (db : KVRocksDB) : List SeqnoSlice :=
  ((db.seqnoCF.map Prod.fst).dedup).insertionSort (fun a b => a ≤ b)

/-- The entries an iterator over the seqno column family visits after
`Seek(start)`: in key order, those with key at least `start`. -/
def KVRocksDB.seekSeqno (db : KVRocksDB) (start : SeqnoSlice) : List (SeqnoSlice × Bytes) :=
  (db.seqnoKeys.filter (fun s => decide (start ≤ s))).filterMap
    (fun s => (db.seqnoCF.get s).map (fun k => (s, k)))

/-- The method `readHighSeqnoFromDisk`: `SeekForPrev` of the largest `int64_t`
lands on the greatest key of the seqno column family; 0 when there is none. -/
def readHighSeqnoFromDisk (db : KVRocksDB) : Int :=
  match db.seqnoKeys.getLast? with
  | none => 0
  | some s => getNumericSeqno s

/-! ## vBucket state -/

/-- The enumeration `vbucket_state_t`. -/
inductive vbucket_state_t where
  | vbucket_state_active
  | vbucket_state_replica
  | vbucket_state_pending
  | vbucket_state_dead
deriving DecidableEq, Repr

/-- Modelled from the spec: `VBucket::toString` is defined outside these
sources; the spec names the states active, replica, pending and dead. -/
def VBucket.toString : vbucket_state_t → String
  | vbucket_state_t.vbucket_state_active => "active"
  | vbucket_state_t.vbucket_state_replica => "replica"
  | vbucket_state_t.vbucket_state_pending => "pending"
  | vbucket_state_t.vbucket_state_dead => "dead"

/-- The struct `vbucket_state`, with the members the store passes to its
constructor in `readVBState`. -/
structure vbucket_state where
  state : vbucket_state_t
  checkpointId : Nat
  maxDeletedSeqno : Nat
  highSeqno : Int
  purgeSeqno : Nat
  lastSnapStart : Nat
  lastSnapEnd : Nat
  maxCas : Nat
  hlcCasEpochSeqno : Int
  mightContainXattrs : Bool
  failovers : String
deriving DecidableEq, Repr

/-- The method `getVbstateKey`. -/
def getVbstateKey : String := "vbstate"

/-- The JSON text `saveVBStateToBatch` builds for a state. -/
def vbstateJSON (vbState : vbucket_state) : String :=
  "\x7b\"state\": \"" ++ VBucket.toString vbState.state ++ "\""
    ++ ",\"checkpoint_id\": \"" ++ toString vbState.checkpointId ++ "\""
    ++ ",\"max_deleted_seqno\": \"" ++ toString vbState.maxDeletedSeqno ++ "\""
    ++ (if vbState.failovers.isEmpty then "" else ",\"failover_table\": " ++ vbState.failovers)
    ++ ",\"snap_start\": \"" ++ toString vbState.lastSnapStart ++ "\""
    ++ ",\"snap_end\": \"" ++ toString vbState.lastSnapEnd ++ "\""
    ++ ",\"max_cas\": \"" ++ toString vbState.maxCas ++ "\""
    ++ ",\"hlc_epoch\": \"" ++ toString vbState.hlcCasEpochSeqno ++ "\""
    ++ (if vbState.mightContainXattrs then ",\"might_contain_xattrs\": true"
        else ",\"might_contain_xattrs\": false")
    ++ "\x7d"

/-- The method `saveVBStateToBatch`: one put of the JSON text into the local
column family under the key `vbstate`, added to the batch. -/
def saveVBStateToBatch (vbState : vbucket_state) (batch : WriteBatch) : WriteBatch :=
  batch ++ [BatchOp.putLocal getVbstateKey (vbstateJSON vbState)]

/-! ## The store -/

/-- The exceptions the store throws, and a failed `assert`. -/
inductive Exn where
  | logic_error
  | runtime_error
  | invalid_argument
  | out_of_range
  | assertion
deriving DecidableEq, Repr

/-- The class `RocksDBKVStore`. `vbDB` gives the contents of the database of
each vBucket; a database that was never written is empty, as `openDB` creates a
missing database. `scanSnapshots` maps a scan id to the contents pinned when
the scan was opened. The write-buffer sizes are those of `defaultCFOptions`
and `seqnoCFOptions`; `maxVBuckets` is the size `cachedVBStates` is given at
construction. -/
structure RocksDBKVStore where
  vbDB : Nat → KVRocksDB
  cachedVBStates : Nat → Option vbucket_state
  in_transaction : Bool
  transactionCtx : Option Nat
  pendingReqs : List RocksRequest
  scanCounter : Nat
  scanSnapshots : List (Nat × KVRocksDB)
  defaultWriteBufferSize : Nat
  seqnoWriteBufferSize : Nat
  maxVBuckets : Nat := 1024

/-- The method `openDB`: the database of the vBucket. -/
def RocksDBKVStore.openDB (s : RocksDBKVStore) (vbid : Nat) : KVRocksDB := s.vbDB vbid

/-- The store after the database of `vbid` has become `db`. -/
def RocksDBKVStore.setDB (s : RocksDBKVStore) (vbid : Nat) (db : KVRocksDB) : RocksDBKVStore :=
  { s with vbDB := fun v => if v = vbid then db else s.vbDB v }

/-- What the surroundings of a commit decide: the value `GetDataSize` reports
for a batch, and the status of the n-th call of `rocksdb::DB::Write` made by
one `saveDocs` (counted from 0). A write whose status is not ok changes
nothing. -/
structure WriteEnv where
  dataSize : WriteBatch → Nat
  writeStatus : Nat → Code

/-- The method `begin`. -/
def RocksDBKVStore.begin (s : RocksDBKVStore) (txCtx : Option Nat) : Bool × RocksDBKVStore :=
  (true, { s with in_transaction := true, transactionCtx := txCtx })

/-- The method `set`; `now` is the clock read by the request constructor. The
result is the exception thrown, if any, and the store the call leaves. -/
def RocksDBKVStore.set (s : RocksDBKVStore) (item : Item) (now : Int) :
    Option Exn × RocksDBKVStore :=
  if !s.in_transaction then
    (some Exn.logic_error, s)
  else
    (none, { s with pendingReqs :=
      s.pendingReqs ++ [RocksRequest.make item MutationRequestCallback.setCb now] })

/-- The method `del`; `now` is the clock read by the request constructor. The
result is the exception thrown, if any, and the store the call leaves. -/
def RocksDBKVStore.del (s : RocksDBKVStore) (item : Item) (now : Int) :
    Option Exn × RocksDBKVStore :=
  if !s.in_transaction then
    (some Exn.logic_error, s)
  else
    (none, { s with pendingReqs :=
      s.pendingReqs ++ [RocksRequest.make item MutationRequestCallback.delCb now] })

/-- The method `rollback`. -/
def RocksDBKVStore.rollback (s : RocksDBKVStore) : RocksDBKVStore :=
  if s.in_transaction then
    { s with in_transaction := false, transactionCtx := none }
  else s

/-- The method `addRequestToWriteBatch`: a put of key to metadata and body into
the default column family, then a put of seqno to key into the seqno column
family. Adding a record to a batch in memory does not fail. -/
def addRequestToWriteBatch (batch : WriteBatch) (request : RocksRequest) : WriteBatch :=
  batch ++ [BatchOp.putDefault (getKeySlice request.key)
              (request.getDocMetaSlice ++ request.getDocBodySlice),
            BatchOp.putSeqno (getSeqnoSlice request.docMeta.bySeqno) (getKeySlice request.key)]

/-- The state of the loop of `saveDocs`: the database, the batch being built,
the number of writes made so far and the running `maxDBSeqno`. -/
structure SaveLoop where
  db : KVRocksDB
  batch : WriteBatch
  writes : Nat
  maxDBSeqno : Int

/-- The loop of `saveDocs` over the requests. It stops with the failing status
and the database reached when a write of a split batch fails. -/
def saveDocsLoop (env : WriteEnv) (batchLimit : Nat) :
    List RocksRequest → SaveLoop → Except (Code × KVRocksDB) SaveLoop
  | [], st => Except.ok st
  | request :: rest, st =>
    let maxDBSeqno := max st.maxDBSeqno request.docMeta.bySeqno
    let batch := addRequestToWriteBatch st.batch request
    if env.dataSize batch > batchLimit then
      let status := env.writeStatus st.writes
      if !status.ok then
        Except.error (status, st.db)
      else
        saveDocsLoop env batchLimit rest
          { db := st.db.write batch, batch := [], writes := st.writes + 1,
            maxDBSeqno := maxDBSeqno }
    else
      saveDocsLoop env batchLimit rest
        { db := st.db, batch := batch, writes := st.writes, maxDBSeqno := maxDBSeqno }

/-- The method `saveDocs`. It throws a logic error when no state is cached for
the vBucket; otherwise it returns the status and the store reached. -/
def RocksDBKVStore.saveDocs (s : RocksDBKVStore) (env : WriteEnv) (vbid : Nat)
    (commitBatch : List RocksRequest) : Except Exn (Code × RocksDBKVStore) :=
  if commitBatch.length = 0 then
    Except.ok (Code.kOk, s)
  else
    match s.cachedVBStates vbid with
    | none => Except.error Exn.logic_error
    | some vbstate =>
      let batchLimit := (s.defaultWriteBufferSize + s.seqnoWriteBufferSize) % 2 ^ 64
      match saveDocsLoop env batchLimit commitBatch
          { db := s.openDB vbid, batch := [], writes := 0, maxDBSeqno := 0 } with
      | Except.error (status, db) => Except.ok (status, s.setDB vbid db)
      | Except.ok st =>
        let batch := saveVBStateToBatch vbstate st.batch
        let status := env.writeStatus st.writes
        if !status.ok then
          Except.ok (status, s.setDB vbid st.db)
        else
          let db := st.db.write batch
          let lastSeqno := readHighSeqnoFromDisk db
          let s1 := s.setDB vbid db
          Except.ok (Code.kOk,
            { s1 with cachedVBStates := fun v =>
                if v = vbid then some { vbstate with highSeqno := lastSeqno }
                else s1.cachedVBStates v })

/-- The constants `MUTATION_FAILED`, `DOC_NOT_FOUND` and `MUTATION_SUCCESS`. -/
def MUTATION_FAILED : Int := -1

/-- See `MUTATION_FAILED`. -/
def DOC_NOT_FOUND : Int := 0

/-- See `MUTATION_FAILED`. -/
def MUTATION_SUCCESS : Int := 1

/-- The static `getMutationStatus`. -/
def getMutationStatus (status : Code) : Except Exn Int :=
  match status with
  | Code.kOk => Except.ok MUTATION_SUCCESS
  | Code.kNotFound => Except.ok DOC_NOT_FOUND
  | Code.kBusy => Except.ok MUTATION_FAILED
  | _ => Except.error Exn.runtime_error

/-- One invocation of a completion callback: the request it belongs to, the
transaction context passed and the result passed. -/
inductive CallbackEvent where
  | delCallback (request : RocksRequest) (txCtx : Option Nat) (rv : Int)
  | setCallback (request : RocksRequest) (txCtx : Option Nat) (mr : Int × Bool)
deriving DecidableEq, Repr

/-- The method `commitCallback`: the callbacks invoked, in order, and the
exception that ended the loop, if any. -/
def commitCallback (txCtx : Option Nat) (status : Code) :
    List RocksRequest → List CallbackEvent × Option Exn
  | [] => ([], none)
  | request :: rest =>
    match getMutationStatus status with
    | Except.error e => ([], some e)
    | Except.ok rv =>
      let ev :=
        if request.deleted then
          CallbackEvent.delCallback request txCtx (if rv ≠ -1 then 1 else rv)
        else
          CallbackEvent.setCallback request txCtx (1, true)
      let r := commitCallback txCtx status rest
      (ev :: r.1, r.2)

/-- The vBucket `commit` writes to: that of the first queued request
(`commitBatch[0]->getVBucketId()`). -/
def RocksDBKVStore.commitVBucket (s : RocksDBKVStore) : Nat :=
  (s.pendingReqs.head?.map (fun r => r.vbucketId)).getD 0

/-- How a call of `commit` ends. -/
inductive CommitResult where
  | returned (success : Bool)
  | threw (e : Exn)
deriving DecidableEq, Repr

/-- The method `commit`: how it ends, the store it leaves and the completion
callbacks it invoked. -/
def RocksDBKVStore.commit (s : RocksDBKVStore) (env : WriteEnv) :
    CommitResult × RocksDBKVStore × List CallbackEvent :=
  if !s.in_transaction then
    (CommitResult.returned true, s, [])
  else if s.pendingReqs.length = 0 then
    (CommitResult.returned true, { s with in_transaction := false }, [])
  else
    let commitBatch := s.pendingReqs
    let s1 := { s with pendingReqs := [] }
    let vbid := s.commitVBucket
    match s1.saveDocs env vbid commitBatch with
    | Except.error e => (CommitResult.threw e, s1, [])
    | Except.ok (status, s2) =>
      let cb := commitCallback s2.transactionCtx status commitBatch
      match cb.2 with
      | some e => (CommitResult.threw e, s2, cb.1)
      | none =>
        if status.ok then
          (CommitResult.returned true,
            { s2 with in_transaction := false, transactionCtx := none }, cb.1)
        else
          (CommitResult.returned false, s2, cb.1)

/-! ## Read path -/

/-- The engine status codes the store produces or tests; every other code is
`ENGINE_FAILED`. -/
inductive ENGINE_ERROR_CODE where
  | ENGINE_SUCCESS
  | ENGINE_KEY_ENOENT
  | ENGINE_KEY_EEXISTS
  | ENGINE_ENOMEM
  | ENGINE_FAILED
deriving DecidableEq, Repr

/-- The enumeration `GetMetaOnly`. -/
inductive GetMetaOnly where
  | Yes
  | No
deriving DecidableEq, Repr

/-- The class `GetValue`: the item (null when there is none), the status, the
id and the keys-only flag. -/
structure GetValue where
  item : Option Item
  status : ENGINE_ERROR_CODE
  id : Int
  onlyKeys : Bool
deriving DecidableEq, Repr

/-- The method `makeItem`. The `assert` on the size of the slice fails for a
slice shorter than the metadata. -/
def makeItem (vb : Nat) (key : DocKey) (s : Bytes) (getMetaOnly : GetMetaOnly) :
    Except Exn Item :=
  if s.length < sizeofMetaData then
    Except.error Exn.assertion
  else
    let meta := MetaData.decode s
    let data := s.drop sizeofMetaData
    let includeValue := decide (getMetaOnly = GetMetaOnly.No) && decide (meta.valueSize ≠ 0)
    Except.ok
      { key := key
        flags := meta.flags
        exptime := meta.exptime
        value := if includeValue then data.take meta.valueSize else []
        datatype := meta.datatype
        cas := meta.cas
        bySeqno := meta.bySeqno
        vbucketId := vb
        revSeqno := meta.revSeqno
        deleted := meta.deleted }

/-- The method `makeGetValue`. -/
def makeGetValue (vb : Nat) (key : DocKey) (value : Bytes) (getMetaOnly : GetMetaOnly) :
    Except Exn GetValue :=
  match makeItem vb key value getMetaOnly with
  | Except.error e => Except.error e
  | Except.ok item =>
    Except.ok { item := some item, status := ENGINE_ERROR_CODE.ENGINE_SUCCESS, id := -1,
                onlyKeys := false }

/-- The method `getWithHeader`. The argument `fetchDelete` is not read. -/
def RocksDBKVStore.getWithHeader (s : RocksDBKVStore) (key : DocKey) (vb : Nat)
    (getMetaOnly : GetMetaOnly) (_fetchDelete : Bool) : Except Exn GetValue :=
  match (s.openDB vb).defaultCF.get (getKeySlice key) with
  | none =>
    Except.ok { item := none, status := ENGINE_ERROR_CODE.ENGINE_KEY_ENOENT, id := -1,
                onlyKeys := false }
  | some value => makeGetValue vb key value getMetaOnly

/-- The method `get`. -/
def RocksDBKVStore.get (s : RocksDBKVStore) (key : DocKey) (vb : Nat) (fetchDelete : Bool) :
    Except Exn GetValue :=
  s.getWithHeader key vb GetMetaOnly.No fetchDelete

/-! ## Scan -/

/-- The enumeration `DocumentFilter`: `ALL_ITEMS` is the spec's IncludeDeletes. -/
inductive DocumentFilter where
  | ALL_ITEMS
  | NO_DELETES
deriving DecidableEq, Repr

/-- The enumeration `ValueFilter`: `VALUES` is the spec's MetaAndValue. -/
inductive ValueFilter where
  | KEYS_ONLY
  | VALUES
deriving DecidableEq, Repr

/-- The enumeration `scan_error_t`. -/
inductive scan_error_t where
  | scan_success
  | scan_again
  | scan_failed
deriving DecidableEq, Repr

/-- The members of `ScanContext` the store reads and writes; the two callbacks
are passed to `scan` beside it. -/
structure ScanContext where
  vbid : Nat
  scanId : Nat
  startSeqno : Int
  maxSeqno : Int
  lastReadSeqno : Int
  docFilter : DocumentFilter
  valFilter : ValueFilter
  documentCount : Nat
deriving DecidableEq, Repr

/-- The class `CacheLookup`. -/
structure CacheLookup where
  key : DocKey
  bySeqno : Int
  vbid : Nat
deriving DecidableEq, Repr

/-- The two callbacks of a scan. Each is an object with a state of its own:
a call takes the state and the argument and gives the new state and the status
`getStatus` then reports. -/
structure ScanCallbacks (σ : Type) where
  lookup : σ → CacheLookup → σ × ENGINE_ERROR_CODE
  callback : σ → GetValue → σ × ENGINE_ERROR_CODE

/-- One call of a callback made by `scan`, with the status it reported. -/
inductive ScanEvent where
  | lookup (c : CacheLookup) (status : ENGINE_ERROR_CODE)
  | value (rv : GetValue) (status : ENGINE_ERROR_CODE)
deriving DecidableEq, Repr

/-- Modelled from the spec: the comparator of the seqno column family is
declared outside these sources; it reads both slices as 64-bit signed numbers
and returns the sign of their difference. -/
def vbidSeqnoComparator (a b : SeqnoSlice) : Int :=
  if getNumericSeqno a < getNumericSeqno b then -1
  else if getNumericSeqno a > getNumericSeqno b then 1
  else 0

/-- The lambda `isPastEnd` of `scan`. -/
def isPastEnd (endSeqnoSlice : SeqnoSlice) (seqSlice : SeqnoSlice) : Bool :=
  decide (vbidSeqnoComparator seqSlice endSeqnoSlice = 1)

/-- How the loop of `scan` ends: the iterator is no longer valid, the key is
past the end, or the body returned or threw. -/
inductive LoopEnd where
  | invalid
  | pastEnd
  | returned (e : scan_error_t)
  | threw (e : Exn)
deriving DecidableEq, Repr

/-- What the loop of `scan` leaves: how it ended, the last read seqno, the
state of the callbacks and the calls made, in order. -/
structure LoopOut (σ : Type) where
  loopEnd : LoopEnd
  lastReadSeqno : Int
  cbState : σ
  events : List ScanEvent

/-- The loop of `scan` over the entries the iterator yields, read against the
pinned contents `snap`. -/
def scanLoop {σ : Type} (snap : KVRocksDB) (cbs : ScanCallbacks σ) (ctx : ScanContext) :
    List (SeqnoSlice × Bytes) → Int → σ → LoopOut σ
  | [], lastReadSeqno, st =>
    { loopEnd := LoopEnd.invalid, lastReadSeqno := lastReadSeqno, cbState := st, events := [] }
  | (seqSlice, keySlice) :: rest, lastReadSeqno, st =>
    if isPastEnd (getSeqnoSlice ctx.maxSeqno) seqSlice then
      { loopEnd := LoopEnd.pastEnd, lastReadSeqno := lastReadSeqno, cbState := st, events := [] }
    else
      let seqno := getNumericSeqno seqSlice
      match snap.defaultCF.get keySlice with
      | none => scanLoop snap cbs ctx rest lastReadSeqno st
      | some valueStr =>
        let key : DocKey := { data := keySlice, ns := DocNamespace.DefaultCollection }
        let isMetaOnly :=
          if ctx.valFilter = ValueFilter.KEYS_ONLY then GetMetaOnly.Yes else GetMetaOnly.No
        match makeItem ctx.vbid key valueStr isMetaOnly with
        | Except.error e =>
          { loopEnd := LoopEnd.threw e, lastReadSeqno := lastReadSeqno, cbState := st,
            events := [] }
        | Except.ok itm =>
          if itm.bySeqno > seqno then
            scanLoop snap cbs ctx rest lastReadSeqno st
          else if itm.bySeqno < seqno then
            { loopEnd := LoopEnd.threw Exn.logic_error, lastReadSeqno := lastReadSeqno,
              cbState := st, events := [] }
          else
            let includeDeletes := if ctx.docFilter = DocumentFilter.NO_DELETES then false else true
            let onlyKeys := if ctx.valFilter = ValueFilter.KEYS_ONLY then true else false
            if !includeDeletes && itm.deleted then
              scanLoop snap cbs ctx rest lastReadSeqno st
            else
              let byseqno := itm.bySeqno
              let lookup : CacheLookup := { key := key, bySeqno := byseqno, vbid := ctx.vbid }
              let l := cbs.lookup st lookup
              if l.2 = ENGINE_ERROR_CODE.ENGINE_KEY_EEXISTS then
                let r := scanLoop snap cbs ctx rest byseqno l.1
                { r with events := ScanEvent.lookup lookup l.2 :: r.events }
              else if l.2 = ENGINE_ERROR_CODE.ENGINE_ENOMEM then
                { loopEnd := LoopEnd.returned scan_error_t.scan_again,
                  lastReadSeqno := lastReadSeqno, cbState := l.1,
                  events := [ScanEvent.lookup lookup l.2] }
              else
                let rv : GetValue :=
                  { item := some itm, status := ENGINE_ERROR_CODE.ENGINE_SUCCESS, id := -1,
                    onlyKeys := onlyKeys }
                let c := cbs.callback l.1 rv
                if c.2 = ENGINE_ERROR_CODE.ENGINE_ENOMEM then
                  { loopEnd := LoopEnd.returned scan_error_t.scan_again,
                    lastReadSeqno := lastReadSeqno, cbState := c.1,
                    events := [ScanEvent.lookup lookup l.2, ScanEvent.value rv c.2] }
                else
                  let r := scanLoop snap cbs ctx rest byseqno c.1
                  { r with events := ScanEvent.lookup lookup l.2 :: ScanEvent.value rv c.2 ::
                      r.events }

/-- How a call of `scan` ends. -/
inductive ScanResult where
  | returned (e : scan_error_t)
  | threw (e : Exn)
deriving DecidableEq, Repr

/-- What a call of `scan` leaves: how it ended, the context, the state of the
callbacks and the calls of the callbacks it made, in order. -/
structure ScanOut (σ : Type) where
  result : ScanResult
  ctx : Option ScanContext
  cbState : σ
  events : List ScanEvent

/-- The method `scan`. `iterFail` tells whether the iterator of this call
meets an error, and after how many entries: it is then no longer valid and its
status is not ok, so that the closing `cb_assert` fails. A context whose scan
id has no pinned snapshot makes `scanSnapshots.at` throw. -/
def RocksDBKVStore.scan {σ : Type} (s : RocksDBKVStore) (cbs : ScanCallbacks σ)
    (iterFail : Option Nat) (ctx : Option ScanContext) (st : σ) : ScanOut σ :=
  match ctx with
  | none =>
    { result := ScanResult.returned scan_error_t.scan_failed, ctx := none, cbState := st,
      events := [] }
  | some ctx =>
    if ctx.lastReadSeqno = ctx.maxSeqno then
      { result := ScanResult.returned scan_error_t.scan_success, ctx := some ctx, cbState := st,
        events := [] }
    else
      let startSeqno := if ctx.lastReadSeqno ≠ 0 then ctx.lastReadSeqno + 1 else ctx.startSeqno
      match s.scanSnapshots.lookup ctx.scanId with
      | none =>
        { result := ScanResult.threw Exn.out_of_range, ctx := some ctx, cbState := st,
          events := [] }
      | some snap =>
        let entries := snap.seekSeqno (getSeqnoSlice startSeqno)
        let visible := match iterFail with
          | none => entries
          | some n => entries.take n
        let r := scanLoop snap cbs ctx visible ctx.lastReadSeqno st
        let ctx1 := { ctx with lastReadSeqno := r.lastReadSeqno }
        let result := match r.loopEnd with
          | LoopEnd.returned e => ScanResult.returned e
          | LoopEnd.threw e => ScanResult.threw e
          | LoopEnd.pastEnd => ScanResult.returned scan_error_t.scan_success
          | LoopEnd.invalid =>
            if iterFail.isSome then ScanResult.threw Exn.assertion
            else ScanResult.returned scan_error_t.scan_success
        { result := result, ctx := some ctx1, cbState := r.cbState, events := r.events }

/-- The method `initScanContext`: the context and the store with the snapshot
pinned. The constructor of `ScanContext` is declared outside these sources; it
is taken to start `lastReadSeqno` at 0, the value `scan` reads as nothing read
yet. Without a cached state for the vBucket the read of its high seqno has no
defined result. -/
def RocksDBKVStore.initScanContext (s : RocksDBKVStore) (vbid : Nat) (startSeqno : Nat)
    (options : DocumentFilter) (valOptions : ValueFilter) :
    Option (ScanContext × RocksDBKVStore) :=
  let scanId := s.scanCounter
  let db := s.openDB vbid
  let s1 := { s with scanCounter := s.scanCounter + 1,
                     scanSnapshots := s.scanSnapshots ++ [(scanId, db)] }
  match s.cachedVBStates vbid with
  | none => none
  | some vbstate =>
    let endSeqno := toU64 vbstate.highSeqno
    some ({ vbid := vbid, scanId := scanId, startSeqno := toI64 (startSeqno % 2 ^ 64),
            maxSeqno := toI64 endSeqno, lastReadSeqno := 0, docFilter := options,
            valFilter := valOptions,
            documentCount := (endSeqno + 2 ^ 64 - startSeqno % 2 ^ 64 + 1) % 2 ^ 64 }, s1)

/-! ## Reference definitions for the refinement claims -/

/-- The single batch the spec compares `saveDocs` with: the puts of all the
requests, in order, followed by the put of the state blob. -/
def atomicBatch (commitBatch : List RocksRequest) (vbstate : vbucket_state) : WriteBatch :=
  saveVBStateToBatch vbstate (commitBatch.foldl addRequestToWriteBatch [])

/-! ## Example objects

Concrete stores, items and surroundings at which the theorems are
instantiated. -/

/-- A vBucket state: active, all counters 0. -/
def exampleState : vbucket_state :=
  { state := vbucket_state_t.vbucket_state_active, checkpointId := 0, maxDeletedSeqno := 0,
    highSeqno := 0, purgeSeqno := 0, lastSnapStart := 0, lastSnapEnd := 0, maxCas := 0,
    hlcCasEpochSeqno := -1, mightContainXattrs := false, failovers := "" }

/-- A store just constructed: every database empty, a state cached for
vBucket 0 only, no transaction open. -/
def exampleStore : RocksDBKVStore :=
  { vbDB := fun _ => KVRocksDB.empty
    cachedVBStates := fun v => if v = 0 then some exampleState else none
    in_transaction := false
    transactionCtx := none
    pendingReqs := []
    scanCounter := 0
    scanSnapshots := []
    defaultWriteBufferSize := 64
    seqnoWriteBufferSize := 64 }

/-- An item of vBucket 0 with a one-byte key and a one-byte body. -/
def exampleItem (key : Nat) (bySeqno : Int) (deleted : Bool) : Item :=
  { key := { data := [key], ns := DocNamespace.DefaultCollection }, flags := 0, exptime := 0,
    value := [118], datatype := 0, cas := 100, bySeqno := bySeqno, vbucketId := 0, revSeqno := 1,
    deleted := deleted }

/-- Every write succeeds; a batch reports the size of its header (12 bytes)
plus 50 bytes a record. -/
def okEnv : WriteEnv :=
  { dataSize := fun batch => 12 + 50 * batch.length, writeStatus := fun _ => Code.kOk }

/-- Every write fails with the given status. -/
def failEnv (c : Code) : WriteEnv :=
  { dataSize := fun batch => 12 + 50 * batch.length, writeStatus := fun _ => c }

/-- The first write succeeds and every later one fails with the given status. -/
def failLaterEnv (c : Code) : WriteEnv :=
  { dataSize := fun batch => 12 + 50 * batch.length,
    writeStatus := fun n => if n = 0 then Code.kOk else c }

/-- The example store after `begin()` and `set` of the given items. -/
def storeWithPending (items : List Item) : RocksDBKVStore :=
  items.foldl (fun s item => (s.set item 1000).2) (exampleStore.begin none).2

/-- The example store after `begin()`, `set` of one item and `rollback()`. -/
def rolledBackStore : RocksDBKVStore :=
  (storeWithPending [exampleItem 107 1 false]).rollback

/-! ## Projections of a batch, used to state what a write leaves -/

/-- The puts of a batch into the default column family, in order. -/
def defaultPuts (batch : WriteBatch) : List (Bytes × Bytes) :=
  batch.filterMap (fun op => match op with
    | BatchOp.putDefault k v => some (k, v)
    | _ => none)

/-- The puts of a batch into the seqno column family, in order. -/
def seqnoPuts (batch : WriteBatch) : List (SeqnoSlice × Bytes) :=
  batch.filterMap (fun op => match op with
    | BatchOp.putSeqno q k => some (q, k)
    | _ => none)

/-- The puts of a batch into the local column family, in order. -/
def localPuts (batch : WriteBatch) : List (String × String) :=
  batch.filterMap (fun op => match op with
    | BatchOp.putLocal k v => some (k, v)
    | _ => none)

/-- The record a request puts into the default column family. -/
def RocksRequest.defaultRecord (r : RocksRequest) : Bytes × Bytes :=
  (getKeySlice r.key, r.getDocMetaSlice ++ r.getDocBodySlice)

/-- The mapping a request puts into the seqno column family. -/
def RocksRequest.seqnoRecord (r : RocksRequest) : SeqnoSlice × Bytes :=
  (getSeqnoSlice r.docMeta.bySeqno, getKeySlice r.key)

/-! ## Reading the trace of a scan -/

/-- The item a call of the value callback was passed. -/
def ScanEvent.passed : ScanEvent → Option Item
  | ScanEvent.value rv _ => rv.item
  | ScanEvent.lookup _ _ => none

/-- The records passed to the value callback, in call order. -/
def delivered (events : List ScanEvent) : List Item := events.filterMap ScanEvent.passed

/-- The item a call of the value callback accepted: the call did not report
out-of-memory. -/
def ScanEvent.taken : ScanEvent → Option Item
  | ScanEvent.value rv status =>
    if status = ENGINE_ERROR_CODE.ENGINE_ENOMEM then none else rv.item
  | ScanEvent.lookup _ _ => none

/-- The records accepted by the value callback, in call order. -/
def accepted (events : List ScanEvent) : List Item := events.filterMap ScanEvent.taken

/-- The scan contexts a program meets: one just built (nothing read yet), or
one left by a call of `scan` on such a context. -/
inductive ScanContext.Reachable : ScanContext → Prop where
  | fresh (ctx : ScanContext) (h : ctx.lastReadSeqno = 0) : ScanContext.Reachable ctx
  | scanned {σ : Type} (s : RocksDBKVStore) (cbs : ScanCallbacks σ) (iterFail : Option Nat)
      (ctx ctx1 : ScanContext) (st : σ) (h : ScanContext.Reachable ctx)
      (h1 : (s.scan cbs iterFail (some ctx) st).ctx = some ctx1) : ScanContext.Reachable ctx1

/-- What the body of the loop of `scan` makes of one entry of the iterator
before it calls a callback: it moves on (no record, a newer record, a filtered
delete), it throws, or it holds an item to offer to the callbacks. -/
inductive EntryClass where
  | skip
  | throw (e : Exn)
  | candidate (itm : Item)
deriving DecidableEq, Repr

/-- The class of an entry of the iterator, read against the pinned contents. -/
def scanEntry (snap : KVRocksDB) (ctx : ScanContext) (e : SeqnoSlice × Bytes) : EntryClass :=
  match snap.defaultCF.get e.2 with
  | none => EntryClass.skip
  | some valueStr =>
    match makeItem ctx.vbid { data := e.2, ns := DocNamespace.DefaultCollection } valueStr
        (if ctx.valFilter = ValueFilter.KEYS_ONLY then GetMetaOnly.Yes else GetMetaOnly.No) with
    | Except.error x => EntryClass.throw x
    | Except.ok itm =>
      if itm.bySeqno > getNumericSeqno e.1 then EntryClass.skip
      else if itm.bySeqno < getNumericSeqno e.1 then EntryClass.throw Exn.logic_error
      else if ctx.docFilter = DocumentFilter.NO_DELETES ∧ itm.deleted = true then EntryClass.skip
      else EntryClass.candidate itm

/-- The argument of the cache-lookup callback for an item. -/
def lookupOf (ctx : ScanContext) (itm : Item) : CacheLookup :=
  { key := itm.key, bySeqno := itm.bySeqno, vbid := ctx.vbid }

/-- The argument of the value callback for an item. -/
def valueOf (ctx : ScanContext) (itm : Item) : GetValue :=
  { item := some itm, status := ENGINE_ERROR_CODE.ENGINE_SUCCESS, id := -1,
    onlyKeys := if ctx.valFilter = ValueFilter.KEYS_ONLY then true else false }

/-- Callbacks without state that always report success. -/
def okCallbacks : ScanCallbacks Unit :=
  { lookup := fun st _ => (st, ENGINE_ERROR_CODE.ENGINE_SUCCESS)
    callback := fun st _ => (st, ENGINE_ERROR_CODE.ENGINE_SUCCESS) }

/-- The example store after the given items were set and committed in one
transaction, every write succeeding. -/
def storeAfterCommit (items : List Item) : RocksDBKVStore :=
  ((storeWithPending items).commit okEnv).2.1

/-- A store on which a scan of vBucket 0 has just been opened: the given
database of vBucket 0 is pinned under scan id 0. -/
def storeWithSnapshot (snap : KVRocksDB) : RocksDBKVStore :=
  { exampleStore with vbDB := fun v => if v = 0 then snap else KVRocksDB.empty
                      scanCounter := 1
                      scanSnapshots := [(0, snap)] }

/-- A context just built for scan id 0 on vBucket 0, deletes included. -/
def freshContext (startSeqno maxSeqno : Int) : ScanContext :=
  { vbid := 0, scanId := 0, startSeqno := startSeqno, maxSeqno := maxSeqno, lastReadSeqno := 0,
    docFilter := DocumentFilter.ALL_ITEMS, valFilter := ValueFilter.VALUES, documentCount := 0 }

/-- Scenario 3 of the spec: seqnos 5, 3 and 7 committed for the keys `a`, `b`
and `c`. -/
def scenario3DB : KVRocksDB :=
  (storeAfterCommit [exampleItem 97 5 false, exampleItem 98 3 false,
    exampleItem 99 7 false]).vbDB 0

/-! ## Pausing and resuming a scan -/

/-- Callbacks whose out-of-memory reports follow a pattern: the state is the
pattern still to come, one entry per call of either callback, `true` for a call
that reports out-of-memory; once the pattern is used up no call reports it.
A call that does not report out-of-memory answers as the callbacks of an
uninterrupted scan do: the cache lookup reports key-exists exactly for the
lookups `cached` holds for, the value callback reports success. -/
def tapeCallbacks (cached : CacheLookup → Bool) : ScanCallbacks (List Bool) :=
  { lookup := fun tape c =>
      match tape with
      | true :: rest => (rest, ENGINE_ERROR_CODE.ENGINE_ENOMEM)
      | false :: rest =>
        (rest, if cached c then ENGINE_ERROR_CODE.ENGINE_KEY_EEXISTS
               else ENGINE_ERROR_CODE.ENGINE_SUCCESS)
      | [] =>
        ([], if cached c then ENGINE_ERROR_CODE.ENGINE_KEY_EEXISTS
             else ENGINE_ERROR_CODE.ENGINE_SUCCESS)
    callback := fun tape _ =>
      match tape with
      | true :: rest => (rest, ENGINE_ERROR_CODE.ENGINE_ENOMEM)
      | false :: rest => (rest, ENGINE_ERROR_CODE.ENGINE_SUCCESS)
      | [] => ([], ENGINE_ERROR_CODE.ENGINE_SUCCESS) }

/-- The caller of a scan that resumes it: `scan` is called on the context, and
called again on the context it leaves as long as it returns `scan_again`, at
most `fuel` more times. The result is that of the last call, with the calls of
the callbacks of all the calls, in order. No iterator fails. -/
def RocksDBKVStore.scanRepeat {σ : Type} (s : RocksDBKVStore) (cbs : ScanCallbacks σ) :
    Nat → ScanContext → σ → ScanOut σ
  | 0, ctx, st => s.scan cbs none (some ctx) st
  | fuel + 1, ctx, st =>
    let out := s.scan cbs none (some ctx) st
    match out.result, out.ctx with
    | ScanResult.returned scan_error_t.scan_again, some ctx1 =>
      let r := RocksDBKVStore.scanRepeat s cbs fuel ctx1 out.cbState
      { r with events := out.events ++ r.events }
    | _, _ => out

/-- A database with the seqnos 0 and 1 committed for the keys `a` and `b`. -/
def seqnoZeroDB : KVRocksDB :=
  (storeAfterCommit [exampleItem 97 0 false, exampleItem 98 1 false]).vbDB 0

/-- Scenario 2 of the spec: key `k` set at seqno 1 and committed, then deleted
at seqno 2 and committed. -/
def scenario2DB : KVRocksDB :=
  (((((storeAfterCommit [exampleItem 107 1 false]).begin none).2.del
    (exampleItem 107 2 true) 1001).2.commit okEnv).2.1).vbDB 0

/-! ## Reading the state of a vBucket -/

/-- A node of a document parsed by the cJSON library, as far as the store looks
at it: a string with its text, true, false, or a node of another type, kept as
the text `cJSON_PrintUnformatted` prints for it. -/
inductive cJSON where
  | cJSON_String (valuestring : String)
  | cJSON_True
  | cJSON_False
  | cJSON_Other (unformatted : String)
deriving DecidableEq, Repr

/-- A parsed document: the members of its top-level object, in order. A failed
parse gives the null pointer, `none`. -/
abbrev cJSONObject := List (String × cJSON)

/-- The function `cJSON_GetObjectItem`: the first member of that name, null
when the object is null or has no such member. -/
def cJSON_GetObjectItem (jsonObj : Option cJSONObject) (name : String) : Option cJSON :=
  match jsonObj with
  | none => none
  | some members => members.lookup name

/-- The function `cJSON_PrintUnformatted`. -/
def cJSON_PrintUnformatted : cJSON → String
  | cJSON.cJSON_String valuestring => "\"" ++ valuestring ++ "\""
  | cJSON.cJSON_True => "true"
  | cJSON.cJSON_False => "false"
  | cJSON.cJSON_Other unformatted => unformatted

/-- Modelled from the spec: `getJSONObjString` is defined outside these
sources. A missing member gives the empty string, which is what makes an
optional field decay; a string member gives its text. A member of any other
type is not one the store writes; the helper stops the process on it. -/
def getJSONObjString (i : Option cJSON) : Except Exn String :=
  match i with
  | none => Except.ok ""
  | some (cJSON.cJSON_String valuestring) => Except.ok valuestring
  | some _ => Except.error Exn.assertion

/-- Modelled from the spec: `getJSONObjBool` is defined outside these sources.
A missing member gives false, a boolean member its value; the helper stops
the process on a member of any other type. -/
def getJSONObjBool (i : Option cJSON) : Except Exn Bool :=
  match i with
  | none => Except.ok false
  | some cJSON.cJSON_True => Except.ok true
  | some cJSON.cJSON_False => Except.ok false
  | some _ => Except.error Exn.assertion

/-- Modelled from the spec: `VBucket::fromString` is defined outside these
sources; it is the inverse of `VBucket::toString` on the four state names, and
any other text gives dead. -/
def VBucket.fromString (state : String) : vbucket_state_t :=
  if state = "active" then vbucket_state_t.vbucket_state_active
  else if state = "replica" then vbucket_state_t.vbucket_state_replica
  else if state = "pending" then vbucket_state_t.vbucket_state_pending
  else vbucket_state_t.vbucket_state_dead

/-- Modelled from the spec: the sentinel `HlcCasSeqnoUninitialised` of an
hlc-epoch seqno that was never set is declared outside these sources; -1 is
taken for it. -/
def HlcCasSeqnoUninitialised : Int := -1

/-- The value of a run of decimal digits. -/
def digitsValue (ds : List Char) : Nat :=
  ds.foldl (fun a c => 10 * a + (c.toNat - 48)) 0

/-- The optional sign in front of a number text: whether it is a minus, and
the chars after it. -/
def numberSign (cs : List Char) : Bool × List Char :=
  match cs with
  | '-' :: rest => (true, rest)
  | '+' :: rest => (false, rest)
  | _ => (false, cs)

/-- The function `std::stoull` in base 10: leading white space is skipped, a
sign may follow, then the longest run of digits is read; no digit throws
`std::invalid_argument`, a value that does not fit 64 bits throws
`std::out_of_range`, and a minus sign negates the value in 64-bit unsigned
arithmetic. -/
def stoull (str : String) : Except Exn Nat :=
  let signed := numberSign (str.data.dropWhile Char.isWhitespace)
  let ds := signed.2.takeWhile Char.isDigit
  if ds.isEmpty then Except.error Exn.invalid_argument
  else if 2 ^ 64 ≤ digitsValue ds then Except.error Exn.out_of_range
  else Except.ok (if signed.1 then (2 ^ 64 - digitsValue ds) % 2 ^ 64 else digitsValue ds)

/-- The state `readVBState` caches when the blob is missing, unreadable or in
the wrong format: dead, with the high seqno read from disk. -/
def defaultVBState (highSeqno : Int) (mightContainXattrs : Bool) : vbucket_state :=
  { state := vbucket_state_t.vbucket_state_dead, checkpointId := 0, maxDeletedSeqno := 0,
    highSeqno := highSeqno, purgeSeqno := 0, lastSnapStart := 0, lastSnapEnd := 0, maxCas := 0,
    hlcCasEpochSeqno := HlcCasSeqnoUninitialised, mightContainXattrs := mightContainXattrs,
    failovers := "" }

/-- The state `readVBState` builds from the database of a vBucket.
`cJSON_Parse` is the parser of the cJSON library, null (`none`) on a text that
is not JSON. An exception of `std::stoull` or a stop in a helper leaves
`readVBState` before it caches anything. -/
def readVBStateValue (cJSON_Parse : String → Option cJSONObject) (db : KVRocksDB) :
    Except Exn vbucket_state :=
  let highSeqno := readHighSeqnoFromDisk db
  match db.localCF.get getVbstateKey with
  | none => Except.ok (defaultVBState highSeqno false)
  | some vbstate =>
    let jsonObj := cJSON_Parse vbstate
    match getJSONObjString (cJSON_GetObjectItem jsonObj "state"),
          getJSONObjString (cJSON_GetObjectItem jsonObj "checkpoint_id"),
          getJSONObjString (cJSON_GetObjectItem jsonObj "max_deleted_seqno"),
          getJSONObjString (cJSON_GetObjectItem jsonObj "snap_start"),
          getJSONObjString (cJSON_GetObjectItem jsonObj "snap_end"),
          getJSONObjString (cJSON_GetObjectItem jsonObj "max_cas"),
          getJSONObjString (cJSON_GetObjectItem jsonObj "hlc_epoch"),
          getJSONObjBool (cJSON_GetObjectItem jsonObj "might_contain_xattrs") with
    | Except.ok vb_state, Except.ok checkpoint_id, Except.ok max_deleted_seqno,
      Except.ok snapStart, Except.ok snapEnd, Except.ok maxCasValue, Except.ok hlcCasEpoch,
      Except.ok mightContainXattrs =>
      let failover_json := cJSON_GetObjectItem jsonObj "failover_table"
      if vb_state = "" ∨ checkpoint_id = "" ∨ max_deleted_seqno = "" then
        Except.ok (defaultVBState highSeqno mightContainXattrs)
      else
        match stoull max_deleted_seqno, stoull checkpoint_id,
              (if snapStart = "" then Except.ok (toU64 highSeqno) else stoull snapStart),
              (if snapEnd = "" then Except.ok (toU64 highSeqno) else stoull snapEnd),
              (if maxCasValue ≠ "" then stoull maxCasValue else Except.ok 0),
              (if hlcCasEpoch ≠ "" then (stoull hlcCasEpoch).map toI64
               else Except.ok HlcCasSeqnoUninitialised) with
        | Except.ok maxDeletedSeqno, Except.ok checkpointId, Except.ok lastSnapStart,
          Except.ok lastSnapEnd, Except.ok maxCas, Except.ok hlcCasEpochSeqno =>
          Except.ok
            { state := VBucket.fromString vb_state
              checkpointId := checkpointId
              maxDeletedSeqno := maxDeletedSeqno
              highSeqno := highSeqno
              purgeSeqno := 0
              lastSnapStart := lastSnapStart
              lastSnapEnd := lastSnapEnd
              maxCas := maxCas
              hlcCasEpochSeqno := hlcCasEpochSeqno
              mightContainXattrs := mightContainXattrs
              failovers := match failover_json with
                | some json => cJSON_PrintUnformatted json
                | none => "" }
        | Except.error e, _, _, _, _, _ => Except.error e
        | _, Except.error e, _, _, _, _ => Except.error e
        | _, _, Except.error e, _, _, _ => Except.error e
        | _, _, _, Except.error e, _, _ => Except.error e
        | _, _, _, _, Except.error e, _ => Except.error e
        | _, _, _, _, _, Except.error e => Except.error e
    | _, _, _, _, _, _, _, _ => Except.error Exn.assertion

/-- The method `readVBState`: the state built from the database of the vBucket
is cached for it. -/
def RocksDBKVStore.readVBState (s : RocksDBKVStore) (cJSON_Parse : String → Option cJSONObject)
    (vbid : Nat) : Except Exn RocksDBKVStore :=
  match readVBStateValue cJSON_Parse (s.openDB vbid) with
  | Except.error e => Except.error e
  | Except.ok state =>
    Except.ok { s with cachedVBStates := fun v =>
      if v = vbid then some state else s.cachedVBStates v }

/-- The chars of a decimal numeral. -/
def IsNumeral (l : List Char) : Prop :=
  l ≠ [] ∧ ∀ c ∈ l, c.isDigit = true ∧ c.isWhitespace = false ∧ c ≠ '-' ∧ c ≠ '+'

/-- The members of the JSON object whose text `saveVBStateToBatch` builds for a
state, in the order they are written; `failover` is the node of the failover
table, absent when the table is empty. -/
def vbstateMembers (vbState : vbucket_state) (failover : Option cJSON) : cJSONObject :=
  [("state", cJSON.cJSON_String (VBucket.toString vbState.state)),
   ("checkpoint_id", cJSON.cJSON_String (toString vbState.checkpointId)),
   ("max_deleted_seqno", cJSON.cJSON_String (toString vbState.maxDeletedSeqno))]
  ++ (match failover with
      | some json => [("failover_table", json)]
      | none => [])
  ++ [("snap_start", cJSON.cJSON_String (toString vbState.lastSnapStart)),
      ("snap_end", cJSON.cJSON_String (toString vbState.lastSnapEnd)),
      ("max_cas", cJSON.cJSON_String (toString vbState.maxCas)),
      ("hlc_epoch", cJSON.cJSON_String (toString vbState.hlcCasEpochSeqno)),
      ("might_contain_xattrs",
        if vbState.mightContainXattrs then cJSON.cJSON_True else cJSON.cJSON_False)]

/-- The members of a `vbucket_state` that are written to the blob fit their
C++ types. -/
def vbucket_state.WF (vbState : vbucket_state) : Prop :=
  vbState.checkpointId < 2 ^ 64 ∧ vbState.maxDeletedSeqno < 2 ^ 64 ∧
  vbState.lastSnapStart < 2 ^ 64 ∧ vbState.lastSnapEnd < 2 ^ 64 ∧ vbState.maxCas < 2 ^ 64 ∧
  (-(2 ^ 63) ≤ vbState.hlcCasEpochSeqno ∧ vbState.hlcCasEpochSeqno < 2 ^ 63)

/-! ## Construction -/

/-- The members of `KVStoreConfig` the embedding uses. -/
structure KVStoreConfig where
  dbName : String
  maxVBuckets : Nat
  maxShards : Nat
  shardId : Nat
  defaultWriteBufferSize : Nat
  seqnoWriteBufferSize : Nat
deriving DecidableEq, Repr

/-- The part of a name after its last dot, as cut out by `rfind` and `substr`
in `discoverVBuckets`; the whole name when it has no dot. -/
def afterLastDot (dir : List Char) : List Char :=
  (dir.reverse.takeWhile (fun c => c ≠ '.')).reverse

/-- The function `atoi`: leading white space is skipped, a sign may follow,
then the longest run of digits is read; no digit gives 0. -/
def atoi (cs : List Char) : Int :=
  let signed := numberSign (cs.dropWhile Char.isWhitespace)
  let v : Int := digitsValue (signed.2.takeWhile Char.isDigit)
  if signed.1 then -v else v

/-- The method `discoverVBuckets`, on the names `findFilesContaining` returns
for the data directory: the entries whose name contains `rocksdb.`. The
number read is narrowed to a `uint16_t`. -/
def discoverVBuckets (config : KVStoreConfig) (vbDirs : List String) : List Nat :=
  vbDirs.filterMap (fun dir =>
    let vbid := (atoi (afterLastDot dir.data) % 65536).toNat
    if vbid % config.maxShards = config.shardId then some vbid else none)

/-- The constructor of `RocksDBKVStore`, as far as the state of the store goes:
`cachedVBStates` starts with a null entry for every vBucket, and the state of
every vBucket discovered in the data directory is read from its database.
`disk` gives the contents of the database of each vBucket. -/
def RocksDBKVStore.create (config : KVStoreConfig) (vbDirs : List String)
    (disk : Nat → KVRocksDB) (cJSON_Parse : String → Option cJSONObject) :
    Except Exn RocksDBKVStore :=
  (discoverVBuckets config vbDirs).foldlM
    (fun s vbid => RocksDBKVStore.readVBState s cJSON_Parse vbid)
    { vbDB := disk
      cachedVBStates := fun _ => none
      in_transaction := false
      transactionCtx := none
      pendingReqs := []
      scanCounter := 0
      scanSnapshots := []
      defaultWriteBufferSize := config.defaultWriteBufferSize
      seqnoWriteBufferSize := config.seqnoWriteBufferSize
      maxVBuckets := config.maxVBuckets }

/-- The method `listPersistedVbuckets`: one entry for each slot of
`cachedVBStates`, null where no state is cached. -/
def RocksDBKVStore.listPersistedVbuckets (s : RocksDBKVStore) : List (Option vbucket_state) :=
  (List.range s.maxVBuckets).map s.cachedVBStates

/-- A configuration with four vBuckets and one shard. -/
def exampleConfig : KVStoreConfig :=
  { dbName := "db", maxVBuckets := 4, maxShards := 1, shardId := 0,
    defaultWriteBufferSize := 64, seqnoWriteBufferSize := 64 }

/-- A state with a purge seqno. -/
def purgedState : vbucket_state := { exampleState with purgeSeqno := 7, maxCas := 12 }

/-- The text of a state blob that carries only a state, a checkpoint id and a
max deleted seqno. -/
def minimalBlob : String :=
  "\x7b\"state\": \"active\",\"checkpoint_id\": \"3\",\"max_deleted_seqno\": \"0\"\x7d"

/-- A parser that knows the text `minimalBlob` and reads it as the object it
denotes. -/
def minimalBlobParser : String → Option cJSONObject :=
  fun text =>
    if text = minimalBlob then
      some [("state", cJSON.cJSON_String "active"), ("checkpoint_id", cJSON.cJSON_String "3"),
            ("max_deleted_seqno", cJSON.cJSON_String "0")]
    else none

/-- A database that holds seqno 7 and the state blob `minimalBlob`. -/
def minimalStateDB : KVRocksDB :=
  ((storeAfterCommit [exampleItem 97 7 false]).vbDB 0).write
    [BatchOp.putLocal getVbstateKey minimalBlob]

/-! ## Building a vBucket by transactions -/

/-- One call queued in a transaction: `set` or `del` of an item; `now` is the
clock read when its request is built. -/
structure Mutation where
  item : Item
  isDelete : Bool
  now : Int
deriving DecidableEq, Repr

/-- The request `set` or `del` queues for a mutation. -/
def Mutation.request (m : Mutation) : RocksRequest :=
  RocksRequest.make m.item
    (if m.isDelete then MutationRequestCallback.delCb else MutationRequestCallback.setCb) m.now

/-- The caller of one transaction: `begin()`, the calls of `set` and `del` in
order, `commit()`. The result is that of the commit, with the store left. -/
def RocksDBKVStore.transaction (s : RocksDBKVStore) (env : WriteEnv) (ops : List Mutation) :
    CommitResult × RocksDBKVStore :=
  let queued := ops.foldl
    (fun st m => if m.isDelete then (st.del m.item m.now).2 else (st.set m.item m.now).2)
    (s.begin none).2
  ((queued.commit env).1, (queued.commit env).2.1)

/-- The caller of a sequence of transactions, each run once the one before has
returned true; no store when a commit does not return true. -/
def RocksDBKVStore.transactions (s : RocksDBKVStore) (env : WriteEnv) :
    List (List Mutation) → Option RocksDBKVStore
  | [] => some s
  | ops :: rest =>
    match s.transaction env ops with
    | (CommitResult.returned true, s1) => RocksDBKVStore.transactions s1 env rest
    | _ => none

/-- The two column families of a database agree: the key of every seqno
mapping has a record, whose seqno is not below that of the mapping, and the
seqno of every record is positive and mapped to the key of the record. -/
def KVRocksDB.Consistent (db : KVRocksDB) : Prop :=
  (∀ q k, db.seqnoCF.get q = some k →
    ∃ rec, db.defaultCF.get k = some rec ∧ sizeofMetaData ≤ rec.length ∧
      q ≤ (MetaData.decode rec).bySeqno) ∧
  (∀ k rec, db.defaultCF.get k = some rec →
    1 ≤ (MetaData.decode rec).bySeqno ∧
      db.seqnoCF.get (MetaData.decode rec).bySeqno = some k)

/-- A `set` of an example item at clock 1000. -/
def exampleSet (key : Nat) (bySeqno : Int) : Mutation :=
  { item := exampleItem key bySeqno false, isDelete := false, now := 1000 }

/-- Key `k` set at seqno 1, key `j` set at seqno 2, then key `k` set again at
seqno 3, each in a transaction of its own. -/
def overwriteTransactions : List (List Mutation) :=
  [[exampleSet 107 1], [exampleSet 106 2], [exampleSet 107 3]]

/-- The example store after the transactions `overwriteTransactions`, every
write succeeding. -/
def overwrittenStore : RocksDBKVStore :=
  (exampleStore.transactions okEnv overwriteTransactions).getD exampleStore

/-- An example item of vBucket 1, for which the example store caches no
state. -/
def otherVBucketItem (key : Nat) (bySeqno : Int) : Item :=
  { exampleItem key bySeqno false with vbucketId := 1 }

/-! ## Statistics -/

/-- The enumeration `ColumnFamily` of the store, which names the three column
families; the name `ColumnFamily` stands for the contents of one here. -/
inductive ColumnFamilyId where
  | Default
  | Seqno
  | Local
deriving DecidableEq, Repr

/-- The members of `rocksdb::Tickers` that `getStat` reads. -/
inductive Tickers where
  | BLOCK_CACHE_HIT
  | BLOCK_CACHE_MISS
  | BLOCK_CACHE_DATA_HIT
  | BLOCK_CACHE_DATA_MISS
  | BLOCK_CACHE_INDEX_HIT
  | BLOCK_CACHE_INDEX_MISS
  | BLOCK_CACHE_FILTER_HIT
  | BLOCK_CACHE_FILTER_MISS
deriving DecidableEq, Repr

/-- The members of `rocksdb::MemoryUtil::UsageType`. -/
inductive UsageType where
  | kMemTableTotal
  | kMemTableUnFlushed
  | kTableReadersTotal
  | kCacheTotal
deriving DecidableEq, Repr

/-- The constant `rocksdb::DB::Properties::kSizeAllMemTables`, declared by the
RocksDB library. -/
def kSizeAllMemTables : String := "rocksdb.size-all-mem-tables"

/-- The constant `rocksdb::DB::Properties::kTotalSstFilesSize`, declared by the
RocksDB library. -/
def kTotalSstFilesSize : String := "rocksdb.total-sst-files-size"

/-- What the databases report when `getStat` asks. `openVBuckets` are the
indices of the entries of `vbDB` that hold a database, in order. `statistics`
is the object `dbOptions.statistics`: the constructor creates one object and
every database is opened with it, so each database hands back the same
object, whose tickers already count all the databases; it is null when no
statistics level is configured. `getProperty` is `GetProperty` on a column
family of the database of a vBucket, null when it returns false.
`memoryUsage` is the result of `GetApproximateMemoryUsageByType` over all the
databases, null when its status is not ok. -/
structure StatsSource where
  openVBuckets : List Nat
  statistics : Option (Tickers → Nat)
  getProperty : Nat → ColumnFamilyId → String → Option String
  memoryUsage : Option (UsageType → Nat)

/-- The function `std::stoi` in base 10: as `stoull`, with the value signed
and kept to the range of an `int`. -/
def stoi (str : String) : Except Exn Int :=
  let signed := numberSign (str.data.dropWhile Char.isWhitespace)
  let ds := signed.2.takeWhile Char.isDigit
  if ds.isEmpty then Except.error Exn.invalid_argument
  else
    let v : Int := if signed.1 then -(digitsValue ds : Int) else (digitsValue ds : Int)
    if v < -(2 ^ 31) ∨ 2 ^ 31 ≤ v then Except.error Exn.out_of_range
    else Except.ok v

/-- The method `getStatFromMemUsage`: the value is assigned. -/
def getStatFromMemUsage (src : StatsSource) (type : UsageType) (value : Nat) : Bool × Nat :=
  if src.openVBuckets.isEmpty then (false, value)
  else
    match src.memoryUsage with
    | none => (false, value)
    | some usageByType => (true, usageByType type % 2 ^ 64)

/-- The loop of `getStatFromStatistics` over the databases that are open: the
ticker of the statistics object of each is added to `value`, a `size_t`
passed by reference. -/
def getStatFromStatisticsLoop (src : StatsSource) (ticker : Tickers) :
    List Nat → Nat → Bool × Nat
  | [], value => (true, value)
  | _ :: rest, value =>
    match src.statistics with
    | none => (false, value)
    | some statistics =>
      getStatFromStatisticsLoop src ticker rest ((value + statistics ticker) % 2 ^ 64)

/-- The method `getStatFromStatistics`. -/
def getStatFromStatistics (src : StatsSource) (ticker : Tickers) (value : Nat) : Bool × Nat :=
  getStatFromStatisticsLoop src ticker src.openVBuckets value

/-- The loop of `getStatFromProperties` over the databases that are open: the
property of the column family of each is read as an `int` and added to
`value`, a `size_t` passed by reference. An exception of `std::stoi` leaves
the method. The handle of a column family of an open database is not null. -/
def getStatFromPropertiesLoop (src : StatsSource) (cf : ColumnFamilyId) (property : String) :
    List Nat → Nat → Except Exn (Bool × Nat)
  | [], value => Except.ok (true, value)
  | vbid :: rest, value =>
    match src.getProperty vbid cf property with
    | none => Except.ok (false, value)
    | some out =>
      match stoi out with
      | Except.error e => Except.error e
      | Except.ok n =>
        getStatFromPropertiesLoop src cf property rest ((value + toU64 n) % 2 ^ 64)

/-- The method `getStatFromProperties`. -/
def getStatFromProperties (src : StatsSource) (cf : ColumnFamilyId) (property : String)
    (value : Nat) : Except Exn (Bool × Nat) :=
  getStatFromPropertiesLoop src cf property src.openVBuckets value

/-- The method `getStat`: whether the statistic was found, and the content of
`value` after the call. -/
def getStat (src : StatsSource) (name : String) (value : Nat) : Except Exn (Bool × Nat) :=
  if name = "kMemTableTotal" then
    Except.ok (getStatFromMemUsage src UsageType.kMemTableTotal value)
  else if name = "kMemTableUnFlushed" then
    Except.ok (getStatFromMemUsage src UsageType.kMemTableUnFlushed value)
  else if name = "kTableReadersTotal" then
    Except.ok (getStatFromMemUsage src UsageType.kTableReadersTotal value)
  else if name = "kCacheTotal" then
    Except.ok (getStatFromMemUsage src UsageType.kCacheTotal value)
  else if name = "default_kSizeAllMemTables" then
    getStatFromProperties src ColumnFamilyId.Default kSizeAllMemTables value
  else if name = "seqno_kSizeAllMemTables" then
    getStatFromProperties src ColumnFamilyId.Seqno kSizeAllMemTables value
  else if name = "local_kSizeAllMemTables" then
    getStatFromProperties src ColumnFamilyId.Local kSizeAllMemTables value
  else if name = "rocksdb.block.cache.hit" then
    Except.ok (getStatFromStatistics src Tickers.BLOCK_CACHE_HIT value)
  else if name = "rocksdb.block.cache.miss" then
    Except.ok (getStatFromStatistics src Tickers.BLOCK_CACHE_MISS value)
  else if name = "rocksdb.block.cache.data.hit" then
    Except.ok (getStatFromStatistics src Tickers.BLOCK_CACHE_DATA_HIT value)
  else if name = "rocksdb.block.cache.data.miss" then
    Except.ok (getStatFromStatistics src Tickers.BLOCK_CACHE_DATA_MISS value)
  else if name = "rocksdb.block.cache.index.hit" then
    Except.ok (getStatFromStatistics src Tickers.BLOCK_CACHE_INDEX_HIT value)
  else if name = "rocksdb.block.cache.index.miss" then
    Except.ok (getStatFromStatistics src Tickers.BLOCK_CACHE_INDEX_MISS value)
  else if name = "rocksdb.block.cache.filter.hit" then
    Except.ok (getStatFromStatistics src Tickers.BLOCK_CACHE_FILTER_HIT value)
  else if name = "rocksdb.block.cache.filter.miss" then
    Except.ok (getStatFromStatistics src Tickers.BLOCK_CACHE_FILTER_MISS value)
  else if name = "default_kTotalSstFilesSize" then
    getStatFromProperties src ColumnFamilyId.Default kTotalSstFilesSize value
  else if name = "seqno_kTotalSstFilesSize" then
    getStatFromProperties src ColumnFamilyId.Seqno kTotalSstFilesSize value
  else if name = "local_kTotalSstFilesSize" then
    getStatFromProperties src ColumnFamilyId.Local kTotalSstFilesSize value
  else Except.ok (false, value)

/-- Two vBuckets are open. The statistics object counts 5 block-cache hits
over both; the memtables of the default column family take 100 bytes in the
database of vBucket 0 and 20 bytes in that of vBucket 1. -/
def exampleStats : StatsSource :=
  { openVBuckets := [0, 1]
    statistics := some (fun ticker => if ticker = Tickers.BLOCK_CACHE_HIT then 5 else 0)
    getProperty := fun vbid cf property =>
      if cf = ColumnFamilyId.Default ∧ property = kSizeAllMemTables then
        some (if vbid = 0 then "100" else "20")
      else some "0"
    memoryUsage := some (fun _ => 0) }

/-! ## The handles of the databases

`vbDB` holds a `std::shared_ptr<KVRocksDB>` for each vBucket. A method that
works on a database takes a copy of the pointer from `openDB` into a local and
drops it when it returns; `delVBucket` waits until no such copy is left. -/

/-- The handle side of the store: whether `vbDB[vbid]` holds a database, how
many copies of its shared pointer calls in flight hold, whether the directory
`rocksdb.<vbid>` exists, and the snapshots of the scans that are open, each
with the vBucket it was taken from. -/
structure VBucketHandles where
  vbDB : Nat → Bool
  useCount : Nat → Nat
  directory : Nat → Bool
  scanCounter : Nat
  scanSnapshots : List (Nat × Nat)

/-- The method `openDB`, on the handles: a database that is missing is created
and opened, and the caller gets a copy of the shared pointer. -/
def VBucketHandles.openDB (h : VBucketHandles) (vbid : Nat) : VBucketHandles :=
  { h with vbDB := fun v => if v = vbid then true else h.vbDB v
           directory := fun v => if v = vbid then true else h.directory v
           useCount := fun v => if v = vbid then h.useCount v + 1 else h.useCount v }

/-- The end of the scope of a local copy of the shared pointer. -/
def VBucketHandles.release (h : VBucketHandles) (vbid : Nat) : VBucketHandles :=
  { h with useCount := fun v => if v = vbid then h.useCount v - 1 else h.useCount v }

/-- The method `initScanContext`, on the handles: the scan id and the handles
left. The snapshot is stored as `SnapshotPtr(db->rdb->GetSnapshot(), *db->rdb)`,
built from the snapshot and a reference to the `rocksdb::DB`; the local copy
`db` of the shared pointer ends with the call, and the context gets the scan
id only. -/
def VBucketHandles.initScanContext (h : VBucketHandles) (vbid : Nat) : Nat × VBucketHandles :=
  let scanId := h.scanCounter
  let h1 := h.openDB vbid
  let h2 := { h1 with scanCounter := h.scanCounter + 1
                      scanSnapshots := h1.scanSnapshots ++ [(scanId, vbid)] }
  (scanId, h2.release vbid)

/-- The method `destroyScanContext`, on the handles. -/
def VBucketHandles.destroyScanContext (h : VBucketHandles) (scanId : Nat) : VBucketHandles :=
  { h with scanSnapshots := h.scanSnapshots.filter (fun p => p.1 ≠ scanId) }

/-- How a call of `delVBucket` stands: it has returned, it has thrown, or it
sleeps in its loop `while (!sharedPtr.unique())`, which it leaves only once
the calls in flight have dropped their copies. -/
inductive DelResult where
  | returned
  | waiting
  | threw (e : Exn)
deriving DecidableEq, Repr

/-- The method `delVBucket`, on the handles; `destroyStatus` is the status of
`rocksdb::DestroyDB`. -/
def VBucketHandles.delVBucket (h : VBucketHandles) (vbid : Nat) (destroyStatus : Code) :
    DelResult × VBucketHandles :=
  if !h.vbDB vbid then
    (DelResult.returned, h)
  else
    let h1 := { h with vbDB := fun v => if v = vbid then false else h.vbDB v }
    if h.useCount vbid ≠ 0 then
      (DelResult.waiting, h1)
    else if !destroyStatus.ok then
      (DelResult.threw Exn.runtime_error, h1)
    else
      (DelResult.returned,
        { h1 with directory := fun v => if v = vbid then false else h.directory v })

/-- The handles of a store with the database of vBucket 4 open and no call in
flight. -/
def exampleHandles : VBucketHandles :=
  { vbDB := fun v => decide (v = 4)
    useCount := fun _ => 0
    directory := fun v => decide (v = 4)
    scanCounter := 0
    scanSnapshots := [] }

/-! ## The parser of the state blob -/

/-- Modelled from the spec: the cJSON library is outside these sources. Its
function `skip` passes over the chars from 1 to 32, the white space between
the tokens of a JSON text; the char 0 ends a text. -/
def cJSON_skip (text : List Char) : List Char :=
  text.dropWhile (fun c => decide (0 < c.toNat ∧ c.toNat ≤ 32))

/-- The chars of a string without escape sequences, read from behind its
opening quote up to its closing quote, and the text left behind that quote;
`none` when a backslash or the end of the text (the char 0 or no char) comes
first. -/
def plainString : List Char → Option (List Char × List Char)
  | [] => none
  | c :: rest =>
    if c = '"' then some ([], rest)
    else if c = '\\' ∨ c = '\x00' then none
    else
      match plainString rest with
      | some (chars, left) => some (c :: chars, left)
      | none => none

/-- Modelled from the spec: the function `parse_value` of the cJSON library,
which reads one value at the head of a text and gives its node and the text
left, null (`none`) on a syntax error. The model reads by itself `false`,
`true` and a string without escape sequences, which is all `saveVBStateToBatch`
writes apart from the failover table; for a string with an escape sequence
and for a value of any other type (null, a number, an array, an object) it
asks `library`, the function of the library itself, whose node carries the
text `cJSON_PrintUnformatted` prints for the value. -/
def parse_value (library : List Char → Option (cJSON × List Char)) (text : List Char) :
    Option (cJSON × List Char) :=
  if ['f', 'a', 'l', 's', 'e'].isPrefixOf text then some (cJSON.cJSON_False, text.drop 5)
  else if ['t', 'r', 'u', 'e'].isPrefixOf text then some (cJSON.cJSON_True, text.drop 4)
  else
    match text with
    | '"' :: rest =>
      match plainString rest with
      | some (chars, left) => some (cJSON.cJSON_String (String.mk chars), left)
      | none => library text
    | _ => library text

/-- Modelled from the spec: the function `parse_string` of the cJSON library
where `parse_object` reads the name of a member: the text has to start with
the quote of a string. -/
def parse_string (library : List Char → Option (cJSON × List Char)) (text : List Char) :
    Option (String × List Char) :=
  match text with
  | '"' :: _ =>
    match parse_value library text with
    | some (cJSON.cJSON_String valuestring, left) => some (valuestring, left)
    | _ => none
  | _ => none

/-- Modelled from the spec: the loop of the function `parse_object` of the
cJSON library over the members of an object, from behind the opening brace or
a comma: a name, a colon and a value, with white space allowed around each,
then a comma before the next member or the closing brace. Every member takes
at least one char of the text, so as many rounds as the text has chars are
enough. -/
def parse_members (library : List Char → Option (cJSON × List Char)) :
    Nat → List Char → Option (cJSONObject × List Char)
  | 0, _ => none
  | fuel + 1, text =>
    match parse_string library (cJSON_skip text) with
    | none => none
    | some (name, afterName) =>
      match cJSON_skip afterName with
      | ':' :: afterColon =>
        match parse_value library (cJSON_skip afterColon) with
        | none => none
        | some (item, afterValue) =>
          match cJSON_skip afterValue with
          | ',' :: next =>
            match parse_members library fuel next with
            | some (members, left) => some ((name, item) :: members, left)
            | none => none
          | '\x7d' :: left => some ([(name, item)], left)
          | _ => none
      | _ => none

/-- Modelled from the spec: the function `cJSON_Parse` of the cJSON library,
as far as `readVBState` looks at its result: the members of the object the
text starts with, in order; a value of another type has no member; a syntax
error gives null (`none`). Text behind the value is not looked at. -/
def cJSON_Parse (library : List Char → Option (cJSON × List Char)) (value : String) :
    Option cJSONObject :=
  match cJSON_skip value.data with
  | '\x7b' :: rest =>
    match cJSON_skip rest with
    | '\x7d' :: _ => some []
    | _ => (parse_members library rest.length rest).map (fun parsed => parsed.1)
  | text => (parse_value library text).map (fun _ => [])

/-- The failover table of a state is one the library reads back as it is
written: it is empty, or it is a JSON array for which the library, whatever
text follows, gives a node that `cJSON_PrintUnformatted` prints as the same
text. -/
def FailoverTableUnformatted (library : List Char → Option (cJSON × List Char))
    (failovers : String) : Prop :=
  failovers = "" ∨
    ∃ json body, failovers.data = '[' :: body ∧ cJSON_PrintUnformatted json = failovers ∧
      ∀ rest, library (failovers.data ++ rest) = some (json, rest)

/-! ## The batches of a commit -/

/-- The batches the loop of `saveDocs` hands to `rocksdb::DB::Write` for the
given requests as long as no write fails, in order, and the batch it holds
behind the last request, to which `saveDocs` adds the state blob for its final
write: every request is added to the batch in hand, and a batch whose size is
over the limit is written and cleared. -/
def splitBatches (env : WriteEnv) (batchLimit : Nat) :
    List RocksRequest → WriteBatch → List WriteBatch × WriteBatch
  | [], batch => ([], batch)
  | request :: rest, batch =>
    let batch1 := addRequestToWriteBatch batch request
    if env.dataSize batch1 > batchLimit then
      let split := splitBatches env batchLimit rest []
      (batch1 :: split.1, split.2)
    else
      splitBatches env batchLimit rest batch1

/-! ## Further example objects -/

/-- A stand-in for the library on the values the model leaves to it: it reads
an array that holds no closing bracket inside and keeps its text, and rejects
every other text. -/
def flatArray (text : List Char) : Option (cJSON × List Char) :=
  match text with
  | '[' :: rest =>
    match rest.dropWhile (fun c => c ≠ ']') with
    | ']' :: left =>
      some (cJSON.cJSON_Other (String.mk ('[' :: rest.takeWhile (fun c => c ≠ ']') ++ [']'])),
        left)
    | _ => none
  | _ => none

/-- A state with a failover table of one entry. -/
def failoverState : vbucket_state :=
  { exampleState with
    purgeSeqno := 7
    maxCas := 12
    failovers := "[\x7b\"id\":1,\"seq\":0\x7d]" }

/-- A state whose failover table, an empty array, is followed by a blank. -/
def blankFailoverState : vbucket_state := { exampleState with failovers := "[] " }

/-- Two transactions: the first queues key `j` at seqno 2 and then key `k` at
seqno 1, the second key `k` at seqno 3 and then key `j` at seqno 4. -/
def mixedOrderTransactions : List (List Mutation) :=
  [[exampleSet 106 2, exampleSet 107 1], [exampleSet 107 3, exampleSet 106 4]]

/-- The example store after the transactions `mixedOrderTransactions`, every
write succeeding. -/
def mixedOrderStore : RocksDBKVStore :=
  (exampleStore.transactions okEnv mixedOrderTransactions).getD exampleStore

/-! # Theorems -/

/-! ## Codec lemmas -/

theorem toBytesLE_length (w n : Nat) : (toBytesLE w n).length = w := by
  induction w generalizing n with
  | zero => rfl
  | succ w ih => simp [toBytesLE, ih]

theorem fromBytesLE_toBytesLE (w n : Nat) : fromBytesLE (toBytesLE w n) = n % 256 ^ w := by
  induction w generalizing n with
  | zero => simp [toBytesLE, fromBytesLE, Nat.mod_one]
  | succ w ih =>
    simp only [toBytesLE, fromBytesLE, ih]
    rw [pow_succ, mul_comm (256 ^ w) 256, Nat.mod_mul]

theorem fromBytesLE_toBytesLE_of_lt (w n : Nat) (h : n < 256 ^ w) :
    fromBytesLE (toBytesLE w n) = n := by
  rw [fromBytesLE_toBytesLE, Nat.mod_eq_of_lt h]

theorem toI64_toU64 (x : Int) (h1 : -(2 ^ 63) ≤ x) (h2 : x < 2 ^ 63) : toI64 (toU64 x) = x := by
  unfold toI64 toU64
  split_ifs with h <;> omega

theorem toU64_lt (x : Int) : toU64 x < 2 ^ 64 := by
  unfold toU64
  omega

theorem take_drop_segment {α : Type} (a b c : List α) (i w : Nat) (ha : a.length = i)
    (hb : b.length = w) : ((a ++ b ++ c).drop i).take w = b := by
  subst ha; subst hb
  simp [List.append_assoc]


theorem MetaData.decode_encode (m : MetaData) (body : Bytes) (h : m.WF) :
    MetaData.decode (m.encode ++ body) = m := by
  obtain ⟨hv, hd, hf, hvs, ⟨he1, he2⟩, hc, hr, ⟨hb1, hb2⟩⟩ := h
  have e1 : fromBytesLE (toBytesLE 1 m.datatype) = m.datatype :=
    fromBytesLE_toBytesLE_of_lt 1 _ (by norm_num at hd ⊢; exact hd)
  have e2 : fromBytesLE (toBytesLE 4 m.flags) = m.flags :=
    fromBytesLE_toBytesLE_of_lt 4 _ (by norm_num at hf ⊢; exact hf)
  have e3 : fromBytesLE (toBytesLE 4 m.valueSize) = m.valueSize :=
    fromBytesLE_toBytesLE_of_lt 4 _ (by norm_num at hvs ⊢; exact hvs)
  have e4 : toI64 (fromBytesLE (toBytesLE 8 (toU64 m.exptime))) = m.exptime := by
    rw [fromBytesLE_toBytesLE_of_lt 8 _ (by have := toU64_lt m.exptime; norm_num at this ⊢; exact this)]
    exact toI64_toU64 _ he1 he2
  have e5 : fromBytesLE (toBytesLE 8 m.cas) = m.cas :=
    fromBytesLE_toBytesLE_of_lt 8 _ (by norm_num at hc ⊢; exact hc)
  have e6 : fromBytesLE (toBytesLE 8 m.revSeqno) = m.revSeqno :=
    fromBytesLE_toBytesLE_of_lt 8 _ (by norm_num at hr ⊢; exact hr)
  have e7 : toI64 (fromBytesLE (toBytesLE 8 (toU64 m.bySeqno))) = m.bySeqno := by
    rw [fromBytesLE_toBytesLE_of_lt 8 _ (by have := toU64_lt m.bySeqno; norm_num at this ⊢; exact this)]
    exact toI64_toU64 _ hb1 hb2
  have hdel : decide (((if m.deleted then 1 else 0) + 2 * (m.version % 128)) % 2 = 1) = m.deleted := by
    cases m.deleted <;> simp
  have hver : ((if m.deleted then 1 else 0) + 2 * (m.version % 128)) / 2 % 128 = m.version := by
    cases m.deleted <;> simp <;> omega
  have s0 : (m.encode ++ body).headD 0 = (if m.deleted then 1 else 0) + 2 * (m.version % 128) := by
    simp [MetaData.encode]
  have s1 : ((m.encode ++ body).drop 1).take 1 = toBytesLE 1 m.datatype := by
    simp [MetaData.encode, toBytesLE]
  have s2 : ((m.encode ++ body).drop 2).take 4 = toBytesLE 4 m.flags := by
    simp [MetaData.encode, toBytesLE]
  have s3 : ((m.encode ++ body).drop 6).take 4 = toBytesLE 4 m.valueSize := by
    simp [MetaData.encode, toBytesLE]
  have s4 : ((m.encode ++ body).drop 10).take 8 = toBytesLE 8 (toU64 m.exptime) := by
    simp [MetaData.encode, toBytesLE]
  have s5 : ((m.encode ++ body).drop 18).take 8 = toBytesLE 8 m.cas := by
    simp [MetaData.encode, toBytesLE]
  have s6 : ((m.encode ++ body).drop 26).take 8 = toBytesLE 8 m.revSeqno := by
    simp [MetaData.encode, toBytesLE]
  have s7 : ((m.encode ++ body).drop 34).take 8 = toBytesLE 8 (toU64 m.bySeqno) := by
    simp [MetaData.encode, toBytesLE]
  unfold MetaData.decode
  rw [s0, s1, s2, s3, s4, s5, s6, s7, e1, e2, e3, e4, e5, e6, e7, hdel, hver]

theorem MetaData.encode_length (m : MetaData) : m.encode.length = sizeofMetaData := by
  simp [MetaData.encode, toBytesLE_length, sizeofMetaData]

/-! ## Write path lemmas -/

theorem KVRocksDB.write_append (db : KVRocksDB) (a b : WriteBatch) :
    db.write (a ++ b) = (db.write a).write b := by
  simp [KVRocksDB.write, List.foldl_append]

theorem addRequestToWriteBatch_append (a b : WriteBatch) (r : RocksRequest) :
    addRequestToWriteBatch (a ++ b) r = a ++ addRequestToWriteBatch b r := by
  simp [addRequestToWriteBatch, List.append_assoc]

theorem foldl_addRequest_append (reqs : List RocksRequest) (a b : WriteBatch) :
    reqs.foldl addRequestToWriteBatch (a ++ b) = a ++ reqs.foldl addRequestToWriteBatch b := by
  induction reqs generalizing b with
  | nil => rfl
  | cons r rest ih =>
    simp only [List.foldl_cons, addRequestToWriteBatch_append, ih]

theorem saveDocsLoop_db (env : WriteEnv) (batchLimit : Nat) (reqs : List RocksRequest)
    (st st1 : SaveLoop) (h : saveDocsLoop env batchLimit reqs st = Except.ok st1) :
    st1.db.write st1.batch = st.db.write (reqs.foldl addRequestToWriteBatch st.batch) := by
  induction reqs generalizing st with
  | nil =>
    simp only [saveDocsLoop, Except.ok.injEq] at h
    subst h; rfl
  | cons r rest ih =>
    simp only [saveDocsLoop] at h
    split_ifs at h with h1 h2
    · have := ih _ h
      simp only at this
      rw [this, List.foldl_cons]
      have e := foldl_addRequest_append rest (addRequestToWriteBatch st.batch r) []
      simp only [List.append_nil] at e
      rw [e, KVRocksDB.write_append]
    · exact ih _ h

theorem saveDocsLoop_ok (env : WriteEnv) (batchLimit : Nat) (reqs : List RocksRequest)
    (st : SaveLoop) (hw : ∀ n, env.writeStatus n = Code.kOk) :
    ∃ st1, saveDocsLoop env batchLimit reqs st = Except.ok st1 := by
  induction reqs generalizing st with
  | nil => exact ⟨st, rfl⟩
  | cons r rest ih =>
    simp only [saveDocsLoop, hw, Code.ok]
    split_ifs with h1
    · simp at *
    · exact ih _
    · exact ih _

theorem saveDocsLoop_error (env : WriteEnv) (batchLimit : Nat) (reqs : List RocksRequest)
    (st : SaveLoop) (c : Code) (db : KVRocksDB)
    (h : saveDocsLoop env batchLimit reqs st = Except.error (c, db)) :
    c ≠ Code.kOk ∧ ∃ n, env.writeStatus n = c := by
  induction reqs generalizing st with
  | nil => simp [saveDocsLoop] at h
  | cons r rest ih =>
    simp only [saveDocsLoop] at h
    split_ifs at h with h1 h2
    · simp only [Except.error.injEq, Prod.mk.injEq] at h
      refine ⟨?_, _, h.1⟩
      rw [← h.1]
      simpa [Code.ok] using h2
    · exact ih _ h
    · exact ih _ h


/-- The store `saveDocs` leaves when it succeeds on a vBucket whose cached
state is `vbstate`. -/
theorem saveDocs_eq_of_loop (s : RocksDBKVStore) (env : WriteEnv) (vbid : Nat)
    (reqs : List RocksRequest) (vbstate : vbucket_state) (st1 : SaveLoop)
    (hne : reqs ≠ []) (hvb : s.cachedVBStates vbid = some vbstate)
    (hl : saveDocsLoop env ((s.defaultWriteBufferSize + s.seqnoWriteBufferSize) % 2 ^ 64) reqs
      { db := s.openDB vbid, batch := [], writes := 0, maxDBSeqno := 0 } = Except.ok st1)
    (hw : env.writeStatus st1.writes = Code.kOk) :
    s.saveDocs env vbid reqs = Except.ok (Code.kOk,
      { s.setDB vbid ((s.vbDB vbid).write (atomicBatch reqs vbstate)) with
        cachedVBStates := fun v =>
          if v = vbid then
            some { vbstate with
              highSeqno := readHighSeqnoFromDisk ((s.vbDB vbid).write (atomicBatch reqs vbstate)) }
          else s.cachedVBStates v }) := by
  have hlen : reqs.length ≠ 0 := by
    intro h0; exact hne (List.length_eq_zero.mp h0)
  have hdb := saveDocsLoop_db _ _ _ _ _ hl
  simp only [RocksDBKVStore.openDB] at hdb hl
  have hfinal : st1.db.write (saveVBStateToBatch vbstate st1.batch) =
      (s.vbDB vbid).write (atomicBatch reqs vbstate) := by
    simp only [saveVBStateToBatch, atomicBatch, KVRocksDB.write_append, hdb]
  simp only [RocksDBKVStore.saveDocs, hlen, if_false, hvb, RocksDBKVStore.openDB, hl, hw, Code.ok,
    hfinal]
  simp [RocksDBKVStore.setDB]

theorem saveDocs_of_writes_ok (s : RocksDBKVStore) (env : WriteEnv) (vbid : Nat)
    (reqs : List RocksRequest) (vbstate : vbucket_state)
    (hne : reqs ≠ []) (hvb : s.cachedVBStates vbid = some vbstate)
    (hw : ∀ n, env.writeStatus n = Code.kOk) :
    s.saveDocs env vbid reqs = Except.ok (Code.kOk,
      { s.setDB vbid ((s.vbDB vbid).write (atomicBatch reqs vbstate)) with
        cachedVBStates := fun v =>
          if v = vbid then
            some { vbstate with
              highSeqno := readHighSeqnoFromDisk ((s.vbDB vbid).write (atomicBatch reqs vbstate)) }
          else s.cachedVBStates v }) := by
  obtain ⟨st1, hl⟩ := saveDocsLoop_ok env
    ((s.defaultWriteBufferSize + s.seqnoWriteBufferSize) % 2 ^ 64) reqs
    { db := s.openDB vbid, batch := [], writes := 0, maxDBSeqno := 0 } hw
  exact saveDocs_eq_of_loop s env vbid reqs vbstate st1 hne hvb hl (hw _)

theorem saveDocs_kOk (s s1 : RocksDBKVStore) (env : WriteEnv) (vbid : Nat)
    (reqs : List RocksRequest) (hne : reqs ≠ [])
    (h : s.saveDocs env vbid reqs = Except.ok (Code.kOk, s1)) :
    ∃ vbstate, s.cachedVBStates vbid = some vbstate ∧
      s1 = { s.setDB vbid ((s.vbDB vbid).write (atomicBatch reqs vbstate)) with
        cachedVBStates := fun v =>
          if v = vbid then
            some { vbstate with
              highSeqno := readHighSeqnoFromDisk ((s.vbDB vbid).write (atomicBatch reqs vbstate)) }
          else s.cachedVBStates v } := by
  have hlen : reqs.length ≠ 0 := by
    intro h0; exact hne (List.length_eq_zero.mp h0)
  cases hvb : s.cachedVBStates vbid with
  | none => simp [RocksDBKVStore.saveDocs, hlen, hvb] at h
  | some vbstate =>
    refine ⟨vbstate, rfl, ?_⟩
    cases hl : saveDocsLoop env ((s.defaultWriteBufferSize + s.seqnoWriteBufferSize) % 2 ^ 64) reqs
      { db := s.openDB vbid, batch := [], writes := 0, maxDBSeqno := 0 } with
    | error e =>
      obtain ⟨c, db⟩ := e
      have := (saveDocsLoop_error _ _ _ _ _ _ hl).1
      simp only [RocksDBKVStore.saveDocs, hlen, if_false, hvb, hl, Except.ok.injEq,
        Prod.mk.injEq] at h
      exact absurd h.1 this
    | ok st1 =>
      by_cases hw : env.writeStatus st1.writes = Code.kOk
      · have := saveDocs_eq_of_loop s env vbid reqs vbstate st1 hne hvb hl hw
        rw [this] at h
        simp only [Except.ok.injEq, Prod.mk.injEq, true_and] at h
        exact h.symm
      · simp only [RocksDBKVStore.saveDocs, hlen, if_false, hvb, hl, Code.ok, hw, decide_False,
          Bool.not_false, if_true, Except.ok.injEq, Prod.mk.injEq] at h
        exact absurd h.1 (by simp)

theorem saveDocs_failed (s s1 : RocksDBKVStore) (env : WriteEnv) (vbid : Nat)
    (reqs : List RocksRequest) (c : Code) (hc : c ≠ Code.kOk)
    (h : s.saveDocs env vbid reqs = Except.ok (c, s1)) :
    (∃ n, env.writeStatus n = c) ∧ s1.in_transaction = s.in_transaction ∧
      s1.pendingReqs = s.pendingReqs ∧ s1.cachedVBStates = s.cachedVBStates ∧
      s1.transactionCtx = s.transactionCtx := by
  unfold RocksDBKVStore.saveDocs at h
  split_ifs at h with h0
  · simp only [Except.ok.injEq, Prod.mk.injEq] at h
    exact absurd h.1.symm hc
  · cases hvb : s.cachedVBStates vbid with
    | none => simp [hvb] at h
    | some vbstate =>
      simp only [hvb] at h
      cases hl : saveDocsLoop env ((s.defaultWriteBufferSize + s.seqnoWriteBufferSize) % 2 ^ 64)
        reqs { db := s.openDB vbid, batch := [], writes := 0, maxDBSeqno := 0 } with
      | error e =>
        obtain ⟨c1, db⟩ := e
        simp only [hl, Except.ok.injEq, Prod.mk.injEq] at h
        obtain ⟨h1, h2⟩ := h
        subst h1; subst h2
        exact ⟨(saveDocsLoop_error _ _ _ _ _ _ hl).2, rfl, rfl, rfl, rfl⟩
      | ok st1 =>
        simp only [hl] at h
        split_ifs at h with hw
        · simp only [Except.ok.injEq, Prod.mk.injEq] at h
          obtain ⟨h1, h2⟩ := h
          subst h2
          exact ⟨⟨_, h1⟩, rfl, rfl, rfl, rfl⟩
        · simp only [Except.ok.injEq, Prod.mk.injEq] at h
          exact absurd h.1.symm hc

/-! ## Commit lemmas -/

/-- The vBucket `commit` derives from the first pending request. -/
theorem commit_eq (s : RocksDBKVStore) (env : WriteEnv) (hin : s.in_transaction = true)
    (hne : s.pendingReqs ≠ []) :
    s.commit env =
      match ({ s with pendingReqs := [] } : RocksDBKVStore).saveDocs env
          s.commitVBucket s.pendingReqs with
      | Except.error e => (CommitResult.threw e, { s with pendingReqs := [] }, [])
      | Except.ok (status, s2) =>
        match (commitCallback s2.transactionCtx status s.pendingReqs).2 with
        | some e => (CommitResult.threw e, s2,
            (commitCallback s2.transactionCtx status s.pendingReqs).1)
        | none =>
          if status.ok then
            (CommitResult.returned true,
              { s2 with in_transaction := false, transactionCtx := none },
              (commitCallback s2.transactionCtx status s.pendingReqs).1)
          else
            (CommitResult.returned false, s2,
              (commitCallback s2.transactionCtx status s.pendingReqs).1) := by
  have hlen : s.pendingReqs.length ≠ 0 := by
    intro h0; exact hne (List.length_eq_zero.mp h0)
  simp only [RocksDBKVStore.commit, hin, hlen]
  rfl

theorem commitCallback_exn (txCtx : Option Nat) (status : Code) (reqs : List RocksRequest)
    (hne : reqs ≠ []) :
    (commitCallback txCtx status reqs).2 =
      match getMutationStatus status with
      | Except.error e => some e
      | Except.ok _ => none := by
  induction reqs with
  | nil => exact absurd rfl hne
  | cons r rest ih =>
    cases hg : getMutationStatus status with
    | error e => simp [commitCallback, hg]
    | ok rv =>
      simp only [commitCallback, hg]
      cases rest with
      | nil => simp [commitCallback]
      | cons r2 rest2 =>
        have := ih (by simp)
        simp only [hg] at this
        exact this

/-- A commit that returns success leaves no transaction open and nothing
queued. -/
theorem commit_returned_true (s : RocksDBKVStore) (env : WriteEnv)
    (hne : s.pendingReqs = [] ∨ s.in_transaction = true)
    (h : (s.commit env).1 = CommitResult.returned true) :
    (s.commit env).2.1.in_transaction = false ∧ (s.commit env).2.1.pendingReqs = [] := by
  cases hin : s.in_transaction with
  | false =>
    have hp : s.pendingReqs = [] := by
      rcases hne with h1 | h1
      · exact h1
      · rw [hin] at h1; exact absurd h1 (by simp)
    simp [RocksDBKVStore.commit, hin, hp]
  | true =>
    by_cases hp : s.pendingReqs = []
    · simp [RocksDBKVStore.commit, hin, hp]
    · rw [commit_eq s env hin hp] at h ⊢
      generalize hsd : ({ s with pendingReqs := [] } : RocksDBKVStore).saveDocs env
          s.commitVBucket s.pendingReqs = r at h ⊢
      rcases r with e | ⟨status, s2⟩
      · exact CommitResult.noConfusion h
      · simp only at h ⊢
        generalize hcb : (commitCallback s2.transactionCtx status s.pendingReqs).2 = c at h ⊢
        cases c with
        | some e => exact CommitResult.noConfusion h
        | none =>
          simp only at h ⊢
          by_cases hok : status.ok = true
          · simp only [hok, if_true] at h ⊢
            have hk : status = Code.kOk := by simpa [Code.ok] using hok
            subst hk
            obtain ⟨vbstate, _, hs2⟩ := saveDocs_kOk _ _ _ _ _ hp hsd
            subst hs2
            simp [RocksDBKVStore.setDB]
          · simp only [hok] at h
            exact absurd h (by simp)

/-! ## What a write leaves in each column family -/

theorem write_defaultCF (db : KVRocksDB) (b : WriteBatch) :
    (db.write b).defaultCF = (defaultPuts b).reverse ++ db.defaultCF := by
  induction b generalizing db with
  | nil => rfl
  | cons op rest ih =>
    simp only [KVRocksDB.write, List.foldl_cons] at ih ⊢
    rw [ih]
    cases op <;> simp [KVRocksDB.applyOp, defaultPuts, ColumnFamily.put]

theorem write_seqnoCF (db : KVRocksDB) (b : WriteBatch) :
    (db.write b).seqnoCF = (seqnoPuts b).reverse ++ db.seqnoCF := by
  induction b generalizing db with
  | nil => rfl
  | cons op rest ih =>
    simp only [KVRocksDB.write, List.foldl_cons] at ih ⊢
    rw [ih]
    cases op <;> simp [KVRocksDB.applyOp, seqnoPuts, ColumnFamily.put]

theorem write_localCF (db : KVRocksDB) (b : WriteBatch) :
    (db.write b).localCF = (localPuts b).reverse ++ db.localCF := by
  induction b generalizing db with
  | nil => rfl
  | cons op rest ih =>
    simp only [KVRocksDB.write, List.foldl_cons] at ih ⊢
    rw [ih]
    cases op <;> simp [KVRocksDB.applyOp, localPuts, ColumnFamily.put]

theorem foldl_addRequest_eq (reqs : List RocksRequest) :
    reqs.foldl addRequestToWriteBatch [] =
      reqs.flatMap (fun r => [BatchOp.putDefault r.defaultRecord.1 r.defaultRecord.2,
        BatchOp.putSeqno r.seqnoRecord.1 r.seqnoRecord.2]) := by
  induction reqs using List.reverseRecOn with
  | nil => rfl
  | append_singleton rest r ih =>
    simp [List.foldl_append, ih, addRequestToWriteBatch, RocksRequest.defaultRecord,
      RocksRequest.seqnoRecord, List.flatMap_append]

theorem defaultPuts_atomicBatch (reqs : List RocksRequest) (vbstate : vbucket_state) :
    defaultPuts (atomicBatch reqs vbstate) = reqs.map RocksRequest.defaultRecord := by
  rw [atomicBatch, saveVBStateToBatch, foldl_addRequest_eq]
  induction reqs with
  | nil => rfl
  | cons r rest ih =>
    simp only [defaultPuts, List.flatMap_cons, List.map_cons, List.append_assoc] at ih ⊢
    rw [List.filterMap_append, ih]
    rfl

theorem seqnoPuts_atomicBatch (reqs : List RocksRequest) (vbstate : vbucket_state) :
    seqnoPuts (atomicBatch reqs vbstate) = reqs.map RocksRequest.seqnoRecord := by
  rw [atomicBatch, saveVBStateToBatch, foldl_addRequest_eq]
  induction reqs with
  | nil => rfl
  | cons r rest ih =>
    simp only [seqnoPuts, List.flatMap_cons, List.map_cons, List.append_assoc] at ih ⊢
    rw [List.filterMap_append, ih]
    rfl

/-! ## Reading back what a commit wrote -/

/-- The databases a commit of a non-empty transaction leaves when it returns
success: that of the vBucket of the first request has received the puts of all
the requests and the state blob, the others are unchanged. -/
theorem commit_success_db (s : RocksDBKVStore) (env : WriteEnv)
    (hin : s.in_transaction = true) (hne : s.pendingReqs ≠ [])
    (h : (s.commit env).1 = CommitResult.returned true) :
    ∃ vbstate, s.cachedVBStates s.commitVBucket = some vbstate ∧
      (s.commit env).2.1.vbDB = fun v =>
        if v = s.commitVBucket then
          (s.vbDB s.commitVBucket).write (atomicBatch s.pendingReqs vbstate)
        else s.vbDB v := by
  rw [commit_eq s env hin hne] at h ⊢
  generalize hsd : ({ s with pendingReqs := [] } : RocksDBKVStore).saveDocs env
      s.commitVBucket s.pendingReqs = r at h ⊢
  rcases r with e | ⟨status, s2⟩
  · exact CommitResult.noConfusion h
  · simp only at h ⊢
    generalize hcb : (commitCallback s2.transactionCtx status s.pendingReqs).2 = c at h ⊢
    cases c with
    | some e => exact CommitResult.noConfusion h
    | none =>
      simp only at h ⊢
      by_cases hok : status.ok = true
      · simp only [hok, if_true] at h ⊢
        have hk : status = Code.kOk := by simpa [Code.ok] using hok
        subst hk
        obtain ⟨vbstate, hvb, hs2⟩ := saveDocs_kOk _ _ _ _ _ hne hsd
        subst hs2
        exact ⟨vbstate, hvb, by simp [RocksDBKVStore.setDB]⟩
      · simp only [hok] at h
        exact absurd h (by simp)

theorem ColumnFamily.get_cons_self {κ ν : Type} [DecidableEq κ] (cf : ColumnFamily κ ν) (k : κ)
    (v : ν) : ColumnFamily.get ((k, v) :: cf) k = some v := by
  simp [ColumnFamily.get]

theorem RocksRequest.make_docMeta_WF (item : Item) (cb : MutationRequestCallback) (now : Int)
    (hwf : item.WF) (hnow : -(2 ^ 63) ≤ now ∧ now < 2 ^ 63) :
    (RocksRequest.make item cb now).docMeta.WF := by
  obtain ⟨h1, h2, h3, h4, h5, h6, h7⟩ := hwf
  refine ⟨by simp [RocksRequest.make], h1, h2, h3, ?_, h5, h6, h7⟩
  simp only [RocksRequest.make]
  split_ifs
  · exact hnow
  · exact h4

/-- Reading back the record of a request: `makeItem` rebuilds the metadata of
the request and, unless only the metadata is asked for, its body. -/
theorem makeItem_defaultRecord (r : RocksRequest) (vb : Nat) (key : DocKey)
    (g : GetMetaOnly) (hwf : r.docMeta.WF) (hsz : r.docMeta.valueSize = r.docBody.length) :
    makeItem vb key r.defaultRecord.2 g = Except.ok
      { key := key
        flags := r.docMeta.flags
        exptime := r.docMeta.exptime
        value := if g = GetMetaOnly.No then r.docBody else []
        datatype := r.docMeta.datatype
        cas := r.docMeta.cas
        bySeqno := r.docMeta.bySeqno
        vbucketId := vb
        revSeqno := r.docMeta.revSeqno
        deleted := r.docMeta.deleted } := by
  have hlen : ¬ (r.docMeta.encode ++ r.docBody).length < sizeofMetaData := by
    simp [MetaData.encode_length]
  have hd : (r.docMeta.encode ++ r.docBody).drop sizeofMetaData = r.docBody := by
    rw [← MetaData.encode_length r.docMeta]
    simp
  simp only [makeItem, RocksRequest.defaultRecord, RocksRequest.getDocMetaSlice,
    RocksRequest.getDocBodySlice, hlen, if_false, MetaData.decode_encode _ _ hwf, hd, hsz]
  cases g with
  | Yes => simp
  | No =>
    by_cases h0 : r.docBody.length = 0
    · simp [h0, List.length_eq_zero.mp h0]
    · simp [h0]

/-! ## The item read back after a commit -/

/-- The item `get` returns for the key of the request queued last, after a
commit that returns success. -/
theorem get_committed_item (s s1 : RocksDBKVStore) (env : WriteEnv) (txCtx : Option Nat)
    (item : Item) (now : Int) (fetchDelete : Bool)
    (hwf : item.WF) (hnow : -(2 ^ 63) ≤ now ∧ now < 2 ^ 63)
    (hq : s1 = ((s.begin txCtx).2.set item now).2 ∨ s1 = ((s.begin txCtx).2.del item now).2)
    (hc : (s1.commit env).1 = CommitResult.returned true) :
    (s.pendingReqs = [] → s1.commitVBucket = item.vbucketId) ∧
    ∃ it, (s1.commit env).2.1.get item.key s1.commitVBucket fetchDelete =
        Except.ok { item := some it, status := ENGINE_ERROR_CODE.ENGINE_SUCCESS, id := -1,
                    onlyKeys := false } ∧
      it.bySeqno = item.bySeqno ∧ it.cas = item.cas ∧ it.datatype = item.datatype ∧
      it.flags = item.flags ∧ it.deleted = item.deleted ∧
      it.exptime = (if item.deleted then now else item.exptime) ∧
      it.value = item.value := by
  obtain ⟨cb, hs1⟩ : ∃ cb, s1 = { (s.begin txCtx).2 with
      pendingReqs := s.pendingReqs ++ [RocksRequest.make item cb now] } := by
    rcases hq with h | h
    · exact ⟨MutationRequestCallback.setCb, by
        rw [h]; simp [RocksDBKVStore.set, RocksDBKVStore.begin]⟩
    · exact ⟨MutationRequestCallback.delCb, by
        rw [h]; simp [RocksDBKVStore.del, RocksDBKVStore.begin]⟩
  have hin : s1.in_transaction = true := by rw [hs1]; rfl
  have hp : s1.pendingReqs = s.pendingReqs ++ [RocksRequest.make item cb now] := by rw [hs1]
  have hne : s1.pendingReqs ≠ [] := by rw [hp]; simp
  constructor
  · intro h0
    simp [RocksDBKVStore.commitVBucket, hp, h0, RocksRequest.make]
  · obtain ⟨vbstate, _, hdb⟩ := commit_success_db s1 env hin hne hc
    have hrec : ((s1.commit env).2.1.openDB s1.commitVBucket).defaultCF.get (getKeySlice item.key)
        = some (RocksRequest.make item cb now).defaultRecord.2 := by
      simp only [RocksDBKVStore.openDB, hdb, if_true, write_defaultCF, defaultPuts_atomicBatch, hp,
        List.map_append, List.map_cons, List.map_nil, List.reverse_append, List.reverse_cons,
        List.reverse_nil, List.nil_append, List.singleton_append, List.cons_append]
      exact ColumnFamily.get_cons_self _ _ _
    have hmi := makeItem_defaultRecord (RocksRequest.make item cb now) s1.commitVBucket item.key
      GetMetaOnly.No (RocksRequest.make_docMeta_WF item cb now hwf hnow) rfl
    refine ⟨{ key := item.key
              flags := (RocksRequest.make item cb now).docMeta.flags
              exptime := (RocksRequest.make item cb now).docMeta.exptime
              value := if GetMetaOnly.No = GetMetaOnly.No then
                (RocksRequest.make item cb now).docBody else []
              datatype := (RocksRequest.make item cb now).docMeta.datatype
              cas := (RocksRequest.make item cb now).docMeta.cas
              bySeqno := (RocksRequest.make item cb now).docMeta.bySeqno
              vbucketId := s1.commitVBucket
              revSeqno := (RocksRequest.make item cb now).docMeta.revSeqno
              deleted := (RocksRequest.make item cb now).docMeta.deleted }, ?_, ?_⟩
    · simp only [RocksDBKVStore.get, RocksDBKVStore.getWithHeader, hrec, makeGetValue, hmi]
    · simp [RocksRequest.make]

/-! ## Scan lemmas -/

theorem isPastEnd_eq (e q : Int) : isPastEnd e q = decide (e < q) := by
  unfold isPastEnd vbidSeqnoComparator getNumericSeqno
  by_cases h1 : q < e
  · simp [h1]; omega
  · by_cases h2 : q > e
    · simp [h1, h2]
    · simp [h1, h2]

theorem makeItem_key (vb : Nat) (key : DocKey) (s : Bytes) (g : GetMetaOnly) (itm : Item)
    (h : makeItem vb key s g = Except.ok itm) :
    itm.key = key ∧ itm.bySeqno = (MetaData.decode s).bySeqno ∧
      itm.deleted = (MetaData.decode s).deleted := by
  unfold makeItem at h
  split_ifs at h
  simp only [Except.ok.injEq] at h
  subst h
  exact ⟨rfl, rfl, rfl⟩

theorem scanEntry_candidate (snap : KVRocksDB) (ctx : ScanContext) (e : SeqnoSlice × Bytes)
    (itm : Item) (h : scanEntry snap ctx e = EntryClass.candidate itm) :
    itm.bySeqno = e.1 ∧ itm.key = { data := e.2, ns := DocNamespace.DefaultCollection } := by
  unfold scanEntry at h
  split at h
  · exact EntryClass.noConfusion h
  · split at h
    · exact EntryClass.noConfusion h
    · rename_i itm1 hmk
      simp only [getNumericSeqno] at h
      split_ifs at h with h1 h2 h3
      simp only [EntryClass.candidate.injEq] at h
      subst h
      exact ⟨by omega, (makeItem_key _ _ _ _ _ hmk).1⟩

/-- The loop of `scan`, one entry unfolded. -/
theorem scanLoop_cons {σ : Type} (snap : KVRocksDB) (cbs : ScanCallbacks σ)
    (ctx : ScanContext) (e : SeqnoSlice × Bytes) (rest : List (SeqnoSlice × Bytes)) (lr : Int)
    (st : σ) :
    scanLoop snap cbs ctx (e :: rest) lr st =
      if ctx.maxSeqno < e.1 then
        { loopEnd := LoopEnd.pastEnd, lastReadSeqno := lr, cbState := st, events := [] }
      else
        match scanEntry snap ctx e with
        | EntryClass.skip => scanLoop snap cbs ctx rest lr st
        | EntryClass.throw x =>
          { loopEnd := LoopEnd.threw x, lastReadSeqno := lr, cbState := st, events := [] }
        | EntryClass.candidate itm =>
          if (cbs.lookup st (lookupOf ctx itm)).2 = ENGINE_ERROR_CODE.ENGINE_KEY_EEXISTS then
            { scanLoop snap cbs ctx rest itm.bySeqno (cbs.lookup st (lookupOf ctx itm)).1 with
              events := ScanEvent.lookup (lookupOf ctx itm) (cbs.lookup st (lookupOf ctx itm)).2 ::
                (scanLoop snap cbs ctx rest itm.bySeqno
                  (cbs.lookup st (lookupOf ctx itm)).1).events }
          else if (cbs.lookup st (lookupOf ctx itm)).2 = ENGINE_ERROR_CODE.ENGINE_ENOMEM then
            { loopEnd := LoopEnd.returned scan_error_t.scan_again, lastReadSeqno := lr,
              cbState := (cbs.lookup st (lookupOf ctx itm)).1,
              events := [ScanEvent.lookup (lookupOf ctx itm)
                (cbs.lookup st (lookupOf ctx itm)).2] }
          else if (cbs.callback (cbs.lookup st (lookupOf ctx itm)).1 (valueOf ctx itm)).2
              = ENGINE_ERROR_CODE.ENGINE_ENOMEM then
            { loopEnd := LoopEnd.returned scan_error_t.scan_again, lastReadSeqno := lr,
              cbState := (cbs.callback (cbs.lookup st (lookupOf ctx itm)).1 (valueOf ctx itm)).1,
              events := [ScanEvent.lookup (lookupOf ctx itm) (cbs.lookup st (lookupOf ctx itm)).2,
                ScanEvent.value (valueOf ctx itm)
                  (cbs.callback (cbs.lookup st (lookupOf ctx itm)).1 (valueOf ctx itm)).2] }
          else
            { scanLoop snap cbs ctx rest itm.bySeqno
                (cbs.callback (cbs.lookup st (lookupOf ctx itm)).1 (valueOf ctx itm)).1 with
              events := ScanEvent.lookup (lookupOf ctx itm) (cbs.lookup st (lookupOf ctx itm)).2 ::
                ScanEvent.value (valueOf ctx itm)
                  (cbs.callback (cbs.lookup st (lookupOf ctx itm)).1 (valueOf ctx itm)).2 ::
                (scanLoop snap cbs ctx rest itm.bySeqno
                  (cbs.callback (cbs.lookup st (lookupOf ctx itm)).1
                    (valueOf ctx itm)).1).events } := by
  obtain ⟨q, k⟩ := e
  rw [scanLoop]
  simp only [isPastEnd_eq, getSeqnoSlice, decide_eq_true_eq]
  by_cases hpe : ctx.maxSeqno < q
  · simp only [hpe, if_true]
  · simp only [hpe, if_false]
    unfold scanEntry
    cases hget : snap.defaultCF.get k with
    | none => rfl
    | some valueStr =>
      simp only
      cases hmk : makeItem ctx.vbid { data := k, ns := DocNamespace.DefaultCollection } valueStr
          (if ctx.valFilter = ValueFilter.KEYS_ONLY then GetMetaOnly.Yes else GetMetaOnly.No) with
      | error x => rfl
      | ok itm =>
        have hk := (makeItem_key _ _ _ _ _ hmk).1
        simp only [getNumericSeqno]
        by_cases h1 : itm.bySeqno > q
        · simp only [h1, if_true]
        · by_cases h2 : itm.bySeqno < q
          · simp only [h1, h2, if_true, if_false]
          · simp only [h1, h2, if_false]
            by_cases h3 : ctx.docFilter = DocumentFilter.NO_DELETES
            · cases hd : itm.deleted
              · simp [h3, hd, lookupOf, valueOf, hk]
              · simp [h3, hd]
            · simp [h3, lookupOf, valueOf, hk]

/-- The records the loop of `scan` passes to the value callback carry seqnos
that form a sublist of the keys the iterator yields, none above the end. -/
theorem scanLoop_delivered {σ : Type} (snap : KVRocksDB) (cbs : ScanCallbacks σ)
    (ctx : ScanContext) (es : List (SeqnoSlice × Bytes)) (lr : Int) (st : σ) :
    List.Sublist ((delivered (scanLoop snap cbs ctx es lr st).events).map (fun it => it.bySeqno))
      (es.map Prod.fst) ∧
    ∀ it ∈ delivered (scanLoop snap cbs ctx es lr st).events, it.bySeqno ≤ ctx.maxSeqno := by
  induction es generalizing lr st with
  | nil => simp [scanLoop, delivered]
  | cons e rest ih =>
    rw [scanLoop_cons]
    by_cases hpe : ctx.maxSeqno < e.1
    · simp [hpe, delivered]
    · simp only [hpe, if_false, List.map_cons]
      have skip : ∀ lr1 (st1 : σ),
          List.Sublist
            ((delivered (scanLoop snap cbs ctx rest lr1 st1).events).map (fun it => it.bySeqno))
            (e.1 :: rest.map Prod.fst) ∧
          ∀ it ∈ delivered (scanLoop snap cbs ctx rest lr1 st1).events,
            it.bySeqno ≤ ctx.maxSeqno :=
        fun lr1 st1 => ⟨List.Sublist.cons _ (ih lr1 st1).1, (ih lr1 st1).2⟩
      cases hc : scanEntry snap ctx e with
      | skip => exact skip _ _
      | throw x => simp [delivered]
      | candidate itm =>
        have hq := (scanEntry_candidate _ _ _ _ hc).1
        simp only
        split_ifs with h1 h2 h3
        · simpa [delivered, ScanEvent.passed] using skip itm.bySeqno _
        · simp [delivered, ScanEvent.passed]
        · have hv : (valueOf ctx itm).item = some itm := rfl
          simp only [delivered, List.filterMap_cons, ScanEvent.passed, List.filterMap_nil,
            List.map_cons, List.map_nil, List.mem_singleton, forall_eq, hq, hv]
          exact ⟨List.Sublist.cons₂ _ (List.nil_sublist _), by omega⟩
        · have := ih itm.bySeqno
            (cbs.callback (cbs.lookup st (lookupOf ctx itm)).1 (valueOf ctx itm)).1
          simp only [delivered] at this
          have hv : (valueOf ctx itm).item = some itm := rfl
          simp only [delivered, List.filterMap_cons, ScanEvent.passed, List.map_cons,
            List.mem_cons, forall_eq_or_imp, hv]
          rw [hq] at this ⊢
          exact ⟨List.Sublist.cons₂ _ this.1, by omega, this.2⟩

theorem seqnoKeys_sorted (db : KVRocksDB) : db.seqnoKeys.Sorted (· < ·) := by
  unfold KVRocksDB.seqnoKeys
  apply List.Sorted.lt_of_le
  · exact List.sorted_insertionSort _ _
  · exact (List.perm_insertionSort _ _).nodup_iff.mpr (List.nodup_dedup _)

theorem mem_seqnoKeys (db : KVRocksDB) (q : Int) :
    q ∈ db.seqnoKeys ↔ q ∈ db.seqnoCF.map Prod.fst := by
  unfold KVRocksDB.seqnoKeys
  rw [List.mem_insertionSort, List.mem_dedup]

theorem ColumnFamily.get_isSome {κ ν : Type} [DecidableEq κ] (cf : ColumnFamily κ ν) (k : κ)
    (h : k ∈ cf.map Prod.fst) : ∃ v, ColumnFamily.get cf k = some v := by
  induction cf with
  | nil => simp at h
  | cons e rest ih =>
    obtain ⟨k1, v1⟩ := e
    by_cases hk : k1 = k
    · exact ⟨v1, by simp [ColumnFamily.get, hk]⟩
    · simp only [List.map_cons, List.mem_cons] at h
      rcases h with h | h
      · exact absurd h.symm hk
      · obtain ⟨v, hv⟩ := ih h
        exact ⟨v, by simp [ColumnFamily.get, hk, hv]⟩

theorem filterMap_get_map_fst (cf : ColumnFamily Int Bytes) (l : List Int)
    (h : ∀ q ∈ l, q ∈ cf.map Prod.fst) :
    (l.filterMap (fun q => (ColumnFamily.get cf q).map (fun k => (q, k)))).map Prod.fst = l := by
  induction l with
  | nil => rfl
  | cons q rest ih =>
    obtain ⟨v, hv⟩ := ColumnFamily.get_isSome cf q (h q (List.mem_cons_self _ _))
    simp only [List.filterMap_cons, hv, Option.map_some', List.map_cons]
    rw [ih (fun q1 h1 => h q1 (List.mem_cons_of_mem _ h1))]

/-- The keys an iterator over the seqno column family visits after a seek. -/
theorem seekSeqno_keys (db : KVRocksDB) (start : Int) :
    (db.seekSeqno start).map Prod.fst = db.seqnoKeys.filter (fun q => decide (start ≤ q)) := by
  unfold KVRocksDB.seekSeqno
  apply filterMap_get_map_fst
  intro q hq
  exact (mem_seqnoKeys db q).mp (List.mem_filter.mp hq).1

theorem seekSeqno_sorted (db : KVRocksDB) (start : Int) :
    ((db.seekSeqno start).map Prod.fst).Sorted (· < ·) := by
  rw [seekSeqno_keys]
  exact (seqnoKeys_sorted db).filter _

theorem seekSeqno_ge (db : KVRocksDB) (start : Int) :
    ∀ q ∈ (db.seekSeqno start).map Prod.fst, start ≤ q := by
  rw [seekSeqno_keys]
  intro q hq
  simpa using (List.mem_filter.mp hq).2

/-- The last read seqno the loop of `scan` leaves is the one it started with or
a key the iterator yielded. -/
theorem scanLoop_lastReadSeqno {σ : Type} (snap : KVRocksDB) (cbs : ScanCallbacks σ)
    (ctx : ScanContext) (es : List (SeqnoSlice × Bytes)) (lr : Int) (st : σ) :
    (scanLoop snap cbs ctx es lr st).lastReadSeqno = lr ∨
      (scanLoop snap cbs ctx es lr st).lastReadSeqno ∈ es.map Prod.fst := by
  induction es generalizing lr st with
  | nil => simp [scanLoop]
  | cons e rest ih =>
    rw [scanLoop_cons]
    by_cases hpe : ctx.maxSeqno < e.1
    · simp [hpe]
    · simp only [hpe, if_false, List.map_cons, List.mem_cons]
      cases hc : scanEntry snap ctx e with
      | skip =>
        rcases ih lr st with h | h
        · exact Or.inl h
        · exact Or.inr (Or.inr h)
      | throw x => simp
      | candidate itm =>
        have hq := (scanEntry_candidate _ _ _ _ hc).1
        simp only
        split_ifs with h1 h2 h3
        · rcases ih itm.bySeqno (cbs.lookup st (lookupOf ctx itm)).1 with h | h
          · exact Or.inr (Or.inl (by rw [← hq]; exact h))
          · exact Or.inr (Or.inr h)
        · simp
        · simp
        · rcases ih itm.bySeqno
            (cbs.callback (cbs.lookup st (lookupOf ctx itm)).1 (valueOf ctx itm)).1 with h | h
          · exact Or.inr (Or.inl (by rw [← hq]; exact h))
          · exact Or.inr (Or.inr h)

/-- The seqno a call of `scan` seeks to. -/
theorem scan_events_eq {σ : Type} (s : RocksDBKVStore) (cbs : ScanCallbacks σ)
    (iterFail : Option Nat) (ctx : ScanContext) (st : σ) :
    (s.scan cbs iterFail (some ctx) st).events = [] ∧
      (s.scan cbs iterFail (some ctx) st).ctx = some ctx ∨
    ∃ snap es, List.Sublist es (snap.seekSeqno
        (if ctx.lastReadSeqno ≠ 0 then ctx.lastReadSeqno + 1 else ctx.startSeqno)) ∧
      (s.scan cbs iterFail (some ctx) st).events =
        (scanLoop snap cbs ctx es ctx.lastReadSeqno st).events ∧
      (s.scan cbs iterFail (some ctx) st).ctx = some { ctx with
        lastReadSeqno := (scanLoop snap cbs ctx es ctx.lastReadSeqno st).lastReadSeqno } := by
  unfold RocksDBKVStore.scan
  by_cases h0 : ctx.lastReadSeqno = ctx.maxSeqno
  · simp [h0]
  · simp only [h0, if_false]
    cases hl : s.scanSnapshots.lookup ctx.scanId with
    | none => simp
    | some snap =>
      right
      cases iterFail with
      | none => exact ⟨snap, _, List.Sublist.refl _, rfl, rfl⟩
      | some n => exact ⟨snap, _, List.take_sublist _ _, rfl, rfl⟩

/-- A reachable context has read nothing yet or has read at or above its start. -/
theorem ScanContext.Reachable.start_le (ctx : ScanContext) (h : ctx.Reachable) :
    ctx.lastReadSeqno = 0 ∨ ctx.startSeqno ≤ ctx.lastReadSeqno := by
  induction h with
  | fresh ctx h => exact Or.inl h
  | scanned s cbs iterFail ctx ctx1 st _ h1 ih =>
    rcases scan_events_eq s cbs iterFail ctx st with ⟨_, h2⟩ | ⟨snap, es, hsub, _, h2⟩
    · rw [h2] at h1
      simp only [Option.some.injEq] at h1
      subst h1
      exact ih
    · rw [h2] at h1
      simp only [Option.some.injEq] at h1
      subst h1
      simp only
      rcases scanLoop_lastReadSeqno snap cbs ctx es ctx.lastReadSeqno st with h | h
      · rw [h]; exact ih
      · right
        have := seekSeqno_ge snap _ _ ((hsub.map Prod.fst).subset h)
        split_ifs at this with h3
        · rcases ih with h4 | h4
          · exact absurd h4 h3
          · omega
        · exact this

/-! ## What a scan delivers -/

theorem scanEntry_candidate_deleted (snap : KVRocksDB) (ctx : ScanContext)
    (e : SeqnoSlice × Bytes) (itm : Item) (h : scanEntry snap ctx e = EntryClass.candidate itm)
    (hf : ctx.docFilter = DocumentFilter.NO_DELETES) : itm.deleted = false := by
  unfold scanEntry at h
  split at h
  · exact EntryClass.noConfusion h
  · split at h
    · exact EntryClass.noConfusion h
    · rename_i itm1 _
      split_ifs at h with h1 h2 h3
      simp only [EntryClass.candidate.injEq] at h
      subst h
      cases hd : itm1.deleted
      · rfl
      · exact absurd ⟨hf, hd⟩ h3

/-- Every record the loop of `scan` passes to the value callback is the item
of a candidate entry. -/
theorem scanLoop_delivered_candidate {σ : Type} (snap : KVRocksDB) (cbs : ScanCallbacks σ)
    (ctx : ScanContext) (es : List (SeqnoSlice × Bytes)) (lr : Int) (st : σ) :
    ∀ it ∈ delivered (scanLoop snap cbs ctx es lr st).events,
      ∃ e ∈ es, scanEntry snap ctx e = EntryClass.candidate it := by
  induction es generalizing lr st with
  | nil => simp [scanLoop, delivered]
  | cons e rest ih =>
    rw [scanLoop_cons]
    by_cases hpe : ctx.maxSeqno < e.1
    · simp [hpe, delivered]
    · simp only [hpe, if_false]
      have skip : ∀ lr1 (st1 : σ), ∀ it ∈ delivered (scanLoop snap cbs ctx rest lr1 st1).events,
          ∃ e1 ∈ e :: rest, scanEntry snap ctx e1 = EntryClass.candidate it := by
        intro lr1 st1 it hit
        obtain ⟨e1, h1, h2⟩ := ih lr1 st1 it hit
        exact ⟨e1, List.mem_cons_of_mem _ h1, h2⟩
      cases hc : scanEntry snap ctx e with
      | skip => exact skip _ _
      | throw x => simp [delivered]
      | candidate itm =>
        have hv : (valueOf ctx itm).item = some itm := rfl
        simp only
        split_ifs with h1 h2 h3
        · simpa [delivered, ScanEvent.passed] using skip itm.bySeqno _
        · simp [delivered, ScanEvent.passed]
        · simp only [delivered, List.filterMap_cons, ScanEvent.passed, hv, List.filterMap_nil,
            List.mem_singleton, forall_eq]
          exact ⟨e, List.mem_cons_self _ _, hc⟩
        · intro it hit
          simp only [delivered, List.filterMap_cons, ScanEvent.passed, hv, List.mem_cons] at hit
          rcases hit with h | h
          · exact ⟨e, List.mem_cons_self _ _, by rw [h]; exact hc⟩
          · exact skip _ _ it h

/-- When the callbacks never report key-exists or out-of-memory and the loop of
`scan` ends without an exception, the item of every candidate entry up to the
end seqno is passed to the value callback. -/
theorem scanLoop_delivers {σ : Type} (snap : KVRocksDB) (cbs : ScanCallbacks σ)
    (ctx : ScanContext) (es : List (SeqnoSlice × Bytes)) (lr : Int) (st : σ)
    (hl : ∀ st1 c, (cbs.lookup st1 c).2 ≠ ENGINE_ERROR_CODE.ENGINE_KEY_EEXISTS ∧
      (cbs.lookup st1 c).2 ≠ ENGINE_ERROR_CODE.ENGINE_ENOMEM)
    (hc : ∀ st1 rv, (cbs.callback st1 rv).2 ≠ ENGINE_ERROR_CODE.ENGINE_ENOMEM)
    (hs : (es.map Prod.fst).Sorted (fun a b => a < b))
    (hend : (scanLoop snap cbs ctx es lr st).loopEnd = LoopEnd.invalid ∨
      (scanLoop snap cbs ctx es lr st).loopEnd = LoopEnd.pastEnd)
    (e : SeqnoSlice × Bytes) (itm : Item) (he : e ∈ es) (hmax : e.1 ≤ ctx.maxSeqno)
    (hcand : scanEntry snap ctx e = EntryClass.candidate itm) :
    itm ∈ delivered (scanLoop snap cbs ctx es lr st).events := by
  induction es generalizing lr st with
  | nil => simp at he
  | cons e0 rest ih =>
    rw [scanLoop_cons] at hend ⊢
    simp only [List.map_cons, List.sorted_cons] at hs
    have hle : e0.1 ≤ e.1 := by
      rcases List.mem_cons.mp he with h | h
      · rw [h]
      · exact le_of_lt (hs.1 _ (List.mem_map_of_mem _ h))
    have hpe : ¬ ctx.maxSeqno < e0.1 := by
      intro hlt
      have := lt_of_le_of_lt hmax hlt
      exact absurd hle (not_le.mpr this)
    simp only [hpe, if_false] at hend ⊢
    cases hc0 : scanEntry snap ctx e0 with
    | skip =>
      simp only [hc0] at hend ⊢
      rcases List.mem_cons.mp he with h | h
      · rw [h, hc0] at hcand; exact EntryClass.noConfusion hcand
      · exact ih lr st hs.2 hend h
    | throw x =>
      simp only [hc0] at hend
      rcases hend with h | h <;> exact LoopEnd.noConfusion h
    | candidate itm0 =>
      have hv : (valueOf ctx itm0).item = some itm0 := rfl
      simp only [hc0, (hl _ _).1, (hl _ _).2, hc _ _, if_false] at hend ⊢
      simp only [delivered, List.filterMap_cons, ScanEvent.passed, hv, List.mem_cons]
      rcases List.mem_cons.mp he with h | h
      · rw [h, hc0] at hcand
        simp only [EntryClass.candidate.injEq] at hcand
        exact Or.inl hcand.symm
      · exact Or.inr (ih _ _ hs.2 hend h)

theorem lookup_append_some {α β : Type} [BEq α] [LawfulBEq α] (l : List (α × β)) (k : α) (v : β) :
    ∃ w, (l ++ [(k, v)]).lookup k = some w := by
  induction l with
  | nil => exact ⟨v, by simp [List.lookup]⟩
  | cons e rest ih =>
    obtain ⟨k1, v1⟩ := e
    by_cases h : k = k1
    · subst h
      exact ⟨v1, by simp [List.lookup]⟩
    · obtain ⟨w, hw⟩ := ih
      refine ⟨w, ?_⟩
      have : (k == k1) = false := by simpa using h
      simp [List.lookup, this, hw]

theorem ColumnFamily.mem_keys_of_get {κ ν : Type} [DecidableEq κ] (cf : ColumnFamily κ ν)
    (k : κ) (v : ν) (h : ColumnFamily.get cf k = some v) : k ∈ cf.map Prod.fst := by
  induction cf with
  | nil => simp [ColumnFamily.get] at h
  | cons e rest ih =>
    obtain ⟨k1, v1⟩ := e
    by_cases hq : k1 = k
    · simp [hq]
    · simp only [ColumnFamily.get, hq, if_false] at h
      simp only [List.map_cons, List.mem_cons]
      exact Or.inr (ih h)

/-- The members of the entries of a seek. -/
theorem mem_seekSeqno (db : KVRocksDB) (start q : Int) (k : Bytes) :
    (q, k) ∈ db.seekSeqno start ↔ start ≤ q ∧ db.seqnoCF.get q = some k := by
  unfold KVRocksDB.seekSeqno
  simp only [List.mem_filterMap, List.mem_filter, decide_eq_true_eq, Option.map_eq_some',
    Prod.mk.injEq]
  constructor
  · rintro ⟨q1, ⟨_, h2⟩, k1, h3, h4, h5⟩
    subst h4; subst h5
    exact ⟨h2, h3⟩
  · rintro ⟨h1, h2⟩
    refine ⟨q, ⟨?_, h1⟩, k, h2, rfl, rfl⟩
    rw [mem_seqnoKeys]
    exact ColumnFamily.mem_keys_of_get _ _ _ h2

/-- A call of `scan` that passes the entry tests, with an iterator that does
not fail: the loop runs over the entries from the seqno sought. -/
theorem scan_eq_loop {σ : Type} (s : RocksDBKVStore) (cbs : ScanCallbacks σ)
    (ctx : ScanContext) (st : σ) (snap : KVRocksDB)
    (hne : ctx.lastReadSeqno ≠ ctx.maxSeqno)
    (hsnap : s.scanSnapshots.lookup ctx.scanId = some snap) :
    s.scan cbs none (some ctx) st =
      { result :=
          match (scanLoop snap cbs ctx (snap.seekSeqno
              (if ctx.lastReadSeqno ≠ 0 then ctx.lastReadSeqno + 1 else ctx.startSeqno))
              ctx.lastReadSeqno st).loopEnd with
          | LoopEnd.returned e => ScanResult.returned e
          | LoopEnd.threw e => ScanResult.threw e
          | LoopEnd.pastEnd => ScanResult.returned scan_error_t.scan_success
          | LoopEnd.invalid => ScanResult.returned scan_error_t.scan_success
        ctx := some { ctx with lastReadSeqno := (scanLoop snap cbs ctx (snap.seekSeqno
              (if ctx.lastReadSeqno ≠ 0 then ctx.lastReadSeqno + 1 else ctx.startSeqno))
              ctx.lastReadSeqno st).lastReadSeqno }
        cbState := (scanLoop snap cbs ctx (snap.seekSeqno
              (if ctx.lastReadSeqno ≠ 0 then ctx.lastReadSeqno + 1 else ctx.startSeqno))
              ctx.lastReadSeqno st).cbState
        events := (scanLoop snap cbs ctx (snap.seekSeqno
              (if ctx.lastReadSeqno ≠ 0 then ctx.lastReadSeqno + 1 else ctx.startSeqno))
              ctx.lastReadSeqno st).events } := by
  simp only [RocksDBKVStore.scan, hne, if_false, hsnap, getSeqnoSlice, Option.isSome_none,
    Bool.false_eq_true]
  try congr 1

/-- The entry of a record whose seqno is that of its mapping is a candidate,
unless it is a delete and deletes are filtered. -/
theorem scanEntry_of_record (snap : KVRocksDB) (ctx : ScanContext) (q : Int) (k rec : Bytes)
    (hrec : snap.defaultCF.get k = some rec) (hlen : sizeofMetaData ≤ rec.length)
    (hq : (MetaData.decode rec).bySeqno = q)
    (hf : ctx.docFilter = DocumentFilter.ALL_ITEMS ∨ (MetaData.decode rec).deleted = false) :
    ∃ itm, scanEntry snap ctx (q, k) = EntryClass.candidate itm ∧
      itm.deleted = (MetaData.decode rec).deleted ∧ itm.bySeqno = q ∧ itm.key.data = k := by
  have hl : ¬ rec.length < sizeofMetaData := by omega
  cases hmk : makeItem ctx.vbid { data := k, ns := DocNamespace.DefaultCollection } rec
      (if ctx.valFilter = ValueFilter.KEYS_ONLY then GetMetaOnly.Yes else GetMetaOnly.No) with
  | error x => simp [makeItem, hl] at hmk
  | ok itm =>
    obtain ⟨h1, h2, h3⟩ := makeItem_key _ _ _ _ _ hmk
    refine ⟨itm, ?_, h3, by rw [h2, hq], by rw [h1]⟩
    have hb : itm.bySeqno = q := by rw [h2, hq]
    have hnd : ¬ (ctx.docFilter = DocumentFilter.NO_DELETES ∧ itm.deleted = true) := by
      rintro ⟨h4, h5⟩
      rcases hf with h | h
      · rw [h] at h4; exact DocumentFilter.noConfusion h4
      · rw [h3, h] at h5; exact Bool.noConfusion h5
    simp only [scanEntry, hrec, hmk, getNumericSeqno, hb, gt_iff_lt, lt_self_iff_false, if_false,
      hnd]

/-- The only value the body of the loop of `scan` returns is `scan_again`. -/
theorem scanLoop_returned {σ : Type} (snap : KVRocksDB) (cbs : ScanCallbacks σ)
    (ctx : ScanContext) (es : List (SeqnoSlice × Bytes)) (lr : Int) (st : σ) (r : scan_error_t)
    (h : (scanLoop snap cbs ctx es lr st).loopEnd = LoopEnd.returned r) :
    r = scan_error_t.scan_again := by
  induction es generalizing lr st with
  | nil => simp [scanLoop] at h
  | cons e rest ih =>
    rw [scanLoop_cons] at h
    by_cases hpe : ctx.maxSeqno < e.1
    · simp [hpe] at h
    · simp only [hpe, if_false] at h
      cases hc : scanEntry snap ctx e with
      | skip => rw [hc] at h; exact ih _ _ h
      | throw x => rw [hc] at h; simp at h
      | candidate itm =>
        rw [hc] at h
        simp only at h
        split_ifs at h with h1 h2 h3
        · exact ih _ _ h
        · simp only [LoopEnd.returned.injEq] at h; exact h.symm
        · simp only [LoopEnd.returned.injEq] at h; exact h.symm
        · exact ih _ _ h

/-! ## Decimal texts -/

theorem digitChar_toNat (k : Nat) (h : k < 10) :
    (Nat.digitChar k).toNat - 48 = k ∧ (Nat.digitChar k).isDigit = true ∧
      (Nat.digitChar k).isWhitespace = false ∧ Nat.digitChar k ≠ '-' ∧ Nat.digitChar k ≠ '+' := by
  interval_cases k <;> decide

theorem toDigitsCore_all (fuel n : Nat) (ds : List Char) (p : Char → Prop)
    (hp : ∀ k, k < 10 → p (Nat.digitChar k)) (hds : ∀ c ∈ ds, p c) :
    ∀ c ∈ Nat.toDigitsCore 10 fuel n ds, p c := by
  induction fuel generalizing n ds with
  | zero => simpa [Nat.toDigitsCore] using hds
  | succ fuel ih =>
    have hd : ∀ c ∈ Nat.digitChar (n % 10) :: ds, p c := by
      intro c hc
      rcases List.mem_cons.mp hc with h | h
      · rw [h]; exact hp _ (Nat.mod_lt _ (by norm_num))
      · exact hds c h
    simp only [Nat.toDigitsCore]
    split_ifs with h0
    · exact hd
    · exact ih _ _ hd

theorem toDigitsCore_value (fuel n : Nat) (ds : List Char) (h : n < fuel) :
    (Nat.toDigitsCore 10 fuel n ds).foldl (fun a c => 10 * a + (c.toNat - 48)) 0 =
      ds.foldl (fun a c => 10 * a + (c.toNat - 48)) n := by
  induction fuel generalizing n ds with
  | zero => omega
  | succ fuel ih =>
    simp only [Nat.toDigitsCore]
    have hd := (digitChar_toNat (n % 10) (Nat.mod_lt _ (by norm_num))).1
    split_ifs with h0
    · have hn : n % 10 = n := by omega
      simp only [List.foldl_cons, Nat.mul_zero, Nat.zero_add]
      rw [hd, hn]
    · rw [ih (n / 10) _ (by omega)]
      simp only [List.foldl_cons, hd]
      congr 1
      omega

theorem toDigits_ne_nil (n : Nat) : Nat.toDigits 10 n ≠ [] := by
  unfold Nat.toDigits
  simp only [Nat.toDigitsCore]
  split_ifs
  · simp
  · intro h
    have := congrArg List.length h
    have hl := Nat.toDigitsCore_lens_eq 10 n (n / 10) (Nat.digitChar (n % 10)) []
    rw [this] at hl
    simp at hl

theorem digitsValue_toDigits (n : Nat) : digitsValue (Nat.toDigits 10 n) = n := by
  unfold digitsValue Nat.toDigits
  rw [toDigitsCore_value _ _ _ (Nat.lt_succ_self n)]
  rfl

theorem toDigits_isNumeral (n : Nat) : IsNumeral (Nat.toDigits 10 n) :=
  ⟨toDigits_ne_nil n, toDigitsCore_all _ _ _
    (fun c => c.isDigit = true ∧ c.isWhitespace = false ∧ c ≠ '-' ∧ c ≠ '+')
    (fun k hk => (digitChar_toNat k hk).2) (by simp)⟩

theorem takeWhile_all {α : Type} (p : α → Bool) (l : List α) (h : ∀ c ∈ l, p c = true) :
    l.takeWhile p = l := by
  induction l with
  | nil => rfl
  | cons c rest ih =>
    simp [List.takeWhile, h c (List.mem_cons_self _ _),
      ih (fun d hd => h d (List.mem_cons_of_mem _ hd))]

theorem stoull_numeral (l : List Char) (h : IsNumeral l) (hv : digitsValue l < 2 ^ 64) :
    stoull (String.mk l) = Except.ok (digitsValue l) := by
  obtain ⟨hne, hall⟩ := h
  cases l with
  | nil => exact absurd rfl hne
  | cons c rest =>
    obtain ⟨h1, h2, h3, h4⟩ := hall c (List.mem_cons_self _ _)
    have htw : (c :: rest).takeWhile Char.isDigit = c :: rest :=
      takeWhile_all _ _ (fun d hd => (hall d hd).1)
    have hdw : (c :: rest).dropWhile Char.isWhitespace = c :: rest := by
      simp [List.dropWhile, h2]
    have hv2 : ¬ 2 ^ 64 ≤ digitsValue (c :: rest) := by omega
    have hsign : numberSign (c :: rest) = (false, c :: rest) := by
      unfold numberSign
      split
      · rename_i heq
        injection heq with h5 h6
        exact absurd h5 h3
      · rename_i heq
        injection heq with h5 h6
        exact absurd h5 h4
      · rfl
    unfold stoull
    simp [hdw, hsign, htw]
    norm_num at hv
    exact hv

theorem stoull_neg_numeral (l : List Char) (h : IsNumeral l) (hv : digitsValue l < 2 ^ 64) :
    stoull (String.mk ('-' :: l)) = Except.ok ((2 ^ 64 - digitsValue l) % 2 ^ 64) := by
  obtain ⟨hne, hall⟩ := h
  have htw : l.takeWhile Char.isDigit = l := takeWhile_all _ _ (fun d hd => (hall d hd).1)
  have hdw : ('-' :: l).dropWhile Char.isWhitespace = '-' :: l := by
    rw [List.dropWhile_cons]
    have : Char.isWhitespace '-' = false := by decide
    simp [this]
  unfold stoull
  simp only [hdw, numberSign, htw]
  have he : l.isEmpty = false := by
    cases l with
    | nil => exact absurd rfl hne
    | cons c rest => rfl
  simp [he]
  norm_num at hv
  exact hv

theorem stoull_toString_nat (n : Nat) (h : n < 2 ^ 64) : stoull (toString n) = Except.ok n := by
  have := stoull_numeral (Nat.toDigits 10 n) (toDigits_isNumeral n)
    (by rw [digitsValue_toDigits]; exact h)
  rw [digitsValue_toDigits] at this
  exact this

theorem toString_nat_ne_empty (n : Nat) : toString n ≠ "" := by
  intro h
  have := congrArg String.data h
  exact toDigits_ne_nil n this

theorem stoull_toString_int (i : Int) (h1 : -(2 ^ 63) ≤ i) (h2 : i < 2 ^ 63) :
    (stoull (toString i)).map toI64 = Except.ok i ∧ toString i ≠ "" := by
  cases i with
  | ofNat n =>
    have hn : n < 2 ^ 64 := by
      have : (n : Int) < 2 ^ 63 := h2
      omega
    have e : toString (Int.ofNat n) = toString n := rfl
    rw [e, stoull_toString_nat n hn]
    refine ⟨?_, toString_nat_ne_empty n⟩
    have h3 : n < 2 ^ 63 := by
      have : (n : Int) < 2 ^ 63 := h2
      omega
    simp only [Except.map, toI64, if_pos h3]
    rfl
  | negSucc m =>
    have e : toString (Int.negSucc m) = String.mk ('-' :: Nat.toDigits 10 (m + 1)) := rfl
    have hm : m + 1 ≤ 2 ^ 63 := by
      have : -(2 ^ 63 : Int) ≤ -((m : Int) + 1) := by rw [← Int.negSucc_eq]; exact h1
      omega
    rw [e, stoull_neg_numeral _ (toDigits_isNumeral _)
      (by rw [digitsValue_toDigits]; omega), digitsValue_toDigits]
    refine ⟨?_, by intro h; exact absurd (congrArg String.data h) (by simp)⟩
    simp only [Except.map, toI64, Except.ok.injEq]
    have h3 : (2 ^ 64 - (m + 1)) % 2 ^ 64 = 2 ^ 64 - (m + 1) := Nat.mod_eq_of_lt (by omega)
    rw [h3]
    have h4 : ¬ (2 ^ 64 - (m + 1) < 2 ^ 63) := by omega
    rw [if_neg h4, Int.negSucc_eq]
    have h5 : ((2 ^ 64 - (m + 1) : Nat) : Int) = 2 ^ 64 - ((m : Int) + 1) := by omega
    rw [h5]
    ring

/-! ## Reading the state blob -/

/-- An optional numeric member of the state blob: the text the helper gives for
it and the number read from that text. -/
theorem optional_member (o : Option (String × Nat)) (item : Option cJSON)
    (h : item = o.map (fun p => cJSON.cJSON_String p.1))
    (hv : ∀ p, o = some p → p.1 ≠ "" ∧ stoull p.1 = Except.ok p.2) :
    getJSONObjString item = Except.ok ((o.map (fun p => p.1)).getD "") ∧
    (∀ d : Nat, (if (o.map (fun p => p.1)).getD "" = "" then Except.ok d
        else stoull ((o.map (fun p => p.1)).getD "")) = Except.ok ((o.map (fun p => p.2)).getD d)) ∧
    (∀ d : Nat, (if (o.map (fun p => p.1)).getD "" ≠ "" then stoull ((o.map (fun p => p.1)).getD "")
        else Except.ok d) = Except.ok ((o.map (fun p => p.2)).getD d)) ∧
    (∀ d : Int, (if (o.map (fun p => p.1)).getD "" ≠ ""
        then (stoull ((o.map (fun p => p.1)).getD "")).map toI64
        else Except.ok d) = Except.ok ((o.map (fun p => toI64 p.2)).getD d)) := by
  subst h
  cases o with
  | none => simp [getJSONObjString]
  | some p =>
    obtain ⟨h1, h2⟩ := hv p rfl
    simp [getJSONObjString, h1, h2, Except.map]

/-- The state `readVBState` builds from a blob that carries a state, a
checkpoint id and a max deleted seqno. -/
theorem readVBStateValue_of_members (cJSON_Parse : String → Option cJSONObject) (db : KVRocksDB)
    (text vb_state checkpoint_id max_deleted_seqno : String) (checkpointId maxDeletedSeqno : Nat)
    (snapStart snapEnd maxCas hlcEpoch : Option (String × Nat)) (xattrs : Option Bool)
    (failover : Option cJSON)
    (hget : db.localCF.get getVbstateKey = some text)
    (hstate : cJSON_GetObjectItem (cJSON_Parse text) "state" = some (cJSON.cJSON_String vb_state))
    (hstate1 : vb_state ≠ "")
    (hcp : cJSON_GetObjectItem (cJSON_Parse text) "checkpoint_id"
      = some (cJSON.cJSON_String checkpoint_id))
    (hcp1 : checkpoint_id ≠ "") (hcp2 : stoull checkpoint_id = Except.ok checkpointId)
    (hmd : cJSON_GetObjectItem (cJSON_Parse text) "max_deleted_seqno"
      = some (cJSON.cJSON_String max_deleted_seqno))
    (hmd1 : max_deleted_seqno ≠ "") (hmd2 : stoull max_deleted_seqno = Except.ok maxDeletedSeqno)
    (hss : cJSON_GetObjectItem (cJSON_Parse text) "snap_start"
      = snapStart.map (fun p => cJSON.cJSON_String p.1))
    (hss1 : ∀ p, snapStart = some p → p.1 ≠ "" ∧ stoull p.1 = Except.ok p.2)
    (hse : cJSON_GetObjectItem (cJSON_Parse text) "snap_end"
      = snapEnd.map (fun p => cJSON.cJSON_String p.1))
    (hse1 : ∀ p, snapEnd = some p → p.1 ≠ "" ∧ stoull p.1 = Except.ok p.2)
    (hmc : cJSON_GetObjectItem (cJSON_Parse text) "max_cas"
      = maxCas.map (fun p => cJSON.cJSON_String p.1))
    (hmc1 : ∀ p, maxCas = some p → p.1 ≠ "" ∧ stoull p.1 = Except.ok p.2)
    (hhe : cJSON_GetObjectItem (cJSON_Parse text) "hlc_epoch"
      = hlcEpoch.map (fun p => cJSON.cJSON_String p.1))
    (hhe1 : ∀ p, hlcEpoch = some p → p.1 ≠ "" ∧ stoull p.1 = Except.ok p.2)
    (hxa : cJSON_GetObjectItem (cJSON_Parse text) "might_contain_xattrs"
      = xattrs.map (fun b => if b then cJSON.cJSON_True else cJSON.cJSON_False))
    (hfo : cJSON_GetObjectItem (cJSON_Parse text) "failover_table" = failover) :
    readVBStateValue cJSON_Parse db = Except.ok
      { state := VBucket.fromString vb_state
        checkpointId := checkpointId
        maxDeletedSeqno := maxDeletedSeqno
        highSeqno := readHighSeqnoFromDisk db
        purgeSeqno := 0
        lastSnapStart := (snapStart.map (fun p => p.2)).getD (toU64 (readHighSeqnoFromDisk db))
        lastSnapEnd := (snapEnd.map (fun p => p.2)).getD (toU64 (readHighSeqnoFromDisk db))
        maxCas := (maxCas.map (fun p => p.2)).getD 0
        hlcCasEpochSeqno := (hlcEpoch.map (fun p => toI64 p.2)).getD HlcCasSeqnoUninitialised
        mightContainXattrs := xattrs.getD false
        failovers := (failover.map cJSON_PrintUnformatted).getD "" } := by
  obtain ⟨a1, a2, -, -⟩ := optional_member snapStart _ hss hss1
  obtain ⟨b1, b2, -, -⟩ := optional_member snapEnd _ hse hse1
  obtain ⟨c1, -, c2, -⟩ := optional_member maxCas _ hmc hmc1
  obtain ⟨d1, -, -, d2⟩ := optional_member hlcEpoch _ hhe hhe1
  have hx : getJSONObjBool (cJSON_GetObjectItem (cJSON_Parse text) "might_contain_xattrs")
      = Except.ok (xattrs.getD false) := by
    rw [hxa]
    cases xattrs with
    | none => rfl
    | some b => cases b <;> rfl
  have hnot : ¬ (vb_state = "" ∨ checkpoint_id = "" ∨ max_deleted_seqno = "") := by
    simp [hstate1, hcp1, hmd1]
  have hstr : ∀ t : String, getJSONObjString (some (cJSON.cJSON_String t)) = Except.ok t :=
    fun _ => rfl
  unfold readVBStateValue
  simp only [hget, hstate, hcp, hmd, hstr, a1, b1, c1, d1, hx, hnot, if_false,
    hcp2, hmd2, a2, b2, c2, d2, hfo]
  cases failover <;> rfl

theorem VBucket.fromString_toString (state : vbucket_state_t) :
    VBucket.fromString (VBucket.toString state) = state ∧ VBucket.toString state ≠ "" := by
  cases state <;> exact ⟨by decide, by decide⟩

/-- The members `cJSON_GetObjectItem` finds in the object of a saved state. -/
theorem getObjectItem_vbstateMembers (vbState : vbucket_state) (failover : Option cJSON) :
    cJSON_GetObjectItem (some (vbstateMembers vbState failover)) "state"
      = some (cJSON.cJSON_String (VBucket.toString vbState.state)) ∧
    cJSON_GetObjectItem (some (vbstateMembers vbState failover)) "checkpoint_id"
      = some (cJSON.cJSON_String (toString vbState.checkpointId)) ∧
    cJSON_GetObjectItem (some (vbstateMembers vbState failover)) "max_deleted_seqno"
      = some (cJSON.cJSON_String (toString vbState.maxDeletedSeqno)) ∧
    cJSON_GetObjectItem (some (vbstateMembers vbState failover)) "snap_start"
      = some (cJSON.cJSON_String (toString vbState.lastSnapStart)) ∧
    cJSON_GetObjectItem (some (vbstateMembers vbState failover)) "snap_end"
      = some (cJSON.cJSON_String (toString vbState.lastSnapEnd)) ∧
    cJSON_GetObjectItem (some (vbstateMembers vbState failover)) "max_cas"
      = some (cJSON.cJSON_String (toString vbState.maxCas)) ∧
    cJSON_GetObjectItem (some (vbstateMembers vbState failover)) "hlc_epoch"
      = some (cJSON.cJSON_String (toString vbState.hlcCasEpochSeqno)) ∧
    cJSON_GetObjectItem (some (vbstateMembers vbState failover)) "might_contain_xattrs"
      = some (if vbState.mightContainXattrs then cJSON.cJSON_True else cJSON.cJSON_False) ∧
    cJSON_GetObjectItem (some (vbstateMembers vbState failover)) "failover_table" = failover := by
  cases failover <;>
    simp [cJSON_GetObjectItem, vbstateMembers, List.lookup]

/-- Reading back a state blob written by `saveVBStateToBatch`. -/
theorem readVBStateValue_saved (cJSON_Parse : String → Option cJSONObject) (db : KVRocksDB)
    (vbState : vbucket_state) (failover : Option cJSON) (hwf : vbState.WF)
    (hp : cJSON_Parse (vbstateJSON vbState) = some (vbstateMembers vbState failover))
    (hfo : (failover.map cJSON_PrintUnformatted).getD "" = vbState.failovers)
    (hget : db.localCF.get getVbstateKey = some (vbstateJSON vbState)) :
    readVBStateValue cJSON_Parse db = Except.ok
      { vbState with highSeqno := readHighSeqnoFromDisk db, purgeSeqno := 0 } := by
  obtain ⟨w1, w2, w3, w4, w5, w6, w7⟩ := hwf
  obtain ⟨m1, m2, m3, m4, m5, m6, m7, m8, m9⟩ := getObjectItem_vbstateMembers vbState failover
  have hhlc := stoull_toString_int vbState.hlcCasEpochSeqno w6 w7
  cases hst : stoull (toString vbState.hlcCasEpochSeqno) with
  | error e => rw [hst] at hhlc; simp [Except.map] at hhlc
  | ok hv =>
    rw [hst] at hhlc
    simp only [Except.map, Except.ok.injEq] at hhlc
    have := readVBStateValue_of_members cJSON_Parse db (vbstateJSON vbState)
      (VBucket.toString vbState.state) (toString vbState.checkpointId)
      (toString vbState.maxDeletedSeqno) vbState.checkpointId vbState.maxDeletedSeqno
      (some (toString vbState.lastSnapStart, vbState.lastSnapStart))
      (some (toString vbState.lastSnapEnd, vbState.lastSnapEnd))
      (some (toString vbState.maxCas, vbState.maxCas))
      (some (toString vbState.hlcCasEpochSeqno, hv))
      (some vbState.mightContainXattrs) failover hget
      (by rw [hp]; exact m1) (VBucket.fromString_toString _).2
      (by rw [hp]; exact m2) (toString_nat_ne_empty _) (stoull_toString_nat _ w1)
      (by rw [hp]; exact m3) (toString_nat_ne_empty _) (stoull_toString_nat _ w2)
      (by rw [hp]; exact m4)
      (by intro p h; cases h; exact ⟨toString_nat_ne_empty _, stoull_toString_nat _ w3⟩)
      (by rw [hp]; exact m5)
      (by intro p h; cases h; exact ⟨toString_nat_ne_empty _, stoull_toString_nat _ w4⟩)
      (by rw [hp]; exact m6)
      (by intro p h; cases h; exact ⟨toString_nat_ne_empty _, stoull_toString_nat _ w5⟩)
      (by rw [hp]; exact m7)
      (by intro p h; cases h; exact ⟨hhlc.2, hst⟩)
      (by rw [hp]; exact m8)
      (by rw [hp]; exact m9)
    rw [this]
    simp only [Option.map_some', Option.getD_some, (VBucket.fromString_toString _).1, hhlc.1, hfo]

/-! ## Parsing the state blob -/

/-- The chars of a string that has no escape sequence and no quote inside. -/
theorem plainString_append (chars rest : List Char)
    (h : ∀ c ∈ chars, c ≠ '"' ∧ c ≠ '\\' ∧ c ≠ '\x00') :
    plainString (chars ++ '"' :: rest) = some (chars, rest) := by
  induction chars with
  | nil => simp [plainString]
  | cons c cs ih =>
    obtain ⟨h1, h2, h3⟩ := h c (List.mem_cons_self _ _)
    simp [plainString, h1, h2, h3, ih (fun d hd => h d (List.mem_cons_of_mem _ hd))]

theorem cJSON_skip_cons (c : Char) (rest : List Char) (h : 32 < c.toNat) :
    cJSON_skip (c :: rest) = c :: rest := by
  have hd : decide (0 < c.toNat ∧ c.toNat ≤ 32) = false := by simp; omega
  simp [cJSON_skip, List.dropWhile, hd]

theorem cJSON_skip_space (rest : List Char) : cJSON_skip (' ' :: rest) = cJSON_skip rest := by
  simp [cJSON_skip, List.dropWhile]

/-- A string without escape sequences, read as a value. -/
theorem parse_value_string (library : List Char → Option (cJSON × List Char))
    (chars rest : List Char) (h : ∀ c ∈ chars, c ≠ '"' ∧ c ≠ '\\' ∧ c ≠ '\x00') :
    parse_value library ('"' :: (chars ++ '"' :: rest))
      = some (cJSON.cJSON_String (String.mk chars), rest) := by
  simp [parse_value, List.isPrefixOf, plainString_append chars rest h]

/-- One round of `parse_members` over a member whose value is a string, as
`saveVBStateToBatch` writes it: the name, a colon, a blank, the string and a
comma. -/
theorem parse_members_string (library : List Char → Option (cJSON × List Char)) (fuel : Nat)
    (name chars next : List Char) (hname : ∀ c ∈ name, c ≠ '"' ∧ c ≠ '\\' ∧ c ≠ '\x00')
    (hchars : ∀ c ∈ chars, c ≠ '"' ∧ c ≠ '\\' ∧ c ≠ '\x00') :
    parse_members library (fuel + 1)
        ('"' :: (name ++ '"' :: ':' :: ' ' :: '"' :: (chars ++ '"' :: ',' :: next)))
      = match parse_members library fuel next with
        | some (members, left) =>
          some ((String.mk name, cJSON.cJSON_String (String.mk chars)) :: members, left)
        | none => none := by
  rw [parse_members, cJSON_skip_cons _ _ (by decide)]
  simp only [parse_string, parse_value_string library name _ hname,
    cJSON_skip_cons ':' _ (by decide), cJSON_skip_space, cJSON_skip_cons '"' _ (by decide),
    parse_value_string library chars _ hchars, cJSON_skip_cons ',' _ (by decide)]

/-- One round of `parse_members` over a member whose value is left to the
library and is followed by a comma. -/
theorem parse_members_library (library : List Char → Option (cJSON × List Char)) (fuel : Nat)
    (name body next : List Char) (json : cJSON)
    (hname : ∀ c ∈ name, c ≠ '"' ∧ c ≠ '\\' ∧ c ≠ '\x00')
    (hlib : library ('[' :: (body ++ ',' :: next)) = some (json, ',' :: next)) :
    parse_members library (fuel + 1)
        ('"' :: (name ++ '"' :: ':' :: ' ' :: '[' :: (body ++ ',' :: next)))
      = match parse_members library fuel next with
        | some (members, left) => some ((String.mk name, json) :: members, left)
        | none => none := by
  rw [parse_members, cJSON_skip_cons _ _ (by decide)]
  have hv : parse_value library ('[' :: (body ++ ',' :: next)) = some (json, ',' :: next) := by
    simp [parse_value, List.isPrefixOf, hlib]
  simp only [parse_string, parse_value_string library name _ hname,
    cJSON_skip_cons ':' _ (by decide), cJSON_skip_space, cJSON_skip_cons '[' _ (by decide),
    hv, cJSON_skip_cons ',' _ (by decide)]

/-- The last round of `parse_members` over a member whose value is `true` or
`false` and is followed by the closing brace. -/
theorem parse_members_bool (library : List Char → Option (cJSON × List Char)) (fuel : Nat)
    (name left : List Char) (b : Bool) (hname : ∀ c ∈ name, c ≠ '"' ∧ c ≠ '\\' ∧ c ≠ '\x00') :
    parse_members library (fuel + 1)
        ('"' :: (name ++ '"' :: ':' :: ' ' ::
          ((if b then ['t', 'r', 'u', 'e'] else ['f', 'a', 'l', 's', 'e']) ++ '\x7d' :: left)))
      = some ([(String.mk name, if b then cJSON.cJSON_True else cJSON.cJSON_False)], left) := by
  rw [parse_members, cJSON_skip_cons _ _ (by decide)]
  have hv : parse_value library
      ((if b then ['t', 'r', 'u', 'e'] else ['f', 'a', 'l', 's', 'e']) ++ '\x7d' :: left)
      = some (if b then cJSON.cJSON_True else cJSON.cJSON_False, '\x7d' :: left) := by
    cases b <;> simp [parse_value, List.isPrefixOf]
  have hs : cJSON_skip
      ((if b then ['t', 'r', 'u', 'e'] else ['f', 'a', 'l', 's', 'e']) ++ '\x7d' :: left)
      = (if b then ['t', 'r', 'u', 'e'] else ['f', 'a', 'l', 's', 'e']) ++ '\x7d' :: left := by
    cases b
    · exact cJSON_skip_cons 'f' _ (by decide)
    · exact cJSON_skip_cons 't' _ (by decide)
  simp only [parse_string, parse_value_string library name _ hname,
    cJSON_skip_cons ':' _ (by decide), cJSON_skip_space, hs, hv,
    cJSON_skip_cons '\x7d' _ (by decide)]

theorem toDigits_plain (n : Nat) :
    ∀ c ∈ Nat.toDigits 10 n, c ≠ '"' ∧ c ≠ '\\' ∧ c ≠ '\x00' :=
  toDigitsCore_all _ _ _ (fun c => c ≠ '"' ∧ c ≠ '\\' ∧ c ≠ '\x00')
    (fun k hk => by interval_cases k <;> decide) (by simp)

theorem toString_nat_plain (n : Nat) :
    ∀ c ∈ (toString n).data, c ≠ '"' ∧ c ≠ '\\' ∧ c ≠ '\x00' :=
  toDigits_plain n

theorem toString_int_plain (i : Int) :
    ∀ c ∈ (toString i).data, c ≠ '"' ∧ c ≠ '\\' ∧ c ≠ '\x00' := by
  cases i with
  | ofNat n => exact toDigits_plain n
  | negSucc m =>
    intro c hc
    have e : (toString (Int.negSucc m)).data = '-' :: Nat.toDigits 10 (m + 1) := rfl
    rw [e, List.mem_cons] at hc
    rcases hc with hc | hc
    · subst hc; decide
    · exact toDigits_plain _ c hc

theorem VBucket.toString_plain (state : vbucket_state_t) :
    ∀ c ∈ (VBucket.toString state).data, c ≠ '"' ∧ c ≠ '\\' ∧ c ≠ '\x00' := by
  cases state <;> decide

/-- More rounds than `parse_members` needs do not change what it reads. -/
theorem parse_members_mono (library : List Char → Option (cJSON × List Char)) (fuel : Nat) :
    ∀ (text : List Char) (parsed : cJSONObject × List Char),
      parse_members library fuel text = some parsed →
      ∀ extra, parse_members library (fuel + extra) text = some parsed := by
  induction fuel with
  | zero => intro text parsed h; simp [parse_members] at h
  | succ fuel ih =>
    intro text parsed h extra
    have e : fuel + 1 + extra = (fuel + extra) + 1 := by omega
    rw [e]
    rw [parse_members] at h ⊢
    cases hs : parse_string library (cJSON_skip text) with
    | none => rw [hs] at h; simp at h
    | some named =>
      obtain ⟨name, afterName⟩ := named
      rw [hs] at h
      dsimp only at h ⊢
      split at h
      · rename_i afterColon hc
        cases hv : parse_value library (cJSON_skip afterColon) with
        | none => rw [hv] at h; simp at h
        | some valued =>
          obtain ⟨item, afterValue⟩ := valued
          rw [hv] at h
          dsimp only at h ⊢
          split at h
          · rename_i next hn
            cases hm : parse_members library fuel next with
            | none => rw [hm] at h; simp at h
            | some rest =>
              rw [hm] at h
              rw [ih next rest hm extra]
              exact h
          · rename_i left hn
            exact h
          · simp at h
      · simp at h

theorem parse_members_le (library : List Char → Option (cJSON × List Char)) (fuel fuel1 : Nat)
    (text : List Char) (parsed : cJSONObject × List Char)
    (h : parse_members library fuel text = some parsed) (hle : fuel ≤ fuel1) :
    parse_members library fuel1 text = some parsed := by
  obtain ⟨extra, rfl⟩ := Nat.exists_eq_add_of_le hle
  exact parse_members_mono library fuel text parsed h extra

set_option maxRecDepth 100000 in
/-- The text `saveVBStateToBatch` builds for a state, read by `cJSON_Parse`:
the object has the members of the state in the order they are written, each
with the string or the boolean written for it, and the node of the failover
table, present when the table is not empty, prints as the table. -/
theorem cJSON_Parse_vbstateJSON (library : List Char → Option (cJSON × List Char))
    (vbState : vbucket_state) (hfo : FailoverTableUnformatted library vbState.failovers) :
    ∃ failover : Option cJSON,
      cJSON_Parse library (vbstateJSON vbState) = some (vbstateMembers vbState failover) ∧
      (failover.map cJSON_PrintUnformatted).getD "" = vbState.failovers := by
  have s1 := fun fuel next => parse_members_string library fuel ['s', 't', 'a', 't', 'e']
    (VBucket.toString vbState.state).data next (by decide) (VBucket.toString_plain _)
  have s2 := fun fuel next => parse_members_string library fuel
    ['c', 'h', 'e', 'c', 'k', 'p', 'o', 'i', 'n', 't', '_', 'i', 'd']
    (toString vbState.checkpointId).data next (by decide) (toString_nat_plain _)
  have s3 := fun fuel next => parse_members_string library fuel
    ['m', 'a', 'x', '_', 'd', 'e', 'l', 'e', 't', 'e', 'd', '_', 's', 'e', 'q', 'n', 'o']
    (toString vbState.maxDeletedSeqno).data next (by decide) (toString_nat_plain _)
  have s5 := fun fuel next => parse_members_string library fuel
    ['s', 'n', 'a', 'p', '_', 's', 't', 'a', 'r', 't']
    (toString vbState.lastSnapStart).data next (by decide) (toString_nat_plain _)
  have s6 := fun fuel next => parse_members_string library fuel
    ['s', 'n', 'a', 'p', '_', 'e', 'n', 'd']
    (toString vbState.lastSnapEnd).data next (by decide) (toString_nat_plain _)
  have s7 := fun fuel next => parse_members_string library fuel
    ['m', 'a', 'x', '_', 'c', 'a', 's']
    (toString vbState.maxCas).data next (by decide) (toString_nat_plain _)
  have s8 := fun fuel next => parse_members_string library fuel
    ['h', 'l', 'c', '_', 'e', 'p', 'o', 'c', 'h']
    (toString vbState.hlcCasEpochSeqno).data next (by decide) (toString_int_plain _)
  have s9 := fun fuel left => parse_members_bool library fuel
    ['m', 'i', 'g', 'h', 't', '_', 'c', 'o', 'n', 't', 'a', 'i', 'n', '_',
      'x', 'a', 't', 't', 'r', 's'] left vbState.mightContainXattrs (by decide)
  simp only [List.cons_append, List.nil_append] at s1 s2 s3 s5 s6 s7 s8 s9
  have hx : (if vbState.mightContainXattrs then ",\"might_contain_xattrs\": true"
      else ",\"might_contain_xattrs\": false").data
      = ',' :: '"' :: 'm' :: 'i' :: 'g' :: 'h' :: 't' :: '_' :: 'c' :: 'o' :: 'n' :: 't' :: 'a' ::
        'i' :: 'n' :: '_' :: 'x' :: 'a' :: 't' :: 't' :: 'r' :: 's' :: '"' :: ':' :: ' ' ::
        (if vbState.mightContainXattrs then ['t', 'r', 'u', 'e']
          else ['f', 'a', 'l', 's', 'e']) := by
    cases vbState.mightContainXattrs <;> rfl
  rcases hfo with hempty | ⟨json, body, hbody, hprint, hlib⟩
  · refine ⟨none, ?_, by rw [hempty]; rfl⟩
    have hi : vbState.failovers.isEmpty = true := by rw [hempty]; rfl
    unfold cJSON_Parse vbstateJSON
    simp only [String.data_append, hi, if_true, hx]
    simp only [List.append_assoc, List.cons_append, List.nil_append]
    rw [cJSON_skip_cons '\x7b' _ (by decide)]
    split
    · rename_i rest heq
      have hrest := (List.cons.inj heq).2
      subst hrest
      rw [cJSON_skip_cons '"' _ (by decide)]
      split
      · rename_i tail heq1
        exact absurd (List.cons.inj heq1).1 (by decide)
      · rw [parse_members_le library 8 _ _ (vbstateMembers vbState none, []) ?h ?hle]
        · rfl
        case h =>
          rw [s1, s2, s3, s5, s6, s7, s8, s9]
          rfl
        case hle =>
          simp only [List.length_cons, List.length_append]
          omega
    · rename_i hne
      exact absurd rfl (hne _)
  · refine ⟨some json, ?_, by simpa using hprint⟩
    have hi : vbState.failovers.isEmpty = false := by
      cases h : vbState.failovers.isEmpty with
      | false => rfl
      | true =>
        rw [(String.isEmpty_iff _).1 h] at hbody
        exact absurd hbody (by simp)
    have s4 := fun fuel next => parse_members_library library fuel
      ['f', 'a', 'i', 'l', 'o', 'v', 'e', 'r', '_', 't', 'a', 'b', 'l', 'e'] body next json
      (by decide) (by simpa [hbody] using hlib (',' :: next))
    simp only [List.cons_append, List.nil_append] at s4
    unfold cJSON_Parse vbstateJSON
    simp only [String.data_append, hi, if_false, Bool.false_eq_true, hx, hbody]
    simp only [List.append_assoc, List.cons_append, List.nil_append]
    rw [cJSON_skip_cons '\x7b' _ (by decide)]
    split
    · rename_i rest heq
      have hrest := (List.cons.inj heq).2
      subst hrest
      rw [cJSON_skip_cons '"' _ (by decide)]
      split
      · rename_i tail heq1
        exact absurd (List.cons.inj heq1).1 (by decide)
      · rw [parse_members_le library 9 _ _ (vbstateMembers vbState (some json), []) ?g ?gle]
        · rfl
        case g =>
          rw [s1, s2, s3, s4, s5, s6, s7, s8, s9]
          rfl
        case gle =>
          simp only [List.length_cons, List.length_append]
          omega
    · rename_i hne
      exact absurd rfl (hne _)

/-- Reading back, with the parser of the library, a state blob written by
`saveVBStateToBatch`. -/
theorem readVBStateValue_roundtrip (library : List Char → Option (cJSON × List Char))
    (db : KVRocksDB) (vbState : vbucket_state) (hwf : vbState.WF)
    (hfo : FailoverTableUnformatted library vbState.failovers)
    (hget : db.localCF.get getVbstateKey = some (vbstateJSON vbState)) :
    readVBStateValue (cJSON_Parse library) db = Except.ok
      { vbState with highSeqno := readHighSeqnoFromDisk db, purgeSeqno := 0 } := by
  obtain ⟨failover, hp, hprint⟩ := cJSON_Parse_vbstateJSON library vbState hfo
  exact readVBStateValue_saved (cJSON_Parse library) db vbState failover hwf hp hprint hget

/-- The stand-in `flatArray` reads an array without a closing bracket inside
back as it is written. -/
theorem flatArray_unformatted (body : List Char) (h : ∀ c ∈ body, c ≠ ']') :
    FailoverTableUnformatted flatArray (String.mk ('[' :: (body ++ [']']))) := by
  refine Or.inr ⟨cJSON.cJSON_Other (String.mk ('[' :: (body ++ [']']))), body ++ [']'], rfl, rfl,
    ?_⟩
  intro rest
  have hd : ∀ l : List Char, (∀ c ∈ l, c ≠ ']') →
      (l ++ ']' :: rest).dropWhile (fun c => c ≠ ']') = ']' :: rest ∧
      (l ++ ']' :: rest).takeWhile (fun c => c ≠ ']') = l := by
    intro l hl
    induction l with
    | nil => simp [List.dropWhile, List.takeWhile]
    | cons c cs ih =>
      have hc : decide (c ≠ ']') = true := by simpa using hl c (List.mem_cons_self _ _)
      obtain ⟨i1, i2⟩ := ih (fun d hd => hl d (List.mem_cons_of_mem _ hd))
      simp only [List.cons_append, List.dropWhile_cons, List.takeWhile_cons, hc, if_true, i1, i2]
      exact ⟨trivial, trivial⟩
  obtain ⟨h1, h2⟩ := hd body h
  simp only [flatArray, List.cons_append, List.append_assoc, List.nil_append, h1, h2]

/-- The state `readVBState` leaves when the blob of the vBucket is readable. -/
theorem readVBState_of_value (s : RocksDBKVStore) (cJSON_Parse : String → Option cJSONObject)
    (vbid : Nat) (st : vbucket_state)
    (h : readVBStateValue cJSON_Parse (s.vbDB vbid) = Except.ok st) :
    s.readVBState cJSON_Parse vbid = Except.ok
      { s with cachedVBStates := fun v => if v = vbid then some st else s.cachedVBStates v } := by
  simp only [RocksDBKVStore.readVBState, RocksDBKVStore.openDB, h]

/-- The loop of the constructor over the discovered vBuckets: when the state
of each of them is readable, every one of them has its state cached and no
other entry of the cache changes. -/
theorem foldlM_readVBState (cJSON_Parse : String → Option cJSONObject) (ids : List Nat)
    (s : RocksDBKVStore)
    (hok : ∀ v ∈ ids, ∃ st, readVBStateValue cJSON_Parse (s.vbDB v) = Except.ok st) :
    ∃ s1, ids.foldlM (fun s vbid => RocksDBKVStore.readVBState s cJSON_Parse vbid) s
        = Except.ok s1 ∧
      s1.vbDB = s.vbDB ∧ s1.maxVBuckets = s.maxVBuckets ∧
      ∀ v, s1.cachedVBStates v
        = if v ∈ ids then (readVBStateValue cJSON_Parse (s.vbDB v)).toOption
          else s.cachedVBStates v := by
  induction ids generalizing s with
  | nil => exact ⟨s, rfl, rfl, rfl, fun v => by simp⟩
  | cons a rest ih =>
    obtain ⟨st, hst⟩ := hok a (List.mem_cons_self _ _)
    obtain ⟨s1, h1, h2, h3, h4⟩ := ih
      { s with cachedVBStates := fun v => if v = a then some st else s.cachedVBStates v }
      (fun v hv => hok v (List.mem_cons_of_mem _ hv))
    refine ⟨s1, ?_, h2, h3, fun v => ?_⟩
    · rw [List.foldlM_cons, readVBState_of_value s cJSON_Parse a st hst]
      exact h1
    · rw [h4 v]
      by_cases hv : v ∈ rest
      · simp [hv]
      · by_cases hva : v = a
        · subst hva
          simp [hv, hst, Except.toOption]
        · simp [hv, hva]

theorem tapeCallbacks_lookup (cached : CacheLookup → Bool) (tape : List Bool) (c : CacheLookup) :
    (tapeCallbacks cached).lookup tape c =
      (tape.tail, if tape.head? = some true then ENGINE_ERROR_CODE.ENGINE_ENOMEM
        else if cached c then ENGINE_ERROR_CODE.ENGINE_KEY_EEXISTS
        else ENGINE_ERROR_CODE.ENGINE_SUCCESS) := by
  cases tape with
  | nil => rfl
  | cons b t => cases b <;> rfl

theorem tapeCallbacks_callback (cached : CacheLookup → Bool) (tape : List Bool) (rv : GetValue) :
    (tapeCallbacks cached).callback tape rv =
      (tape.tail, if tape.head? = some true then ENGINE_ERROR_CODE.ENGINE_ENOMEM
        else ENGINE_ERROR_CODE.ENGINE_SUCCESS) := by
  cases tape with
  | nil => rfl
  | cons b t => cases b <;> rfl

theorem tail_length_lt_of_head (tape : List Bool) (h : tape.head? = some true) :
    tape.tail.length < tape.length := by
  cases tape with
  | nil => simp at h
  | cons b t => simp

theorem accepted_lookup_cons (c : CacheLookup) (status : ENGINE_ERROR_CODE)
    (evs : List ScanEvent) : accepted (ScanEvent.lookup c status :: evs) = accepted evs := by
  simp [accepted, ScanEvent.taken]

theorem accepted_value_cons (ctx : ScanContext) (itm : Item) (status : ENGINE_ERROR_CODE)
    (evs : List ScanEvent) :
    accepted (ScanEvent.value (valueOf ctx itm) status :: evs) =
      if status = ENGINE_ERROR_CODE.ENGINE_ENOMEM then accepted evs else itm :: accepted evs := by
  by_cases h : status = ENGINE_ERROR_CODE.ENGINE_ENOMEM <;>
    simp [accepted, ScanEvent.taken, valueOf, h]

/-- The loop of `scan` under a pattern of out-of-memory reports, against the
loop without any: either the loop does not pause, and ends as the loop without
reports does, with the same records accepted; or it pauses, having used up
part of the pattern, and then either nothing was read, or the last seqno read
is that of an entry, and the loop without reports accepts the records
accepted so far and goes on as it does over the entries after that entry. -/
theorem scanLoop_tape (snap : KVRocksDB) (cached : CacheLookup → Bool) (ctx : ScanContext)
    (es : List (SeqnoSlice × Bytes)) (lr : Int) (tape : List Bool) :
    ((scanLoop snap (tapeCallbacks cached) ctx es lr tape).loopEnd
        ≠ LoopEnd.returned scan_error_t.scan_again ∧
      (scanLoop snap (tapeCallbacks cached) ctx es lr tape).loopEnd
        = (scanLoop snap (tapeCallbacks cached) ctx es lr []).loopEnd ∧
      accepted (scanLoop snap (tapeCallbacks cached) ctx es lr tape).events
        = accepted (scanLoop snap (tapeCallbacks cached) ctx es lr []).events) ∨
    ((scanLoop snap (tapeCallbacks cached) ctx es lr tape).loopEnd
        = LoopEnd.returned scan_error_t.scan_again ∧
      (scanLoop snap (tapeCallbacks cached) ctx es lr tape).cbState.length < tape.length ∧
      (((scanLoop snap (tapeCallbacks cached) ctx es lr tape).lastReadSeqno = lr ∧
          accepted (scanLoop snap (tapeCallbacks cached) ctx es lr tape).events = []) ∨
        ∃ pre x post, es = pre ++ x :: post ∧
          (scanLoop snap (tapeCallbacks cached) ctx es lr tape).lastReadSeqno = x.1 ∧
          (scanLoop snap (tapeCallbacks cached) ctx es lr []).loopEnd
            = (scanLoop snap (tapeCallbacks cached) ctx post x.1 []).loopEnd ∧
          accepted (scanLoop snap (tapeCallbacks cached) ctx es lr []).events
            = accepted (scanLoop snap (tapeCallbacks cached) ctx es lr tape).events ++
              accepted (scanLoop snap (tapeCallbacks cached) ctx post x.1 []).events)) := by
  induction es generalizing lr tape with
  | nil => left; simp [scanLoop]
  | cons e rest ih =>
    rw [scanLoop_cons, scanLoop_cons snap _ ctx e rest lr []]
    by_cases hmax : ctx.maxSeqno < e.1
    · left; simp [hmax]
    · simp only [hmax, if_false]
      cases hcls : scanEntry snap ctx e with
      | skip =>
        simp only []
        rcases ih lr tape with hA | ⟨hB1, hB2, hB3⟩
        · exact Or.inl hA
        · refine Or.inr ⟨hB1, hB2, ?_⟩
          rcases hB3 with h | ⟨pre, x, post, h1, h2, h3, h4⟩
          · exact Or.inl h
          · exact Or.inr ⟨e :: pre, x, post, by rw [h1]; rfl, h2, h3, h4⟩
      | throw x => left; simp
      | candidate itm =>
        have hseq : itm.bySeqno = e.1 := (scanEntry_candidate snap ctx e itm hcls).1
        simp only [tapeCallbacks_lookup, tapeCallbacks_callback, List.tail_nil, List.head?_nil,
          hseq]
        by_cases h1 : tape.head? = some true
        · -- the lookup reports out-of-memory
          simp only [h1, if_true, if_false, reduceCtorEq]
          exact Or.inr ⟨trivial, tail_length_lt_of_head tape h1, Or.inl ⟨trivial, rfl⟩⟩
        · by_cases hc : cached (lookupOf ctx itm) = true
          · -- the lookup reports that the key exists
            simp only [h1, hc, if_true, if_false, reduceCtorEq]
            have hlen : tape.tail.length ≤ tape.length := by simp
            rcases ih e.1 tape.tail with ⟨hA1, hA2, hA3⟩ | ⟨hB1, hB2, hB3⟩
            · exact Or.inl ⟨hA1, hA2, by simp only [accepted_lookup_cons]; exact hA3⟩
            · refine Or.inr ⟨hB1, lt_of_lt_of_le hB2 hlen, Or.inr ?_⟩
              rcases hB3 with ⟨h2, h3⟩ | ⟨pre, x, post, h2, h3, h4, h5⟩
              · refine ⟨[], e, rest, rfl, h2, rfl, ?_⟩
                simp only [accepted_lookup_cons, h3, List.nil_append]
              · refine ⟨e :: pre, x, post, by rw [h2]; rfl, h3, h4, ?_⟩
                simp only [accepted_lookup_cons]
                exact h5
          · simp only [h1, hc, if_false, reduceCtorEq, Bool.false_eq_true]
            have hlen1 : tape.tail.length ≤ tape.length := by simp
            by_cases h2 : tape.tail.head? = some true
            · -- the value callback reports out-of-memory
              simp only [h2, if_true, if_false, reduceCtorEq]
              exact Or.inr ⟨trivial, lt_of_lt_of_le (tail_length_lt_of_head _ h2) hlen1,
                Or.inl ⟨trivial, rfl⟩⟩
            · simp only [h2, if_false, reduceCtorEq]
              have hlen : tape.tail.tail.length ≤ tape.length :=
                le_trans (by simp) hlen1
              rcases ih e.1 tape.tail.tail with ⟨hA1, hA2, hA3⟩ | ⟨hB1, hB2, hB3⟩
              · exact Or.inl ⟨hA1, hA2, by
                  simp only [accepted_lookup_cons, accepted_value_cons, if_false, reduceCtorEq,
                    hA3]⟩
              · refine Or.inr ⟨hB1, lt_of_lt_of_le hB2 hlen, Or.inr ?_⟩
                rcases hB3 with ⟨h3, h4⟩ | ⟨pre, x, post, h3, h4, h5, h6⟩
                · refine ⟨[], e, rest, rfl, h3, rfl, ?_⟩
                  simp only [accepted_lookup_cons, accepted_value_cons, if_false, reduceCtorEq,
                    h4, List.nil_append, List.cons_append]
                · refine ⟨e :: pre, x, post, by rw [h3]; rfl, h4, h5, ?_⟩
                  simp only [accepted_lookup_cons, accepted_value_cons, if_false, reduceCtorEq,
                    List.cons_append, h6]

theorem seekSeqno_filter (db : KVRocksDB) (a b : Int) (hab : a ≤ b) :
    (db.seekSeqno a).filter (fun e => decide (b ≤ e.1)) = db.seekSeqno b := by
  unfold KVRocksDB.seekSeqno
  generalize db.seqnoKeys = K
  induction K with
  | nil => rfl
  | cons q rest ih =>
    by_cases hb : b ≤ q
    · have ha : a ≤ q := le_trans hab hb
      cases hg : ColumnFamily.get db.seqnoCF q with
      | none => simp [List.filter_cons, ha, hb, hg, ih]
      | some k => simp [List.filter_cons, ha, hb, hg, ih]
    · by_cases ha : a ≤ q
      · cases hg : ColumnFamily.get db.seqnoCF q with
        | none => simp [List.filter_cons, ha, hb, hg, ih]
        | some k => simp [List.filter_cons, ha, hb, hg, ih]
      · simp [List.filter_cons, ha, hb, ih]

theorem sorted_filter_after (l pre post : List (Int × Bytes)) (x : Int × Bytes)
    (hs : (l.map Prod.fst).Sorted (· < ·)) (h : l = pre ++ x :: post) :
    l.filter (fun e => decide (x.1 + 1 ≤ e.1)) = post := by
  subst h
  simp only [List.map_append, List.map_cons, List.Sorted, List.pairwise_append,
    List.pairwise_cons, List.mem_map, List.mem_cons] at hs
  obtain ⟨-, ⟨hx, -⟩, hpre⟩ := hs
  rw [List.filter_append, List.filter_cons]
  have h1 : pre.filter (fun e => decide (x.1 + 1 ≤ e.1)) = [] := by
    rw [List.filter_eq_nil_iff]
    intro e he
    have := hpre e.1 ⟨e, he, rfl⟩ x.1 (Or.inl rfl)
    simp only [decide_eq_true_eq]
    omega
  have h2 : post.filter (fun e => decide (x.1 + 1 ≤ e.1)) = post := by
    rw [List.filter_eq_self]
    intro e he
    have := hx e.1 ⟨e, he, rfl⟩
    simp only [decide_eq_true_eq]
    omega
  simp [h1, h2]

/-- Seeking just after an entry of the iterator gives the entries after it. -/
theorem seekSeqno_resume (db : KVRocksDB) (start : Int) (pre post : List (Int × Bytes))
    (x : Int × Bytes) (h : db.seekSeqno start = pre ++ x :: post) :
    db.seekSeqno (x.1 + 1) = post := by
  have hge : start ≤ x.1 := seekSeqno_ge db start x.1 (by rw [h]; simp)
  rw [← seekSeqno_filter db start (x.1 + 1) (by omega)]
  exact sorted_filter_after _ pre post x (seekSeqno_sorted db start) h

/-- The loop of `scan` does not read the last read seqno of the context. -/
theorem scanLoop_ctx_lastRead {σ : Type} (snap : KVRocksDB) (cbs : ScanCallbacks σ)
    (ctx : ScanContext) (q : Int) (es : List (SeqnoSlice × Bytes)) (lr : Int) (st : σ) :
    scanLoop snap cbs { ctx with lastReadSeqno := q } es lr st = scanLoop snap cbs ctx es lr st := by
  induction es generalizing lr st with
  | nil => rfl
  | cons e rest ih =>
    rw [scanLoop_cons, scanLoop_cons]
    have h1 : scanEntry snap { ctx with lastReadSeqno := q } e = scanEntry snap ctx e := rfl
    have h2 : ∀ itm, lookupOf { ctx with lastReadSeqno := q } itm = lookupOf ctx itm :=
      fun _ => rfl
    have h3 : ∀ itm, valueOf { ctx with lastReadSeqno := q } itm = valueOf ctx itm :=
      fun _ => rfl
    simp only [h1, h2, h3, ih]

/-- Over entries that are all past the end the loop of `scan` makes no call. -/
theorem scanLoop_all_past {σ : Type} (snap : KVRocksDB) (cbs : ScanCallbacks σ)
    (ctx : ScanContext) (es : List (SeqnoSlice × Bytes)) (lr : Int) (st : σ)
    (h : ∀ e ∈ es, ctx.maxSeqno < e.1) :
    ((scanLoop snap cbs ctx es lr st).loopEnd = LoopEnd.invalid ∨
      (scanLoop snap cbs ctx es lr st).loopEnd = LoopEnd.pastEnd) ∧
    (scanLoop snap cbs ctx es lr st).events = [] := by
  cases es with
  | nil => simp [scanLoop]
  | cons e rest =>
    rw [scanLoop_cons]
    simp [h e (List.mem_cons_self _ _)]

/-- One call of `scan` under a pattern of out-of-memory reports, against the
call without any, when the snapshot has no entry at seqno 0: either the call
does not pause, and ends as the call without reports does, with the same
records accepted; or it returns `scan_again`, having used up part of the
pattern, and the call without reports accepts the records accepted so far
followed by those a call without reports accepts on the context left. -/
theorem scan_tape (s : RocksDBKVStore) (cached : CacheLookup → Bool) (ctx : ScanContext)
    (tape : List Bool)
    (hzero : ∀ snap, s.scanSnapshots.lookup ctx.scanId = some snap →
      snap.seqnoCF.get (getSeqnoSlice 0) = none) :
    ((s.scan (tapeCallbacks cached) none (some ctx) tape).result
        ≠ ScanResult.returned scan_error_t.scan_again ∧
      (s.scan (tapeCallbacks cached) none (some ctx) tape).result
        = (s.scan (tapeCallbacks cached) none (some ctx) []).result ∧
      accepted (s.scan (tapeCallbacks cached) none (some ctx) tape).events
        = accepted (s.scan (tapeCallbacks cached) none (some ctx) []).events) ∨
    ((s.scan (tapeCallbacks cached) none (some ctx) tape).result
        = ScanResult.returned scan_error_t.scan_again ∧
      (s.scan (tapeCallbacks cached) none (some ctx) tape).cbState.length < tape.length ∧
      ∃ ctx1, (s.scan (tapeCallbacks cached) none (some ctx) tape).ctx = some ctx1 ∧
        ctx1.scanId = ctx.scanId ∧
        (s.scan (tapeCallbacks cached) none (some ctx1) []).result
          = (s.scan (tapeCallbacks cached) none (some ctx) []).result ∧
        accepted (s.scan (tapeCallbacks cached) none (some ctx) []).events
          = accepted (s.scan (tapeCallbacks cached) none (some ctx) tape).events ++
            accepted (s.scan (tapeCallbacks cached) none (some ctx1) []).events) := by
  by_cases hne : ctx.lastReadSeqno = ctx.maxSeqno
  · left
    simp [RocksDBKVStore.scan, hne]
  cases hsnap : s.scanSnapshots.lookup ctx.scanId with
  | none =>
    left
    simp [RocksDBKVStore.scan, hne, hsnap]
  | some snap =>
    have h0 := hzero snap hsnap
    rw [scan_eq_loop s _ ctx tape snap hne hsnap, scan_eq_loop s _ ctx [] snap hne hsnap]
    simp only []
    generalize hes : snap.seekSeqno
      (if ctx.lastReadSeqno ≠ 0 then ctx.lastReadSeqno + 1 else ctx.startSeqno) = es
    rcases scanLoop_tape snap cached ctx es ctx.lastReadSeqno tape with
      ⟨hA1, hA2, hA3⟩ | ⟨hB1, hB2, hB3⟩
    · left
      refine ⟨?_, by rw [hA2], hA3⟩
      cases hle : (scanLoop snap (tapeCallbacks cached) ctx es ctx.lastReadSeqno tape).loopEnd with
      | returned e =>
        have := scanLoop_returned _ _ _ _ _ _ _ hle
        subst this
        exact absurd hle hA1
      | threw e => simp
      | pastEnd => simp
      | invalid => simp
    · right
      refine ⟨by rw [hB1], hB2, _, rfl, rfl, ?_⟩
      rcases hB3 with ⟨h1, h2⟩ | ⟨pre, x, post, h1, h2, h3, h4⟩
      · have hctx : ({ ctx with lastReadSeqno := ctx.lastReadSeqno } : ScanContext) = ctx := by
          cases ctx; rfl
        rw [h1, h2, hctx, scan_eq_loop s _ ctx [] snap hne hsnap, hes]
        exact ⟨rfl, rfl⟩
      · have hmem : x ∈ snap.seekSeqno
            (if ctx.lastReadSeqno ≠ 0 then ctx.lastReadSeqno + 1 else ctx.startSeqno) := by
          rw [hes, h1]; simp
        have hx0 : x.1 ≠ 0 := by
          intro hx
          have := ((mem_seekSeqno snap _ x.1 x.2).mp hmem).2
          rw [hx] at this
          rw [getSeqnoSlice, this] at h0
          exact absurd h0 (by simp)
        have hpost : snap.seekSeqno (x.1 + 1) = post := seekSeqno_resume snap _ pre post x
          (by rw [hes, h1])
        rw [h2]
        by_cases hxm : x.1 = ctx.maxSeqno
        · have hall : ∀ e ∈ post, ctx.maxSeqno < e.1 := by
            intro e he
            have hge := seekSeqno_ge snap (x.1 + 1) e.1
              (by rw [hpost]; exact List.mem_map_of_mem _ he)
            rw [← hxm]
            exact lt_of_lt_of_le (lt_add_one _) hge
          obtain ⟨hend, hev⟩ := scanLoop_all_past snap (tapeCallbacks cached) ctx post x.1 [] hall
          have hs : s.scan (tapeCallbacks cached) none
              (some { ctx with lastReadSeqno := x.1 }) []
              = { result := ScanResult.returned scan_error_t.scan_success,
                  ctx := some { ctx with lastReadSeqno := x.1 }, cbState := [], events := [] } := by
            simp [RocksDBKVStore.scan, hxm]
          rw [h3, h4, hev, hs]
          constructor
          · rcases hend with h | h <;> rw [h]
          · simp [accepted]
        · have hsnap1 : s.scanSnapshots.lookup
              ({ ctx with lastReadSeqno := x.1 } : ScanContext).scanId = some snap := hsnap
          rw [scan_eq_loop s _ { ctx with lastReadSeqno := x.1 } [] snap hxm hsnap1]
          simp only [ne_eq, hx0, not_false_eq_true, if_true, hpost, scanLoop_ctx_lastRead, h3, h4]
          exact ⟨trivial, trivial⟩

/-! ## A vBucket built by transactions -/

/-- The column families made of the records of requests with decreasing seqnos,
newest first, agree with each other. -/
theorem requests_consistent (L : List RocksRequest)
    (hsorted : (L.map (fun r => r.docMeta.bySeqno)).Sorted (· > ·))
    (hpos : ∀ r ∈ L, 1 ≤ r.docMeta.bySeqno)
    (hwf : ∀ r ∈ L, r.docMeta.WF) :
    (∀ q k, ColumnFamily.get (L.map RocksRequest.seqnoRecord) q = some k →
      (∃ r ∈ L, r.docMeta.bySeqno = q) ∧
      ∃ rec, ColumnFamily.get (L.map RocksRequest.defaultRecord) k = some rec ∧
        sizeofMetaData ≤ rec.length ∧ q ≤ (MetaData.decode rec).bySeqno) ∧
    (∀ k rec, ColumnFamily.get (L.map RocksRequest.defaultRecord) k = some rec →
      (∃ r ∈ L, r.docMeta.bySeqno = (MetaData.decode rec).bySeqno) ∧
      1 ≤ (MetaData.decode rec).bySeqno ∧
        ColumnFamily.get (L.map RocksRequest.seqnoRecord) (MetaData.decode rec).bySeqno
          = some k) := by
  induction L with
  | nil => simp [ColumnFamily.get]
  | cons r rest ih =>
    have hgt : ∀ r1 ∈ rest, r1.docMeta.bySeqno < r.docMeta.bySeqno := by
      intro r1 h1
      simp only [List.map_cons, List.sorted_cons, List.mem_map] at hsorted
      exact hsorted.1 _ ⟨r1, h1, rfl⟩
    obtain ⟨ih1, ih2⟩ := ih (List.Sorted.of_cons hsorted)
      (fun r1 h1 => hpos r1 (List.mem_cons_of_mem _ h1))
      (fun r1 h1 => hwf r1 (List.mem_cons_of_mem _ h1))
    have hdec : MetaData.decode (r.docMeta.encode ++ r.docBody) = r.docMeta :=
      MetaData.decode_encode _ _ (hwf r (List.mem_cons_self _ _))
    have hlen : sizeofMetaData ≤ (r.docMeta.encode ++ r.docBody).length := by
      rw [List.length_append, MetaData.encode_length]
      omega
    constructor
    · intro q k hq
      simp only [List.map_cons, ColumnFamily.get, RocksRequest.seqnoRecord,
        RocksRequest.defaultRecord, getSeqnoSlice, getKeySlice, RocksRequest.getDocMetaSlice,
        RocksRequest.getDocBodySlice] at hq ⊢
      by_cases h1 : r.docMeta.bySeqno = q
      · simp only [h1, if_true, Option.some.injEq] at hq
        subst hq
        refine ⟨⟨r, List.mem_cons_self _ _, h1⟩, ?_⟩
        simp only [if_true]
        exact ⟨_, rfl, hlen, by rw [hdec, h1]⟩
      · simp only [h1, if_false] at hq
        obtain ⟨⟨r1, hr1, hr1q⟩, rec, h2, h3, h4⟩ := ih1 q k hq
        refine ⟨⟨r1, List.mem_cons_of_mem _ hr1, hr1q⟩, ?_⟩
        by_cases h5 : r.key.data = k
        · simp only [h5, if_true]
          refine ⟨_, rfl, hlen, ?_⟩
          rw [hdec, ← hr1q]
          exact le_of_lt (hgt r1 hr1)
        · simp only [h5, if_false]
          exact ⟨rec, h2, h3, h4⟩
    · intro k rec hk
      simp only [List.map_cons, ColumnFamily.get, RocksRequest.seqnoRecord,
        RocksRequest.defaultRecord, getSeqnoSlice, getKeySlice, RocksRequest.getDocMetaSlice,
        RocksRequest.getDocBodySlice] at hk ⊢
      by_cases h5 : r.key.data = k
      · simp only [h5, if_true, Option.some.injEq] at hk
        subst hk
        rw [hdec]
        exact ⟨⟨r, List.mem_cons_self _ _, rfl⟩, hpos r (List.mem_cons_self _ _), by simp [h5]⟩
      · simp only [h5, if_false] at hk
        obtain ⟨⟨r1, hr1, hr1q⟩, h2, h3⟩ := ih2 k rec hk
        refine ⟨⟨r1, List.mem_cons_of_mem _ hr1, hr1q⟩, h2, ?_⟩
        have := hgt r1 hr1
        have hne : ¬ r.docMeta.bySeqno = (MetaData.decode rec).bySeqno := by omega
        simp only [hne, if_false]
        exact h3

/-- The store after the calls of `set` and `del` of a transaction. -/
theorem queue_mutations (ops : List Mutation) (s : RocksDBKVStore)
    (hin : s.in_transaction = true) :
    ops.foldl
      (fun st m => if m.isDelete then (st.del m.item m.now).2 else (st.set m.item m.now).2) s
      = { s with pendingReqs := s.pendingReqs ++ ops.map Mutation.request } := by
  induction ops generalizing s with
  | nil => simp
  | cons m rest ih =>
    rw [List.foldl_cons]
    cases hm : m.isDelete
    · rw [ih _ (by simp [RocksDBKVStore.set, hin])]
      simp [RocksDBKVStore.set, hin, Mutation.request, hm]
    · rw [ih _ (by simp [RocksDBKVStore.del, hin])]
      simp [RocksDBKVStore.del, hin, Mutation.request, hm]

/-- What a transaction whose commit returns true leaves in the default and
seqno column families of its vBucket. -/
theorem transaction_db (s s1 : RocksDBKVStore) (env : WriteEnv) (ops : List Mutation) (v : Nat)
    (hp : s.pendingReqs = []) (hv : ∀ m ∈ ops, m.item.vbucketId = v)
    (h : s.transaction env ops = (CommitResult.returned true, s1)) :
    s1.pendingReqs = [] ∧
    (s1.vbDB v).defaultCF = ((ops.map Mutation.request).map RocksRequest.defaultRecord).reverse
      ++ (s.vbDB v).defaultCF ∧
    (s1.vbDB v).seqnoCF = ((ops.map Mutation.request).map RocksRequest.seqnoRecord).reverse
      ++ (s.vbDB v).seqnoCF := by
  unfold RocksDBKVStore.transaction at h
  rw [queue_mutations ops _ rfl] at h
  simp only [RocksDBKVStore.begin, hp, List.nil_append, Prod.mk.injEq] at h
  obtain ⟨h1, h2⟩ := h
  cases ops with
  | nil =>
    simp [RocksDBKVStore.commit] at h2
    subst h2
    simp
  | cons m rest =>
    have hne : ({ s with
        in_transaction := true
        transactionCtx := none
        pendingReqs := (m :: rest).map Mutation.request } : RocksDBKVStore).pendingReqs ≠ [] := by
      simp
    obtain ⟨vbstate, -, hdb⟩ := commit_success_db _ env rfl hne h1
    have hpend := (commit_returned_true _ env (Or.inr rfl) h1).2
    rw [h2] at hdb hpend
    have hcv : ({ s with
        in_transaction := true
        transactionCtx := none
        pendingReqs := (m :: rest).map Mutation.request } : RocksDBKVStore).commitVBucket = v := by
      simp [RocksDBKVStore.commitVBucket, Mutation.request, RocksRequest.make,
        hv m (List.mem_cons_self _ _)]
    rw [hcv] at hdb
    refine ⟨hpend, ?_, ?_⟩
    · rw [hdb]
      simp only [if_true, write_defaultCF, defaultPuts_atomicBatch]
    · rw [hdb]
      simp only [if_true, write_seqnoCF, seqnoPuts_atomicBatch]

/-- What a sequence of transactions whose commits return true leaves in the
default and seqno column families of its vBucket. -/
theorem transactions_db (txs : List (List Mutation)) (s s1 : RocksDBKVStore) (env : WriteEnv)
    (v : Nat) (hp : s.pendingReqs = []) (hv : ∀ ops ∈ txs, ∀ m ∈ ops, m.item.vbucketId = v)
    (h : s.transactions env txs = some s1) :
    (s1.vbDB v).defaultCF
      = ((txs.flatten.map Mutation.request).map RocksRequest.defaultRecord).reverse
        ++ (s.vbDB v).defaultCF ∧
    (s1.vbDB v).seqnoCF
      = ((txs.flatten.map Mutation.request).map RocksRequest.seqnoRecord).reverse
        ++ (s.vbDB v).seqnoCF := by
  induction txs generalizing s with
  | nil =>
    simp only [RocksDBKVStore.transactions, Option.some.injEq] at h
    subst h
    simp
  | cons ops rest ih =>
    simp only [RocksDBKVStore.transactions] at h
    cases ht : s.transaction env ops with
    | mk res s2 =>
      rw [ht] at h
      cases res with
      | threw e => simp at h
      | returned b =>
        cases b with
        | false => simp at h
        | true =>
          simp only at h
          obtain ⟨h1, h2, h3⟩ := transaction_db s s2 env ops v hp
            (hv ops (List.mem_cons_self _ _)) ht
          obtain ⟨h4, h5⟩ := ih s2 h1 (fun o ho => hv o (List.mem_cons_of_mem _ ho)) h
          rw [h4, h5, h2, h3]
          simp

/-- The record behind a candidate: the newest record of the key of the entry,
long enough for its metadata, with the seqno of the item. -/
theorem scanEntry_candidate_record (snap : KVRocksDB) (ctx : ScanContext)
    (e : SeqnoSlice × Bytes) (itm : Item) (h : scanEntry snap ctx e = EntryClass.candidate itm) :
    ∃ rec, snap.defaultCF.get e.2 = some rec ∧ sizeofMetaData ≤ rec.length ∧
      (MetaData.decode rec).bySeqno = itm.bySeqno ∧
      makeItem ctx.vbid { data := e.2, ns := DocNamespace.DefaultCollection } rec
        (if ctx.valFilter = ValueFilter.KEYS_ONLY then GetMetaOnly.Yes else GetMetaOnly.No)
        = Except.ok itm := by
  unfold scanEntry at h
  cases hrec : snap.defaultCF.get e.2 with
  | none => simp [hrec] at h
  | some rec =>
    simp only [hrec] at h
    cases hmk : makeItem ctx.vbid { data := e.2, ns := DocNamespace.DefaultCollection } rec
        (if ctx.valFilter = ValueFilter.KEYS_ONLY then GetMetaOnly.Yes else GetMetaOnly.No) with
    | error x => simp [hmk] at h
    | ok it =>
      simp only [hmk] at h
      split_ifs at h
      injection h with h
      subst h
      refine ⟨rec, rfl, ?_, (makeItem_key _ _ _ _ _ hmk).2.1.symm, hmk⟩
      by_contra hlen
      simp [makeItem, not_le.mp hlen] at hmk

/-- An entry whose key has a record long enough for its metadata, with a seqno
not below that of the entry, does not make `scan` throw. -/
theorem scanEntry_no_throw (snap : KVRocksDB) (ctx : ScanContext) (e : SeqnoSlice × Bytes)
    (rec : Bytes) (hrec : snap.defaultCF.get e.2 = some rec) (hlen : sizeofMetaData ≤ rec.length)
    (hq : e.1 ≤ (MetaData.decode rec).bySeqno) (x : Exn) :
    scanEntry snap ctx e ≠ EntryClass.throw x := by
  have hl : ¬ rec.length < sizeofMetaData := by omega
  cases hmk : makeItem ctx.vbid { data := e.2, ns := DocNamespace.DefaultCollection } rec
      (if ctx.valFilter = ValueFilter.KEYS_ONLY then GetMetaOnly.Yes else GetMetaOnly.No) with
  | error y => simp [makeItem, hl] at hmk
  | ok itm =>
    have hb := (makeItem_key _ _ _ _ _ hmk).2.1
    have hnlt : ¬ itm.bySeqno < getNumericSeqno e.1 := by
      rw [hb, getNumericSeqno]
      exact not_lt.mpr hq
    unfold scanEntry
    simp only [hrec, hmk, hnlt, if_false]
    split_ifs <;> simp

/-- When no entry makes `scan` throw and no callback reports out-of-memory,
the loop of `scan` runs until the iterator is used up or past the end. -/
theorem scanLoop_ends {σ : Type} (snap : KVRocksDB) (cbs : ScanCallbacks σ)
    (ctx : ScanContext) (es : List (SeqnoSlice × Bytes)) (lr : Int) (st : σ)
    (hl : ∀ st1 c, (cbs.lookup st1 c).2 ≠ ENGINE_ERROR_CODE.ENGINE_ENOMEM)
    (hc : ∀ st1 rv, (cbs.callback st1 rv).2 ≠ ENGINE_ERROR_CODE.ENGINE_ENOMEM)
    (hthrow : ∀ e ∈ es, ∀ x, scanEntry snap ctx e ≠ EntryClass.throw x) :
    (scanLoop snap cbs ctx es lr st).loopEnd = LoopEnd.invalid ∨
      (scanLoop snap cbs ctx es lr st).loopEnd = LoopEnd.pastEnd := by
  induction es generalizing lr st with
  | nil => left; rfl
  | cons e rest ih =>
    have ih1 := fun lr st => ih lr st (fun e1 h1 => hthrow e1 (List.mem_cons_of_mem _ h1))
    rw [scanLoop_cons]
    by_cases hmax : ctx.maxSeqno < e.1
    · right; simp [hmax]
    · simp only [hmax, if_false]
      cases hcls : scanEntry snap ctx e with
      | skip => exact ih1 lr st
      | throw x => exact absurd hcls (hthrow e (List.mem_cons_self _ _) x)
      | candidate itm =>
        simp only [hl, hc, if_false]
        split_ifs
        · exact ih1 _ _
        · exact ih1 _ _

/-- Two entries with the same key give the same candidate. -/
theorem scanEntry_candidate_key (snap : KVRocksDB) (ctx : ScanContext)
    (e1 e2 : SeqnoSlice × Bytes) (it1 it2 : Item)
    (h1 : scanEntry snap ctx e1 = EntryClass.candidate it1)
    (h2 : scanEntry snap ctx e2 = EntryClass.candidate it2) (hk : it1.key = it2.key) :
    it1 = it2 := by
  have hk1 := (scanEntry_candidate snap ctx e1 it1 h1).2
  have hk2 := (scanEntry_candidate snap ctx e2 it2 h2).2
  have he : e1.2 = e2.2 := by
    rw [hk1, hk2] at hk
    injection hk
  obtain ⟨rec1, hr1, -, -, hm1⟩ := scanEntry_candidate_record snap ctx e1 it1 h1
  obtain ⟨rec2, hr2, -, -, hm2⟩ := scanEntry_candidate_record snap ctx e2 it2 h2
  rw [he, hr2] at hr1
  injection hr1 with hr1
  subst hr1
  rw [he, hm2] at hm1
  injection hm1 with hm1
  exact hm1.symm

/-- Over entries in the order of their seqnos no key is passed to the value
callback twice. -/
theorem scanLoop_delivered_keys_nodup {σ : Type} (snap : KVRocksDB) (cbs : ScanCallbacks σ)
    (ctx : ScanContext) (es : List (SeqnoSlice × Bytes)) (lr : Int) (st : σ)
    (hs : (es.map Prod.fst).Sorted (fun a b => a < b)) :
    ((delivered (scanLoop snap cbs ctx es lr st).events).map (fun it => it.key)).Nodup := by
  have hsub := (scanLoop_delivered snap cbs ctx es lr st).1
  have hnd : ((delivered (scanLoop snap cbs ctx es lr st).events).map
      (fun it => it.bySeqno)).Nodup := (hs.sublist hsub).nodup
  refine List.Nodup.map_on ?_ (List.Nodup.of_map _ hnd)
  intro x hx y hy hxy
  obtain ⟨e1, -, h1⟩ := scanLoop_delivered_candidate snap cbs ctx es lr st x hx
  obtain ⟨e2, -, h2⟩ := scanLoop_delivered_candidate snap cbs ctx es lr st y hy
  exact scanEntry_candidate_key snap ctx e1 e2 x y h1 h2 hxy

/-- A scan from seqno 0 of a snapshot whose column families agree, with
deletes included and callbacks that report neither key-exists nor
out-of-memory: it returns success, passes no key twice, passes only newest
records with a seqno up to the maximum, and passes the newest record of every
key when its seqno is up to the maximum. -/
theorem scan_consistent {σ : Type} (sc : RocksDBKVStore) (cbs : ScanCallbacks σ)
    (ctx : ScanContext) (st : σ) (snap : KVRocksDB)
    (hsnap : sc.scanSnapshots.lookup ctx.scanId = some snap) (hcons : snap.Consistent)
    (hstart : ctx.startSeqno = 0) (hlast : ctx.lastReadSeqno = 0)
    (hfilter : ctx.docFilter = DocumentFilter.ALL_ITEMS)
    (hl : ∀ st1 c, (cbs.lookup st1 c).2 ≠ ENGINE_ERROR_CODE.ENGINE_KEY_EEXISTS ∧
      (cbs.lookup st1 c).2 ≠ ENGINE_ERROR_CODE.ENGINE_ENOMEM)
    (hc : ∀ st1 rv, (cbs.callback st1 rv).2 ≠ ENGINE_ERROR_CODE.ENGINE_ENOMEM) :
    (sc.scan cbs none (some ctx) st).result = ScanResult.returned scan_error_t.scan_success ∧
    ((delivered (sc.scan cbs none (some ctx) st).events).map (fun it => it.key)).Nodup ∧
    (∀ it ∈ delivered (sc.scan cbs none (some ctx) st).events,
      ∃ rec, snap.defaultCF.get it.key.data = some rec ∧ sizeofMetaData ≤ rec.length ∧
        (MetaData.decode rec).bySeqno = it.bySeqno ∧ it.bySeqno ≤ ctx.maxSeqno) ∧
    (∀ k rec, snap.defaultCF.get k = some rec → (MetaData.decode rec).bySeqno ≤ ctx.maxSeqno →
      ∃ it ∈ delivered (sc.scan cbs none (some ctx) st).events, it.key.data = k) := by
  obtain ⟨hc1, hc2⟩ := hcons
  by_cases hmax : ctx.lastReadSeqno = ctx.maxSeqno
  · have hs : sc.scan cbs none (some ctx) st
        = { result := ScanResult.returned scan_error_t.scan_success, ctx := some ctx,
            cbState := st, events := [] } := by
      simp [RocksDBKVStore.scan, hmax]
    rw [hs]
    refine ⟨rfl, by simp [delivered], by simp [delivered], ?_⟩
    intro k rec hrec hle
    have := (hc2 k rec hrec).1
    rw [← hmax, hlast] at hle
    omega
  · rw [scan_eq_loop sc cbs ctx st snap hmax hsnap]
    simp only [hlast, ne_eq, not_true_eq_false, if_false, hstart]
    have hsorted := seekSeqno_sorted snap 0
    have hthrow : ∀ e ∈ snap.seekSeqno 0, ∀ x, scanEntry snap ctx e ≠ EntryClass.throw x := by
      intro e he x
      obtain ⟨rec, h1, h2, h3⟩ := hc1 e.1 e.2 ((mem_seekSeqno snap 0 e.1 e.2).mp he).2
      exact scanEntry_no_throw snap ctx e rec h1 h2 h3 x
    have hend := scanLoop_ends snap cbs ctx (snap.seekSeqno 0) 0 st (fun a b => (hl a b).2) hc
      hthrow
    refine ⟨?_, scanLoop_delivered_keys_nodup snap cbs ctx _ 0 st hsorted, ?_, ?_⟩
    · rcases hend with h | h <;> rw [h]
    · intro it hit
      obtain ⟨e, -, hcand⟩ := scanLoop_delivered_candidate snap cbs ctx _ 0 st it hit
      obtain ⟨rec, h1, h2, h3, -⟩ := scanEntry_candidate_record snap ctx e it hcand
      have hk := (scanEntry_candidate snap ctx e it hcand).2
      refine ⟨rec, by rw [hk]; exact h1, h2, h3,
        (scanLoop_delivered snap cbs ctx _ 0 st).2 it hit⟩
    · intro k rec hrec hle
      obtain ⟨hpos, hmap⟩ := hc2 k rec hrec
      obtain ⟨rec1, h1, h2, -⟩ := hc1 _ k hmap
      rw [hrec] at h1
      injection h1 with h1
      subst h1
      have hmem : ((MetaData.decode rec).bySeqno, k) ∈ snap.seekSeqno 0 :=
        (mem_seekSeqno snap 0 _ k).mpr ⟨by omega, hmap⟩
      obtain ⟨itm, hcand, -, -, hkey⟩ := scanEntry_of_record snap ctx
        (MetaData.decode rec).bySeqno k rec hrec h2 rfl (Or.inl hfilter)
      exact ⟨itm, scanLoop_delivers snap cbs ctx _ 0 st hl hc hsorted hend _ itm hmem hle hcand,
        hkey⟩

/-- What `get` returns for a key that has a record long enough for its
metadata: an item with the seqno of the record. -/
theorem get_of_record (s : RocksDBKVStore) (key : DocKey) (v : Nat) (fetchDelete : Bool)
    (rec : Bytes) (hrec : (s.vbDB v).defaultCF.get key.data = some rec)
    (hlen : sizeofMetaData ≤ rec.length) :
    ∃ gv it, s.get key v fetchDelete = Except.ok gv ∧ gv.item = some it ∧
      it.bySeqno = (MetaData.decode rec).bySeqno := by
  have hl : ¬ rec.length < sizeofMetaData := by omega
  cases hmk : makeItem v key rec GetMetaOnly.No with
  | error x => simp [makeItem, hl] at hmk
  | ok it =>
    refine ⟨{ item := some it, status := ENGINE_ERROR_CODE.ENGINE_SUCCESS, id := -1,
              onlyKeys := false }, it, ?_, rfl, (makeItem_key _ _ _ _ _ hmk).2.1⟩
    simp only [RocksDBKVStore.get, RocksDBKVStore.getWithHeader, RocksDBKVStore.openDB,
      getKeySlice, hrec, makeGetValue, hmk]

/-- The record behind an item `get` returns. -/
theorem record_of_get (s : RocksDBKVStore) (key : DocKey) (v : Nat) (fetchDelete : Bool)
    (gv : GetValue) (it : Item) (h : s.get key v fetchDelete = Except.ok gv)
    (hit : gv.item = some it) :
    ∃ rec, (s.vbDB v).defaultCF.get key.data = some rec ∧
      it.bySeqno = (MetaData.decode rec).bySeqno := by
  simp only [RocksDBKVStore.get, RocksDBKVStore.getWithHeader, RocksDBKVStore.openDB,
    getKeySlice] at h
  cases hrec : (s.vbDB v).defaultCF.get key.data with
  | none =>
    rw [hrec] at h
    simp only [Except.ok.injEq] at h
    rw [← h] at hit
    simp at hit
  | some rec =>
    rw [hrec] at h
    simp only [makeGetValue] at h
    cases hmk : makeItem v key rec GetMetaOnly.No with
    | error x => rw [hmk] at h; simp at h
    | ok it1 =>
      rw [hmk] at h
      simp only [Except.ok.injEq] at h
      rw [← h] at hit
      simp only [Option.some.injEq] at hit
      subst hit
      exact ⟨rec, rfl, (makeItem_key _ _ _ _ _ hmk).2.1⟩

/-- The database of a vBucket built, from empty, by transactions whose commits
returned true, with increasing positive seqnos, has column families that
agree. -/
theorem transactions_consistent (txs : List (List Mutation)) (s0 s : RocksDBKVStore)
    (env : WriteEnv) (v : Nat)
    (hempty : s0.vbDB v = KVRocksDB.empty) (hpend : s0.pendingReqs = [])
    (hbuilt : s0.transactions env txs = some s)
    (hitems : ∀ m ∈ txs.flatten, m.item.vbucketId = v ∧ m.item.WF ∧
      (-(2 ^ 63) ≤ m.now ∧ m.now < 2 ^ 63))
    (hseq : (txs.flatten.map (fun m => m.item.bySeqno)).Sorted (fun a b => a < b))
    (hpos : ∀ m ∈ txs.flatten, 1 ≤ m.item.bySeqno) :
    (s.vbDB v).Consistent := by
  obtain ⟨hd, hs⟩ := transactions_db txs s0 s env v hpend
    (fun ops ho m hm => (hitems m (List.mem_flatten.mpr ⟨ops, ho, hm⟩)).1) hbuilt
  rw [hempty] at hd hs
  simp only [KVRocksDB.empty, List.append_nil, ← List.map_reverse] at hd hs
  have hsorted : ((txs.flatten.reverse.map Mutation.request).map
      (fun r => r.docMeta.bySeqno)).Sorted (· > ·) := by
    rw [List.map_map, List.map_reverse]
    exact List.pairwise_reverse.mpr hseq
  obtain ⟨h1, h2⟩ := requests_consistent _ hsorted
    (by
      intro r hr
      obtain ⟨m, hm, rfl⟩ := List.mem_map.mp hr
      exact hpos m (List.mem_reverse.mp hm))
    (by
      intro r hr
      obtain ⟨m, hm, rfl⟩ := List.mem_map.mp hr
      exact RocksRequest.make_docMeta_WF _ _ _ (hitems m (List.mem_reverse.mp hm)).2.1
        (hitems m (List.mem_reverse.mp hm)).2.2)
  constructor
  · intro q k hq
    rw [hs] at hq
    rw [hd]
    exact (h1 q k hq).2
  · intro k rec hk
    rw [hd] at hk
    rw [hs]
    exact (h2 k rec hk).2

/-- The store a commit leaves when every write succeeds. -/
theorem commit_of_writes_ok (s : RocksDBKVStore) (env : WriteEnv) (vbstate : vbucket_state)
    (hin : s.in_transaction = true) (hne : s.pendingReqs ≠ [])
    (hvb : s.cachedVBStates s.commitVBucket = some vbstate)
    (hw : ∀ n, env.writeStatus n = Code.kOk) :
    (s.commit env).1 = CommitResult.returned true ∧
    (s.commit env).2.1.vbDB = (fun v =>
      if v = s.commitVBucket then
        (s.vbDB s.commitVBucket).write (atomicBatch s.pendingReqs vbstate)
      else s.vbDB v) := by
  have hsd := saveDocs_of_writes_ok ({ s with pendingReqs := [] } : RocksDBKVStore) env
    s.commitVBucket s.pendingReqs vbstate hne hvb hw
  rw [commit_eq s env hin hne, hsd]
  simp only [commitCallback_exn _ _ _ hne, getMutationStatus, Code.ok, decide_True, if_true]
  exact ⟨trivial, by simp [RocksDBKVStore.setDB]⟩

/-- The puts of the single batch into the local column family: the state
blob. -/
theorem localPuts_atomicBatch (reqs : List RocksRequest) (vbstate : vbucket_state) :
    localPuts (atomicBatch reqs vbstate) = [(getVbstateKey, vbstateJSON vbstate)] := by
  simp [atomicBatch, saveVBStateToBatch, localPuts, foldl_addRequest_eq, List.filterMap_append,
    List.filterMap_flatMap]

/-- The callbacks `commitCallback` invokes for a status that
`getMutationStatus` accepts: one for each request, in order. -/
theorem commitCallback_events (txCtx : Option Nat) (status : Code) (rv : Int)
    (reqs : List RocksRequest) (hrv : getMutationStatus status = Except.ok rv) :
    commitCallback txCtx status reqs =
      (reqs.map (fun r =>
        if r.deleted then CallbackEvent.delCallback r txCtx (if rv ≠ -1 then 1 else rv)
        else CallbackEvent.setCallback r txCtx (1, true)), none) := by
  induction reqs with
  | nil => rfl
  | cons r rest ih =>
    simp only [commitCallback, hrv, ih, List.map_cons]

/-- A call of `saveDocs` does not touch the transaction context. -/
theorem saveDocs_transactionCtx (s s1 : RocksDBKVStore) (env : WriteEnv) (vbid : Nat)
    (reqs : List RocksRequest) (c : Code) (hne : reqs ≠ [])
    (h : s.saveDocs env vbid reqs = Except.ok (c, s1)) :
    s1.transactionCtx = s.transactionCtx := by
  by_cases hk : c = Code.kOk
  · subst hk
    obtain ⟨vbstate, -, h2⟩ := saveDocs_kOk _ _ _ _ _ hne h
    subst h2
    rfl
  · exact (saveDocs_failed _ _ _ _ _ _ hk h).2.2.2.2

/-- The loop of `saveDocs` against the batches of `splitBatches`: when the
write of the split batch `j` is the first to fail, the loop stops with the
status of that write and the database has the split batches before it written
to it; when the write of every split batch succeeds, the loop ends with all of
them written and the last batch in hand. -/
theorem saveDocsLoop_splitBatches (env : WriteEnv) (batchLimit : Nat)
    (reqs : List RocksRequest) (st : SaveLoop) :
    (∀ j, j < (splitBatches env batchLimit reqs st.batch).1.length →
      (∀ i, i < j → env.writeStatus (st.writes + i) = Code.kOk) →
      env.writeStatus (st.writes + j) ≠ Code.kOk →
      saveDocsLoop env batchLimit reqs st = Except.error (env.writeStatus (st.writes + j),
        ((splitBatches env batchLimit reqs st.batch).1.take j).foldl KVRocksDB.write st.db)) ∧
    ((∀ i, i < (splitBatches env batchLimit reqs st.batch).1.length →
        env.writeStatus (st.writes + i) = Code.kOk) →
      ∃ st1, saveDocsLoop env batchLimit reqs st = Except.ok st1 ∧
        st1.db = (splitBatches env batchLimit reqs st.batch).1.foldl KVRocksDB.write st.db ∧
        st1.batch = (splitBatches env batchLimit reqs st.batch).2 ∧
        st1.writes = st.writes + (splitBatches env batchLimit reqs st.batch).1.length) := by
  induction reqs generalizing st with
  | nil =>
    refine ⟨fun j hj => absurd hj (by simp [splitBatches]), fun _ => ⟨st, rfl, rfl, rfl, rfl⟩⟩
  | cons r rest ih =>
    by_cases h1 : env.dataSize (addRequestToWriteBatch st.batch r) > batchLimit
    · obtain ⟨ih1, ih2⟩ := ih
        { db := st.db.write (addRequestToWriteBatch st.batch r), batch := [],
          writes := st.writes + 1, maxDBSeqno := max st.maxDBSeqno r.docMeta.bySeqno }
      simp only [splitBatches, saveDocsLoop, h1, if_true, List.length_cons] at ih1 ih2 ⊢
      constructor
      · intro j hj hbefore hfail
        cases j with
        | zero =>
          have hnot : (!(env.writeStatus st.writes).ok) = true := by
            simpa [Code.ok] using hfail
          simp only [hnot, if_true, Nat.add_zero, List.take_zero, List.foldl_nil]
        | succ j =>
          have hok : (!(env.writeStatus st.writes).ok) = false := by
            have := hbefore 0 (Nat.succ_pos _)
            simp only [Nat.add_zero] at this
            simp [Code.ok, this]
          simp only [hok, Bool.false_eq_true, if_false, List.take_succ_cons, List.foldl_cons]
          have e : ∀ i, st.writes + 1 + i = st.writes + (i + 1) := fun i => by omega
          have := ih1 j (by omega) (fun i hi => by rw [e]; exact hbefore (i + 1) (by omega))
            (by rw [e]; exact hfail)
          rw [this, e]
      · intro hall
        have hok : (!(env.writeStatus st.writes).ok) = false := by
          have := hall 0 (Nat.succ_pos _)
          simp only [Nat.add_zero] at this
          simp [Code.ok, this]
        simp only [hok, Bool.false_eq_true, if_false, List.foldl_cons]
        have e : ∀ i, st.writes + 1 + i = st.writes + (i + 1) := fun i => by omega
        obtain ⟨st1, h2, h3, h4, h5⟩ := ih2 (fun i hi => by rw [e]; exact hall (i + 1) (by omega))
        exact ⟨st1, h2, h3, h4, by rw [h5]; omega⟩
    · obtain ⟨ih1, ih2⟩ := ih
        { db := st.db, batch := addRequestToWriteBatch st.batch r,
          writes := st.writes, maxDBSeqno := max st.maxDBSeqno r.docMeta.bySeqno }
      simp only [splitBatches, saveDocsLoop, h1, if_false] at ih1 ih2 ⊢
      exact ⟨ih1, ih2⟩

/-- The store `saveDocs` leaves when one of its writes fails: with `j` the
first write to fail, the status handed back is that of the write `j`, and only
the database of the vBucket differs from the store before, by the split
batches before the write `j`, which were written one after the other. -/
theorem saveDocs_first_failure (s : RocksDBKVStore) (env : WriteEnv) (vbid : Nat)
    (reqs : List RocksRequest) (vbstate : vbucket_state) (j : Nat) (hne : reqs ≠ [])
    (hcached : s.cachedVBStates vbid = some vbstate)
    (hj : j ≤ (splitBatches env ((s.defaultWriteBufferSize + s.seqnoWriteBufferSize) % 2 ^ 64)
      reqs []).1.length)
    (hbefore : ∀ i, i < j → env.writeStatus i = Code.kOk)
    (hfail : env.writeStatus j ≠ Code.kOk) :
    s.saveDocs env vbid reqs = Except.ok (env.writeStatus j,
      s.setDB vbid (((splitBatches env
        ((s.defaultWriteBufferSize + s.seqnoWriteBufferSize) % 2 ^ 64) reqs []).1.take j).foldl
        KVRocksDB.write (s.vbDB vbid))) := by
  have hlen : reqs.length ≠ 0 := fun h0 => hne (List.length_eq_zero.mp h0)
  obtain ⟨l1, l2⟩ := saveDocsLoop_splitBatches env
    ((s.defaultWriteBufferSize + s.seqnoWriteBufferSize) % 2 ^ 64) reqs
    { db := s.openDB vbid, batch := [], writes := 0, maxDBSeqno := 0 }
  simp only [Nat.zero_add] at l1 l2
  unfold RocksDBKVStore.saveDocs
  simp only [hlen, if_false, hcached]
  rcases Nat.lt_or_eq_of_le hj with hlt | heq
  · rw [l1 j hlt hbefore hfail]
    rfl
  · obtain ⟨st1, h2, h3, h4, h5⟩ := l2 (fun i hi => hbefore i (by omega))
    have hnot : (!(env.writeStatus j).ok) = true := by simpa [Code.ok] using hfail
    rw [h2]
    simp only [h5, ← heq, hnot, if_true, h3]
    rw [List.take_of_length_le (by omega)]
    rfl

/-- The batches of `splitBatches` cut the puts of the requests, in the order
they were queued, into pieces. -/
theorem splitBatches_flatten (env : WriteEnv) (batchLimit : Nat) (reqs : List RocksRequest)
    (batch : WriteBatch) :
    (splitBatches env batchLimit reqs batch).1.flatten ++ (splitBatches env batchLimit reqs batch).2
      = reqs.foldl addRequestToWriteBatch batch := by
  induction reqs generalizing batch with
  | nil => simp [splitBatches]
  | cons r rest ih =>
    by_cases h1 : env.dataSize (addRequestToWriteBatch batch r) > batchLimit
    · simp only [splitBatches, h1, if_true, List.flatten_cons, List.append_assoc, ih [],
        List.foldl_cons]
      have := foldl_addRequest_append rest (addRequestToWriteBatch batch r) []
      rw [List.append_nil] at this
      exact this.symm
    · simp only [splitBatches, h1, if_false, List.foldl_cons]
      exact ih _

/-- A batch of `splitBatches` holds no put into the local column family and
at least one put into the seqno column family. -/
theorem splitBatches_puts (env : WriteEnv) (batchLimit : Nat) (reqs : List RocksRequest)
    (batch : WriteBatch) (hlocal : localPuts batch = []) :
    ∀ b ∈ (splitBatches env batchLimit reqs batch).1, localPuts b = [] ∧ seqnoPuts b ≠ [] := by
  induction reqs generalizing batch with
  | nil => simp [splitBatches]
  | cons r rest ih =>
    have hl : localPuts (addRequestToWriteBatch batch r) = [] := by
      simp [addRequestToWriteBatch, localPuts, List.filterMap_append] at hlocal ⊢
      exact hlocal
    by_cases h1 : env.dataSize (addRequestToWriteBatch batch r) > batchLimit
    · simp only [splitBatches, h1, if_true, List.mem_cons]
      intro b hb
      rcases hb with rfl | hb
      · refine ⟨hl, ?_⟩
        simp [addRequestToWriteBatch, seqnoPuts, List.filterMap_append]
      · exact ih [] rfl b hb
    · simp only [splitBatches, h1, if_false]
      exact ih _ hl

/-- Writing batches that hold no put into the local column family leaves it as
it was, and each batch that holds a put into the seqno column family makes
that column family longer. -/
theorem foldl_write_puts (batches : List WriteBatch) (db : KVRocksDB)
    (h : ∀ b ∈ batches, localPuts b = [] ∧ seqnoPuts b ≠ []) :
    (batches.foldl KVRocksDB.write db).localCF = db.localCF ∧
    db.seqnoCF.length + batches.length ≤ (batches.foldl KVRocksDB.write db).seqnoCF.length := by
  induction batches generalizing db with
  | nil => simp
  | cons b rest ih =>
    obtain ⟨h1, h2⟩ := h b (List.mem_cons_self _ _)
    obtain ⟨i1, i2⟩ := ih (db.write b) (fun c hc => h c (List.mem_cons_of_mem _ hc))
    simp only [List.foldl_cons, List.length_cons]
    refine ⟨by rw [i1, write_localCF, h1]; rfl, ?_⟩
    have hlen : db.seqnoCF.length + 1 ≤ (db.write b).seqnoCF.length := by
      rw [write_seqnoCF, List.length_append, List.length_reverse]
      have : 0 < (seqnoPuts b).length := List.length_pos.mpr h2
      omega
    omega

/-! ## The high seqno -/

/-- In the column families made of the records of requests, newest first, in
which a request for a key has a greater seqno than every older request for
the same key: the record of the key of a seqno mapping has a seqno not below
that of the mapping. -/
theorem requests_seqno_le (L : List RocksRequest)
    (hkey : L.Pairwise (fun r r1 =>
      r.key.data = r1.key.data → r1.docMeta.bySeqno < r.docMeta.bySeqno))
    (hwf : ∀ r ∈ L, r.docMeta.WF) :
    ∀ q k, ColumnFamily.get (L.map RocksRequest.seqnoRecord) q = some k →
      (∃ r ∈ L, r.docMeta.bySeqno = q ∧ r.key.data = k) ∧
      ∃ rec, ColumnFamily.get (L.map RocksRequest.defaultRecord) k = some rec ∧
        sizeofMetaData ≤ rec.length ∧ q ≤ (MetaData.decode rec).bySeqno := by
  induction L with
  | nil => simp [ColumnFamily.get]
  | cons r rest ih =>
    have hgt : ∀ r1 ∈ rest, r.key.data = r1.key.data →
        r1.docMeta.bySeqno < r.docMeta.bySeqno := (List.pairwise_cons.mp hkey).1
    have ih1 := ih (List.pairwise_cons.mp hkey).2
      (fun r1 h1 => hwf r1 (List.mem_cons_of_mem _ h1))
    have hdec : MetaData.decode (r.docMeta.encode ++ r.docBody) = r.docMeta :=
      MetaData.decode_encode _ _ (hwf r (List.mem_cons_self _ _))
    have hlen : sizeofMetaData ≤ (r.docMeta.encode ++ r.docBody).length := by
      rw [List.length_append, MetaData.encode_length]
      omega
    intro q k hq
    simp only [List.map_cons, ColumnFamily.get, RocksRequest.seqnoRecord,
      RocksRequest.defaultRecord, getSeqnoSlice, getKeySlice, RocksRequest.getDocMetaSlice,
      RocksRequest.getDocBodySlice] at hq ⊢
    by_cases h1 : r.docMeta.bySeqno = q
    · simp only [h1, if_true, Option.some.injEq] at hq
      subst hq
      refine ⟨⟨r, List.mem_cons_self _ _, h1, rfl⟩, ?_⟩
      simp only [if_true]
      exact ⟨_, rfl, hlen, by rw [hdec, h1]⟩
    · simp only [h1, if_false] at hq
      obtain ⟨⟨r1, hr1, hr1q, hr1k⟩, rec, h2, h3, h4⟩ := ih1 q k hq
      refine ⟨⟨r1, List.mem_cons_of_mem _ hr1, hr1q, hr1k⟩, ?_⟩
      by_cases h5 : r.key.data = k
      · simp only [h5, if_true]
        refine ⟨_, rfl, hlen, ?_⟩
        rw [hdec, ← hr1q]
        exact le_of_lt (hgt r1 hr1 (by rw [h5, hr1k]))
      · simp only [h5, if_false]
        exact ⟨rec, h2, h3, h4⟩

/-- When the loop of `scan` throws, an entry made it throw. -/
theorem scanLoop_threw {σ : Type} (snap : KVRocksDB) (cbs : ScanCallbacks σ)
    (ctx : ScanContext) (es : List (SeqnoSlice × Bytes)) (lr : Int) (st : σ) (x : Exn)
    (h : (scanLoop snap cbs ctx es lr st).loopEnd = LoopEnd.threw x) :
    ∃ e ∈ es, scanEntry snap ctx e = EntryClass.throw x := by
  induction es generalizing lr st with
  | nil => simp [scanLoop] at h
  | cons e rest ih =>
    rw [scanLoop_cons] at h
    by_cases hmax : ctx.maxSeqno < e.1
    · simp [hmax] at h
    · simp only [hmax, if_false] at h
      cases hcls : scanEntry snap ctx e with
      | skip =>
        rw [hcls] at h
        obtain ⟨e1, h1, h2⟩ := ih lr st h
        exact ⟨e1, List.mem_cons_of_mem _ h1, h2⟩
      | throw y =>
        rw [hcls] at h
        simp only [LoopEnd.threw.injEq] at h
        exact ⟨e, List.mem_cons_self _ _, by rw [hcls, h]⟩
      | candidate itm =>
        rw [hcls] at h
        simp only at h
        split_ifs at h
        all_goals
          obtain ⟨e1, h1, h2⟩ := ih _ _ h
          exact ⟨e1, List.mem_cons_of_mem _ h1, h2⟩

/-- The record behind an entry that makes `scan` throw a logic error: its
seqno is below that of the entry. -/
theorem scanEntry_logic_error (snap : KVRocksDB) (ctx : ScanContext) (e : SeqnoSlice × Bytes)
    (h : scanEntry snap ctx e = EntryClass.throw Exn.logic_error) :
    ∃ rec, snap.defaultCF.get e.2 = some rec ∧ (MetaData.decode rec).bySeqno < e.1 := by
  unfold scanEntry at h
  cases hrec : snap.defaultCF.get e.2 with
  | none => simp [hrec] at h
  | some rec =>
    simp only [hrec] at h
    cases hmk : makeItem ctx.vbid { data := e.2, ns := DocNamespace.DefaultCollection } rec
        (if ctx.valFilter = ValueFilter.KEYS_ONLY then GetMetaOnly.Yes else GetMetaOnly.No) with
    | error x =>
      rw [hmk] at h
      simp only [EntryClass.throw.injEq] at h
      subst h
      simp only [makeItem] at hmk
      split_ifs at hmk
      simp at hmk
    | ok it =>
      simp only [hmk] at h
      have hb := (makeItem_key _ _ _ _ _ hmk).2.1
      split_ifs at h with h1 h2
      exact ⟨rec, rfl, by rw [← hb]; exact h2⟩

/-- A call of `scan` that throws a logic error: its loop threw it, over
entries of the pinned snapshot. -/
theorem scan_threw_logic_error {σ : Type} (s : RocksDBKVStore) (cbs : ScanCallbacks σ)
    (iterFail : Option Nat) (ctx : ScanContext) (st : σ)
    (h : (s.scan cbs iterFail (some ctx) st).result = ScanResult.threw Exn.logic_error) :
    ∃ snap start es, s.scanSnapshots.lookup ctx.scanId = some snap ∧
      (∀ e ∈ es, e ∈ snap.seekSeqno start) ∧
      (scanLoop snap cbs ctx es ctx.lastReadSeqno st).loopEnd = LoopEnd.threw Exn.logic_error := by
  by_cases hmax : ctx.lastReadSeqno = ctx.maxSeqno
  · simp [RocksDBKVStore.scan, hmax] at h
  cases hsnap : s.scanSnapshots.lookup ctx.scanId with
  | none => simp [RocksDBKVStore.scan, hmax, hsnap] at h
  | some snap =>
    cases iterFail with
    | none =>
      simp only [RocksDBKVStore.scan, hmax, if_false, hsnap, getSeqnoSlice] at h
      generalize hr : scanLoop snap cbs ctx _ ctx.lastReadSeqno st = r at h
      refine ⟨snap, if ctx.lastReadSeqno ≠ 0 then ctx.lastReadSeqno + 1 else ctx.startSeqno,
        snap.seekSeqno (if ctx.lastReadSeqno ≠ 0 then ctx.lastReadSeqno + 1 else ctx.startSeqno),
        rfl, fun e he => he, ?_⟩
      rw [hr]
      cases hle : r.loopEnd with
      | returned e => simp [hle] at h
      | pastEnd => simp [hle] at h
      | invalid => simp [hle] at h
      | threw x =>
        simp only [hle, ScanResult.threw.injEq] at h
        rw [h]
    | some n =>
      simp only [RocksDBKVStore.scan, hmax, if_false, hsnap, getSeqnoSlice] at h
      generalize hr : scanLoop snap cbs ctx _ ctx.lastReadSeqno st = r at h
      refine ⟨snap, if ctx.lastReadSeqno ≠ 0 then ctx.lastReadSeqno + 1 else ctx.startSeqno,
        (snap.seekSeqno
          (if ctx.lastReadSeqno ≠ 0 then ctx.lastReadSeqno + 1 else ctx.startSeqno)).take n,
        rfl, fun e he => List.mem_of_mem_take he, ?_⟩
      rw [hr]
      cases hle : r.loopEnd with
      | returned e => simp [hle] at h
      | pastEnd => simp [hle] at h
      | invalid => simp [hle] at h
      | threw x =>
        simp only [hle, ScanResult.threw.injEq] at h
        rw [h]

/-! ## Statistics lemmas -/

/-- What `getStatFromStatistics` leaves in `value` when statistics are
enabled: the content before the call plus the ticker of the shared object
once for every open database. -/
theorem getStatFromStatisticsLoop_value (src : StatsSource) (ticker : Tickers)
    (statistics : Tickers → Nat) (hs : src.statistics = some statistics) (vbs : List Nat)
    (value : Nat) (hv : value < 2 ^ 64) :
    getStatFromStatisticsLoop src ticker vbs value
      = (true, (value + vbs.length * statistics ticker) % 2 ^ 64) := by
  induction vbs generalizing value with
  | nil =>
    simp only [getStatFromStatisticsLoop, List.length_nil, Nat.zero_mul, Nat.add_zero,
      Nat.mod_eq_of_lt hv]
  | cons vb rest ih =>
    simp only [getStatFromStatisticsLoop, hs, List.length_cons, Nat.succ_mul]
    rw [ih _ (Nat.mod_lt _ (by norm_num))]
    congr 1
    omega

/-! ## C1: get after commit -/

/-- C1, as stated, fails for a deletion: the item deleted at seqno 2 has
`exptime = 0`, the request is built when the clock reads 1000, the commit
succeeds, and `get` returns an item whose `exptime` is 1000. -/
theorem get_deleted_exptime_counterexample :
    (exampleItem 107 2 true).exptime = 0 ∧
    (((exampleStore.begin none).2.del (exampleItem 107 2 true) 1000).2.commit okEnv).1
      = CommitResult.returned true ∧
    (((((exampleStore.begin none).2.del (exampleItem 107 2 true) 1000).2.commit okEnv).2.1.get
        (exampleItem 107 2 true).key 0 false).toOption.bind (fun gv => gv.item)).map
      (fun it => (it.exptime, it.deleted, it.bySeqno)) = some (1000, true, 2) := by
  decide

/-- C1 (amended): after `begin()`, `set(item)` or `del(item)`, and a `commit()`
that returns success, `get(item.key, v)` on the vBucket `v` the commit wrote to
(the vBucket of the item when nothing else was queued) returns success with an
item whose by_seqno, cas, datatype, flags and deleted flag equal those of the
committed item; its exptime equals that of the committed item when the item is
not deleted, and is the clock value read when the request was queued when the
item is deleted. The item and the clock value fit their C++ types. -/
theorem get_after_commit (s s1 : RocksDBKVStore) (env : WriteEnv) (txCtx : Option Nat)
    (item : Item) (now : Int) (fetchDelete : Bool)
    (hwf : item.WF) (hnow : -(2 ^ 63) ≤ now ∧ now < 2 ^ 63)
    (hq : s1 = ((s.begin txCtx).2.set item now).2 ∨ s1 = ((s.begin txCtx).2.del item now).2)
    (hc : (s1.commit env).1 = CommitResult.returned true) :
    (s.pendingReqs = [] → s1.commitVBucket = item.vbucketId) ∧
    ∃ it, (s1.commit env).2.1.get item.key s1.commitVBucket fetchDelete =
        Except.ok { item := some it, status := ENGINE_ERROR_CODE.ENGINE_SUCCESS, id := -1,
                    onlyKeys := false } ∧
      it.bySeqno = item.bySeqno ∧ it.cas = item.cas ∧ it.datatype = item.datatype ∧
      it.flags = item.flags ∧ it.deleted = item.deleted ∧
      (item.deleted = false → it.exptime = item.exptime) ∧
      (item.deleted = true → it.exptime = now) := by
  obtain ⟨h0, it, h1, h2, h3, h4, h5, h6, h7, -⟩ :=
    get_committed_item s s1 env txCtx item now fetchDelete hwf hnow hq hc
  refine ⟨h0, it, h1, h2, h3, h4, h5, h6, ?_, ?_⟩
  · intro hd; rw [h7, hd]; rfl
  · intro hd; rw [h7, hd]; rfl

/-- Witness of C1 (amended): scenario 1 of the spec. The item with key `k`,
seqno 1 and cas 100 is set and committed on the example store; `get` returns
it. -/
theorem get_after_commit_witness :
    ∃ it, (((exampleStore.begin none).2.set (exampleItem 107 1 false) 1000).2.commit okEnv).2.1.get
        (exampleItem 107 1 false).key 0 false =
        Except.ok { item := some it, status := ENGINE_ERROR_CODE.ENGINE_SUCCESS, id := -1,
                    onlyKeys := false } ∧
      it.bySeqno = 1 ∧ it.cas = 100 ∧ it.exptime = 0 := by
  obtain ⟨-, it, h1, h2, h3, -, -, -, h4, -⟩ := get_after_commit exampleStore
    ((exampleStore.begin none).2.set (exampleItem 107 1 false) 1000).2 okEnv none
    (exampleItem 107 1 false) 1000 false (by unfold Item.WF exampleItem; norm_num)
    (by norm_num) (Or.inl rfl) (by decide)
  exact ⟨it, h1, h2, h3, h4 rfl⟩

/-! ## C2: get after a committed delete -/

/-- C2, as stated, fails: scenario 2 of the spec. Key `k` is set at seqno 1 and
committed, then deleted at seqno 2 and committed; `get` does not return
key-not-found but success, with the tombstone. -/
theorem get_after_delete_counterexample :
    (((((((exampleStore.begin none).2.set (exampleItem 107 1 false) 1000).2.commit okEnv).2.1.begin
        none).2.del (exampleItem 107 2 true) 1001).2.commit okEnv).2.1.get
        (exampleItem 107 2 true).key 0 false).toOption.map
      (fun gv => (gv.status, gv.item.map (fun it => (it.deleted, it.bySeqno))))
      = some (ENGINE_ERROR_CODE.ENGINE_SUCCESS, some (true, 2)) := by
  decide

/-- C2 (amended): after `begin()`, `del(item)` and a `commit()` that returns
success, whatever was committed before, `get(item.key, v)` on the vBucket the
commit wrote to does not report key-not-found: it returns success with the
record of the delete, an item with the by_seqno and the deleted flag of the
deleted item (the tombstone when the item is flagged deleted). The argument
`fetchDelete` makes no difference. -/
theorem get_after_delete (s : RocksDBKVStore) (env : WriteEnv) (txCtx : Option Nat)
    (item : Item) (now : Int) (fetchDelete : Bool)
    (hwf : item.WF) (hnow : -(2 ^ 63) ≤ now ∧ now < 2 ^ 63)
    (hc : (((s.begin txCtx).2.del item now).2.commit env).1 = CommitResult.returned true) :
    ∃ gv it, (((s.begin txCtx).2.del item now).2.commit env).2.1.get item.key
        ((s.begin txCtx).2.del item now).2.commitVBucket fetchDelete = Except.ok gv ∧
      gv.status = ENGINE_ERROR_CODE.ENGINE_SUCCESS ∧
      gv.status ≠ ENGINE_ERROR_CODE.ENGINE_KEY_ENOENT ∧
      gv.item = some it ∧ it.bySeqno = item.bySeqno ∧ it.deleted = item.deleted := by
  obtain ⟨-, it, h1, h2, -, -, -, h6, -, -⟩ :=
    get_committed_item s _ env txCtx item now fetchDelete hwf hnow (Or.inr rfl) hc
  exact ⟨_, it, h1, rfl, by simp, rfl, h2, h6⟩

/-- Witness of C2 (amended): the delete of scenario 2 of the spec. -/
theorem get_after_delete_witness :
    ∃ gv it, ((((((exampleStore.begin none).2.set (exampleItem 107 1 false) 1000).2.commit
        okEnv).2.1.begin none).2.del (exampleItem 107 2 true) 1001).2.commit okEnv).2.1.get
        (exampleItem 107 2 true).key 0 true = Except.ok gv ∧
      gv.status = ENGINE_ERROR_CODE.ENGINE_SUCCESS ∧ gv.item = some it ∧ it.bySeqno = 2 ∧
      it.deleted = true := by
  obtain ⟨gv, it, h1, h2, -, h3, h4, h5⟩ := get_after_delete
    (((exampleStore.begin none).2.set (exampleItem 107 1 false) 1000).2.commit okEnv).2.1
    okEnv none (exampleItem 107 2 true) 1001 true (by unfold Item.WF exampleItem; norm_num)
    (by norm_num) (by decide)
  exact ⟨gv, it, h1, h2, h3, h4, h5⟩

/-! ## C3: a scan emits the current record of every key once -/

set_option maxRecDepth 100000 in
/-- Counterexample to C3 as stated: key `a` is committed at seqno 0 and key `b`
at seqno 1, in this order, so the high seqno of the vBucket is 1. A scan from
0 with max seqno 0 makes no call of the value callback, though the current
record of `a` has by_seqno 0: `scan` reads a max seqno equal to the last read
seqno, 0 on a fresh context, as a scan that is over. -/
theorem scan_seqno_zero_counterexample :
    (exampleStore.transactions okEnv [[exampleSet 97 0], [exampleSet 98 1]]).map
      (fun s =>
        ((s.get { data := [97], ns := DocNamespace.DefaultCollection } 0 false).toOption.bind
            (fun gv => gv.item.map (fun it => it.bySeqno)),
          (s.cachedVBStates 0).map (fun vbstate => vbstate.highSeqno),
          delivered ((storeWithSnapshot (s.vbDB 0)).scan okCallbacks none
            (some (freshContext 0 0)) ()).events))
      = some (some 0, some 1, []) := by
  decide

/-- C3 (amended): for every vBucket `v` whose database was built, from empty,
by transactions whose commits returned true, with seqnos that increase in the
order the items were queued and are all at least 1, and every max seqno: a
scan of that database from seqno 0 on a fresh context, deletes included, with
callbacks that report neither key-exists nor out-of-memory, returns success,
passes no key to the value callback twice, passes a record for a key exactly
when the current record of the key (the one `get` returns) has a by_seqno up
to the max seqno, and every record it passes has the by_seqno of the current
record of its key. -/
theorem scan_emits_current {σ : Type} (s0 s sc : RocksDBKVStore) (env : WriteEnv)
    (txs : List (List Mutation)) (v : Nat) (cbs : ScanCallbacks σ) (ctx : ScanContext) (st : σ)
    (hempty : s0.vbDB v = KVRocksDB.empty) (hpend : s0.pendingReqs = [])
    (hbuilt : s0.transactions env txs = some s)
    (hitems : ∀ m ∈ txs.flatten, m.item.vbucketId = v ∧ m.item.WF ∧
      (-(2 ^ 63) ≤ m.now ∧ m.now < 2 ^ 63))
    (hseq : (txs.flatten.map (fun m => m.item.bySeqno)).Sorted (fun a b => a < b))
    (hpos : ∀ m ∈ txs.flatten, 1 ≤ m.item.bySeqno)
    (hsnap : sc.scanSnapshots.lookup ctx.scanId = some (s.vbDB v))
    (hstart : ctx.startSeqno = 0) (hlast : ctx.lastReadSeqno = 0)
    (hfilter : ctx.docFilter = DocumentFilter.ALL_ITEMS)
    (hl : ∀ st1 c, (cbs.lookup st1 c).2 ≠ ENGINE_ERROR_CODE.ENGINE_KEY_EEXISTS ∧
      (cbs.lookup st1 c).2 ≠ ENGINE_ERROR_CODE.ENGINE_ENOMEM)
    (hc : ∀ st1 rv, (cbs.callback st1 rv).2 ≠ ENGINE_ERROR_CODE.ENGINE_ENOMEM) :
    (sc.scan cbs none (some ctx) st).result = ScanResult.returned scan_error_t.scan_success ∧
    ((delivered (sc.scan cbs none (some ctx) st).events).map (fun it => it.key)).Nodup ∧
    (∀ k : Bytes,
      (∃ it ∈ delivered (sc.scan cbs none (some ctx) st).events, it.key.data = k) ↔
      ∃ gv it, s.get { data := k, ns := DocNamespace.DefaultCollection } v false = Except.ok gv ∧
        gv.item = some it ∧ it.bySeqno ≤ ctx.maxSeqno) ∧
    (∀ it ∈ delivered (sc.scan cbs none (some ctx) st).events,
      ∃ gv it1, s.get it.key v false = Except.ok gv ∧ gv.item = some it1 ∧
        it1.bySeqno = it.bySeqno) := by
  have hcons := transactions_consistent txs s0 s env v hempty hpend hbuilt hitems hseq hpos
  obtain ⟨h1, h2, h3, h4⟩ := scan_consistent sc cbs ctx st (s.vbDB v) hsnap hcons hstart hlast
    hfilter hl hc
  refine ⟨h1, h2, fun k => ⟨?_, ?_⟩, ?_⟩
  · rintro ⟨it, hit, hk⟩
    obtain ⟨rec, hrec, hlen, hseqno, hle⟩ := h3 it hit
    rw [hk] at hrec
    obtain ⟨gv, it1, hg1, hg2, hg3⟩ := get_of_record s
      { data := k, ns := DocNamespace.DefaultCollection } v false rec hrec hlen
    exact ⟨gv, it1, hg1, hg2, by rw [hg3, hseqno]; exact hle⟩
  · rintro ⟨gv, it, hg, hit, hle⟩
    obtain ⟨rec, hrec, hb⟩ := record_of_get s _ v false gv it hg hit
    exact h4 k rec hrec (by rw [← hb]; exact hle)
  · intro it hit
    obtain ⟨rec, hrec, hlen, hseqno, -⟩ := h3 it hit
    obtain ⟨gv, it1, hg1, hg2, hg3⟩ := get_of_record s it.key v false rec hrec hlen
    exact ⟨gv, it1, hg1, hg2, by rw [hg3, hseqno]⟩

set_option maxRecDepth 100000 in
/-- Witness of C3 (amended): key `k` is set at seqno 1, key `j` at seqno 2 and
key `k` again at seqno 3, in three transactions. A scan from 0 to 3 returns
success and passes `j` at seqno 2 and `k` once, at seqno 3; the mapping of
seqno 1 to `k` is stale and passed over. -/
theorem scan_emits_current_witness :
    ((storeWithSnapshot (overwrittenStore.vbDB 0)).scan okCallbacks none
        (some (freshContext 0 3)) ()).result = ScanResult.returned scan_error_t.scan_success ∧
    ((delivered ((storeWithSnapshot (overwrittenStore.vbDB 0)).scan okCallbacks none
        (some (freshContext 0 3)) ()).events).map (fun it => it.key)).Nodup ∧
    (delivered ((storeWithSnapshot (overwrittenStore.vbDB 0)).scan okCallbacks none
        (some (freshContext 0 3)) ()).events).map (fun it => (it.key.data, it.bySeqno))
      = [([106], 2), ([107], 3)] := by
  have h := scan_emits_current exampleStore overwrittenStore
    (storeWithSnapshot (overwrittenStore.vbDB 0)) okEnv overwriteTransactions 0 okCallbacks
    (freshContext 0 3) () rfl rfl rfl
    (by
      intro m hm
      simp only [overwriteTransactions, List.flatten, List.append_nil, List.singleton_append,
        List.mem_cons, List.mem_singleton, List.not_mem_nil, or_false] at hm
      rcases hm with rfl | rfl | rfl <;>
        exact ⟨rfl, by unfold Item.WF; decide, by decide⟩)
    (by decide) (by decide) rfl rfl rfl rfl
    (fun _ _ => ⟨by simp [okCallbacks], by simp [okCallbacks]⟩)
    (fun _ _ => by simp [okCallbacks])
  exact ⟨h.1, h.2.1, by decide⟩

/-! ## C4: range and order of the records a scan delivers -/

/-- C4: for every store (hence every pinned snapshot), every callbacks and
every scan context a program meets (just built, or left by earlier calls of
`scan`), every record one call of `scan` passes to the value callback has
`startSeqno ≤ bySeqno ≤ maxSeqno`, and the `bySeqno` of the records passed are
strictly increasing in call order. -/
theorem scan_delivered_range_order {σ : Type} (s : RocksDBKVStore) (cbs : ScanCallbacks σ)
    (iterFail : Option Nat) (ctx : ScanContext) (st : σ) (hr : ctx.Reachable) :
    (∀ it ∈ delivered (s.scan cbs iterFail (some ctx) st).events,
      ctx.startSeqno ≤ it.bySeqno ∧ it.bySeqno ≤ ctx.maxSeqno) ∧
    ((delivered (s.scan cbs iterFail (some ctx) st).events).map
      (fun it => it.bySeqno)).Sorted (fun a b => a < b) := by
  rcases scan_events_eq s cbs iterFail ctx st with ⟨h, _⟩ | ⟨snap, es, hsub, h, _⟩
  · simp [h, delivered]
  · rw [h]
    obtain ⟨h1, h2⟩ := scanLoop_delivered snap cbs ctx es ctx.lastReadSeqno st
    have hsub2 := h1.trans (hsub.map Prod.fst)
    refine ⟨fun it hit => ⟨?_, h2 it hit⟩, (seekSeqno_sorted snap _).sublist hsub2⟩
    have hge := seekSeqno_ge snap _ _ (hsub2.subset (List.mem_map_of_mem _ hit))
    have hinv := hr.start_le
    split_ifs at hge with h3
    · rcases hinv with h4 | h4
      · exact absurd h4 h3
      · omega
    · exact hge

/-- Witness of C4: scenario 3 of the spec. Seqnos 5, 3 and 7 are committed for
the keys `a`, `b` and `c`; a scan from 0 to 7 delivers `b@3`, `a@5`, `c@7`. -/
theorem scan_delivered_range_order_witness :
    (delivered ((storeWithSnapshot scenario3DB).scan okCallbacks none
        (some (freshContext 0 7)) ()).events).map (fun it => (it.key.data, it.bySeqno))
      = [([98], 3), ([97], 5), ([99], 7)] ∧
    ((delivered ((storeWithSnapshot scenario3DB).scan okCallbacks none
        (some (freshContext 0 7)) ()).events).map
      (fun it => it.bySeqno)).Sorted (fun a b => a < b) :=
  ⟨by decide,
   (scan_delivered_range_order (storeWithSnapshot scenario3DB) okCallbacks none
      (freshContext 0 7) () (ScanContext.Reachable.fresh _ rfl)).2⟩

/-! ## C5: resuming a paused scan -/

/-- Counterexample to C5 as stated: the snapshot holds key `a` at seqno 0 and
key `b` at seqno 1. The value callback accepts `a` and then reports
out-of-memory for `b`; the scan returns `scan_again` with last read seqno 0,
which the next call reads as nothing read yet, so it starts over and `a` is
accepted a second time. An uninterrupted scan accepts `a` and `b` once each. -/
theorem scan_resume_duplicates_counterexample :
    ((storeWithSnapshot seqnoZeroDB).scanRepeat (tapeCallbacks (fun _ => false)) 3
        (freshContext 0 1) [false, false, false, true]).result
      = ScanResult.returned scan_error_t.scan_success ∧
    (accepted ((storeWithSnapshot seqnoZeroDB).scanRepeat (tapeCallbacks (fun _ => false)) 3
        (freshContext 0 1) [false, false, false, true]).events).map
        (fun it => (it.key.data, it.bySeqno))
      = [([97], 0), ([97], 0), ([98], 1)] ∧
    (accepted ((storeWithSnapshot seqnoZeroDB).scan (tapeCallbacks (fun _ => false)) none
        (some (freshContext 0 1)) []).events).map (fun it => (it.key.data, it.bySeqno))
      = [([97], 0), ([98], 1)] := by
  decide

/-- C5 (amended): for every store, scan context, cache-lookup answers and
pattern of out-of-memory reports, when the snapshot of the scan has no entry
at seqno 0: calling `scan` on the context and again on the context it leaves
as long as it returns `scan_again` (at most once per report of the pattern)
ends as an uninterrupted call of `scan` on the context does, not with
`scan_again`, and the records the value callback accepted over all the calls
are, in order, those it accepts in the uninterrupted call. -/
theorem scan_resume_exact (s : RocksDBKVStore) (cached : CacheLookup → Bool)
    (fuel : Nat) (ctx : ScanContext) (tape : List Bool) (hfuel : tape.length ≤ fuel)
    (hzero : ∀ snap, s.scanSnapshots.lookup ctx.scanId = some snap →
      snap.seqnoCF.get (getSeqnoSlice 0) = none) :
    (s.scanRepeat (tapeCallbacks cached) fuel ctx tape).result
      = (s.scan (tapeCallbacks cached) none (some ctx) []).result ∧
    (s.scanRepeat (tapeCallbacks cached) fuel ctx tape).result
      ≠ ScanResult.returned scan_error_t.scan_again ∧
    accepted (s.scanRepeat (tapeCallbacks cached) fuel ctx tape).events
      = accepted (s.scan (tapeCallbacks cached) none (some ctx) []).events := by
  induction fuel generalizing ctx tape with
  | zero =>
    have ht : tape = [] := List.length_eq_zero.mp (Nat.le_zero.mp hfuel)
    subst ht
    refine ⟨rfl, ?_, rfl⟩
    rcases scan_tape s cached ctx [] hzero with ⟨h, -, -⟩ | ⟨-, h, -⟩
    · exact h
    · simp at h
  | succ n ih =>
    rcases scan_tape s cached ctx tape hzero with
      ⟨hA1, hA2, hA3⟩ | ⟨hB1, hB2, ctx1, hB3, hB4, hB5, hB6⟩
    · have hrep : s.scanRepeat (tapeCallbacks cached) (n + 1) ctx tape
          = s.scan (tapeCallbacks cached) none (some ctx) tape := by
        simp only [RocksDBKVStore.scanRepeat]
        split
        · rename_i h1 h2
          exact absurd h1 hA1
        · rfl
      rw [hrep]
      exact ⟨hA2, hA1, hA3⟩
    · have hrep : s.scanRepeat (tapeCallbacks cached) (n + 1) ctx tape
          = { s.scanRepeat (tapeCallbacks cached) n ctx1
                (s.scan (tapeCallbacks cached) none (some ctx) tape).cbState with
              events := (s.scan (tapeCallbacks cached) none (some ctx) tape).events ++
                (s.scanRepeat (tapeCallbacks cached) n ctx1
                  (s.scan (tapeCallbacks cached) none (some ctx) tape).cbState).events } := by
        simp only [RocksDBKVStore.scanRepeat, hB1, hB3]
      obtain ⟨h1, h2, h3⟩ := ih ctx1 (s.scan (tapeCallbacks cached) none (some ctx) tape).cbState
        (by omega) (by rw [hB4]; exact hzero)
      rw [hrep]
      refine ⟨by rw [← hB5, ← h1], h2, ?_⟩
      simp only [accepted, List.filterMap_append] at h3 hB6 ⊢
      rw [h3, hB6]

/-- Witness of C5 (amended): scenario 3 of the spec (b at 3, a at 5, c at 7)
scanned under a pattern with two out-of-memory reports; the records accepted
over the three calls are b, a and c, once each. -/
theorem scan_resume_exact_witness :
    ((storeWithSnapshot scenario3DB).scanRepeat (tapeCallbacks (fun _ => false)) 5
        (freshContext 0 7) [false, false, true, false, true]).result
      = ScanResult.returned scan_error_t.scan_success ∧
    (accepted ((storeWithSnapshot scenario3DB).scanRepeat (tapeCallbacks (fun _ => false)) 5
        (freshContext 0 7) [false, false, true, false, true]).events).map
        (fun it => (it.key.data, it.bySeqno))
      = [([98], 3), ([97], 5), ([99], 7)] := by
  obtain ⟨h1, -, h3⟩ := scan_resume_exact (storeWithSnapshot scenario3DB) (fun _ => false) 5
    (freshContext 0 7) [false, false, true, false, true] (by decide)
    (by
      intro snap h
      have hs : snap = scenario3DB := by
        simp only [storeWithSnapshot, freshContext, List.lookup, beq_self_eq_true,
          Option.some.injEq] at h
        exact h.symm
      subst hs
      decide)
  rw [h1, h3]
  decide

/-! ## C6: a split batch against one atomic batch -/

/-- C6, as stated, fails for the empty list of requests: `saveDocs` returns at
once and writes nothing, not even the state blob, while the single batch of the
claim puts the state blob into the local column family. -/
theorem saveDocs_empty_counterexample :
    exampleStore.cachedVBStates 0 = some exampleState ∧
    (exampleStore.saveDocs okEnv 0 []).toOption.map (fun r => (r.1, (r.2.vbDB 0).localCF))
      = some (Code.kOk, []) ∧
    ((exampleStore.vbDB 0).write (atomicBatch [] exampleState)).localCF ≠ [] := by
  decide

/-- C6 (amended): for every non-empty list of requests, every size function of
a batch and every write-buffer sizes, on a vBucket with a cached state and with
every write succeeding, `saveDocs` succeeds and the database it leaves (default,
seqno and local column family) is the one obtained by writing the puts of all
the requests followed by the put of the state blob as one batch. -/
theorem saveDocs_split_eq_atomic (s : RocksDBKVStore) (env : WriteEnv) (vbid : Nat)
    (reqs : List RocksRequest) (vbstate : vbucket_state)
    (hne : reqs ≠ []) (hvb : s.cachedVBStates vbid = some vbstate)
    (hw : ∀ n, env.writeStatus n = Code.kOk) :
    ∃ s1, s.saveDocs env vbid reqs = Except.ok (Code.kOk, s1) ∧
      s1.vbDB vbid = (s.vbDB vbid).write (atomicBatch reqs vbstate) ∧
      (s1.vbDB vbid).defaultCF = ((s.vbDB vbid).write (atomicBatch reqs vbstate)).defaultCF ∧
      (s1.vbDB vbid).seqnoCF = ((s.vbDB vbid).write (atomicBatch reqs vbstate)).seqnoCF ∧
      (s1.vbDB vbid).localCF = ((s.vbDB vbid).write (atomicBatch reqs vbstate)).localCF := by
  refine ⟨_, saveDocs_of_writes_ok s env vbid reqs vbstate hne hvb hw, ?_⟩
  simp [RocksDBKVStore.setDB]

/-- Witness of C6 (amended): two requests whose batch is split after each one
(each batch of two records reports 112 bytes against a limit of 100). -/
theorem saveDocs_split_eq_atomic_witness :
    ∃ s1, ({ exampleStore with defaultWriteBufferSize := 50, seqnoWriteBufferSize := 50 } :
        RocksDBKVStore).saveDocs okEnv 0
        [RocksRequest.make (exampleItem 97 1 false) MutationRequestCallback.setCb 1000,
         RocksRequest.make (exampleItem 98 2 false) MutationRequestCallback.setCb 1000]
        = Except.ok (Code.kOk, s1) ∧
      s1.vbDB 0 = (exampleStore.vbDB 0).write (atomicBatch
        [RocksRequest.make (exampleItem 97 1 false) MutationRequestCallback.setCb 1000,
         RocksRequest.make (exampleItem 98 2 false) MutationRequestCallback.setCb 1000]
        exampleState) := by
  obtain ⟨s1, h1, h2, _⟩ := saveDocs_split_eq_atomic
    ({ exampleStore with defaultWriteBufferSize := 50, seqnoWriteBufferSize := 50 })
    okEnv 0
    [RocksRequest.make (exampleItem 97 1 false) MutationRequestCallback.setCb 1000,
     RocksRequest.make (exampleItem 98 2 false) MutationRequestCallback.setCb 1000]
    exampleState (by decide) (by decide) (fun _ => rfl)
  exact ⟨s1, h1, h2⟩

/-! ## C7: set and delete outside and inside a transaction -/

/-- C7: with `in_transaction = false`, `set` and `del` throw a logic error and
leave the store, hence the pending-request buffer, as it was; with
`in_transaction = true` each returns normally and the buffer it leaves is the
old buffer with exactly one request, built from the item, added at its end. -/
theorem set_del_in_transaction (s : RocksDBKVStore) (item : Item) (now : Int) :
    (s.in_transaction = false →
      s.set item now = (some Exn.logic_error, s) ∧ s.del item now = (some Exn.logic_error, s) ∧
      (s.set item now).2.pendingReqs = s.pendingReqs ∧
      (s.del item now).2.pendingReqs = s.pendingReqs) ∧
    (s.in_transaction = true →
      (s.set item now).1 = none ∧
      (s.set item now).2.pendingReqs =
        s.pendingReqs ++ [RocksRequest.make item MutationRequestCallback.setCb now] ∧
      (s.del item now).1 = none ∧
      (s.del item now).2.pendingReqs =
        s.pendingReqs ++ [RocksRequest.make item MutationRequestCallback.delCb now] ∧
      (s.set item now).2.pendingReqs.length = s.pendingReqs.length + 1 ∧
      (s.del item now).2.pendingReqs.length = s.pendingReqs.length + 1) := by
  constructor
  · intro h
    simp [RocksDBKVStore.set, RocksDBKVStore.del, h]
  · intro h
    simp [RocksDBKVStore.set, RocksDBKVStore.del, h]

/-- Witness of C7: outside a transaction on the example store, inside one after
`begin()`. -/
theorem set_del_in_transaction_witness :
    exampleStore.in_transaction = false ∧
    exampleStore.set (exampleItem 107 1 false) 1000 = (some Exn.logic_error, exampleStore) ∧
    (exampleStore.begin none).2.in_transaction = true ∧
    ((exampleStore.begin none).2.del (exampleItem 107 2 true) 1000).2.pendingReqs =
      [RocksRequest.make (exampleItem 107 2 true) MutationRequestCallback.delCb 1000] :=
  ⟨rfl,
   ((set_del_in_transaction exampleStore (exampleItem 107 1 false) 1000).1 rfl).1,
   rfl,
   ((set_del_in_transaction (exampleStore.begin none).2 (exampleItem 107 2 true) 1000).2 rfl).2.2.2.1⟩

/-! ## C8: rollback -/

/-- C8, as stated, fails: after `begin()`, `set(item)` and `rollback()` on the
example store the request is still queued, and a following `begin()`,
`commit()` writes it: the database of vBucket 0 is no longer what it was before
the rolled-back transaction, and `get` finds the key. -/
theorem rollback_keeps_pending_counterexample :
    rolledBackStore.pendingReqs =
      [RocksRequest.make (exampleItem 107 1 false) MutationRequestCallback.setCb 1000] ∧
    ((rolledBackStore.begin none).2.commit okEnv).1 = CommitResult.returned true ∧
    ((rolledBackStore.begin none).2.commit okEnv).2.1.vbDB 0 ≠ exampleStore.vbDB 0 ∧
    ((((rolledBackStore.begin none).2.commit okEnv).2.1.get
        { data := [107], ns := DocNamespace.DefaultCollection } 0 false).toOption.map
      (fun gv => gv.status)) = some ENGINE_ERROR_CODE.ENGINE_SUCCESS := by
  decide

/-- C8 (amended): `rollback()` leaves `in_transaction = false` and changes
neither the pending-request buffer nor any database: the durable store equals
what it was, and the requests queued before the rollback are still queued when
the next transaction begins. -/
theorem rollback_keeps_store (s : RocksDBKVStore) (txCtx : Option Nat) :
    s.rollback.in_transaction = false ∧
    s.rollback.pendingReqs = s.pendingReqs ∧
    s.rollback.vbDB = s.vbDB ∧
    (s.rollback.begin txCtx).2.pendingReqs = s.pendingReqs ∧
    (s.rollback.begin txCtx).2.vbDB = s.vbDB := by
  unfold RocksDBKVStore.rollback RocksDBKVStore.begin
  cases h : s.in_transaction <;> simp [h]

/-! ## C9: a failing write during commit -/

/-- C9, as stated, fails: with one request queued and every write failing with
an I/O error, `commit` raises a runtime error (thrown by `getMutationStatus`
inside `commitCallback`) instead of returning failure. -/
theorem commit_failure_raises_counterexample :
    (storeWithPending [exampleItem 107 1 false]).in_transaction = true ∧
    (storeWithPending [exampleItem 107 1 false]).pendingReqs ≠ [] ∧
    ((storeWithPending [exampleItem 107 1 false]).commit (failEnv Code.kIOError)).1
      = CommitResult.threw Exn.runtime_error := by
  decide

/-- C9 (amended): for every open transaction with a request queued, when
`saveDocs` hands back a failing status (the status of one of its batch writes,
intermediate or final), `commit` leaves `in_transaction = true`; it returns
failure when that status is not-found or busy, and raises a runtime error for
every other failing status. -/
theorem commit_failure (s s2 : RocksDBKVStore) (env : WriteEnv) (status : Code)
    (hin : s.in_transaction = true) (hne : s.pendingReqs ≠ [])
    (hs : ({ s with pendingReqs := [] } : RocksDBKVStore).saveDocs env
      s.commitVBucket s.pendingReqs = Except.ok (status, s2))
    (hfail : status ≠ Code.kOk) :
    (∃ n, env.writeStatus n = status) ∧
    (s.commit env).2.1.in_transaction = true ∧
    (s.commit env).1 =
      (if status = Code.kNotFound ∨ status = Code.kBusy then CommitResult.returned false
       else CommitResult.threw Exn.runtime_error) := by
  obtain ⟨hn, hin2, _, _, _⟩ := saveDocs_failed _ _ _ _ _ _ hfail hs
  simp only at hin2
  refine ⟨hn, ?_⟩
  rw [commit_eq s env hin hne, hs]
  simp only [commitCallback_exn _ _ _ hne]
  cases status <;> simp_all [getMutationStatus, Code.ok]

/-- Witness of C9 (amended): three requests, the batch is split after the
second, the first write succeeds and the final write fails with busy;
`commit` returns failure and the transaction stays open. -/
theorem commit_failure_witness :
    (∃ n, (failLaterEnv Code.kBusy).writeStatus n = Code.kBusy) ∧
    ((storeWithPending [exampleItem 97 1 false, exampleItem 98 2 false,
        exampleItem 99 3 false]).commit (failLaterEnv Code.kBusy)).2.1.in_transaction = true ∧
    ((storeWithPending [exampleItem 97 1 false, exampleItem 98 2 false,
        exampleItem 99 3 false]).commit (failLaterEnv Code.kBusy)).1
      = CommitResult.returned false :=
  commit_failure
    (storeWithPending [exampleItem 97 1 false, exampleItem 98 2 false, exampleItem 99 3 false])
    { (storeWithPending []).setDB 0
        ((exampleStore.vbDB 0).write
          ([exampleItem 97 1 false, exampleItem 98 2 false].foldl
            (fun b i => addRequestToWriteBatch b
              (RocksRequest.make i MutationRequestCallback.setCb 1000)) [])) with
      pendingReqs := [] }
    (failLaterEnv Code.kBusy) Code.kBusy (by decide) (by decide) (by rfl) (by decide)

/-! ## C10: commit with nothing queued -/

/-- C10: for every store whose pending-request buffer is empty, `commit`
returns success, invokes no callback and leaves every database unchanged; and
when `begin()`, `set(x)`, `commit()` has returned success, a second `commit()`
returns success and leaves the store exactly as it was. -/
theorem commit_empty_noop (s : RocksDBKVStore) (env : WriteEnv) :
    (s.pendingReqs = [] →
      (s.commit env).1 = CommitResult.returned true ∧ (s.commit env).2.1.vbDB = s.vbDB ∧
      (s.commit env).2.2 = []) ∧
    (∀ (txCtx : Option Nat) (x : Item) (now : Int) (env2 : WriteEnv),
      (((s.begin txCtx).2.set x now).2.commit env).1 = CommitResult.returned true →
      ((((s.begin txCtx).2.set x now).2.commit env).2.1.commit env2) =
        (CommitResult.returned true, (((s.begin txCtx).2.set x now).2.commit env).2.1, [])) := by
  constructor
  · intro h
    unfold RocksDBKVStore.commit
    cases hin : s.in_transaction <;> simp [h]
  · intro txCtx x now env2 h
    have hin : ((s.begin txCtx).2.set x now).2.in_transaction = true := by
      simp [RocksDBKVStore.begin, RocksDBKVStore.set]
    have key := (commit_returned_true _ env (Or.inr hin) h).1
    generalize ((((s.begin txCtx).2.set x now).2.commit env).2.1) = s3 at key
    simp [RocksDBKVStore.commit, key]

/-- Witness of C10: the example store has nothing queued; and after `begin()`,
`set`, `commit()` on it a second `commit()` returns success. -/
theorem commit_empty_noop_witness :
    exampleStore.pendingReqs = [] ∧
    (exampleStore.commit okEnv).1 = CommitResult.returned true ∧
    ((((exampleStore.begin none).2.set (exampleItem 107 1 false) 1000).2.commit okEnv).2.1.commit
      okEnv).1 = CommitResult.returned true :=
  ⟨rfl, ((commit_empty_noop exampleStore okEnv).1 rfl).1,
    by rw [(commit_empty_noop exampleStore okEnv).2 none (exampleItem 107 1 false) 1000 okEnv
      (by decide)]⟩

/-! ## C11: the mapping of a storage status -/

/-- C11: `getMutationStatus` gives `MUTATION_SUCCESS` for ok, `DOC_NOT_FOUND`
for not-found and `MUTATION_FAILED` for busy, and for every other status code
it throws a runtime error instead of returning a result. -/
theorem getMutationStatus_cases :
    getMutationStatus Code.kOk = Except.ok MUTATION_SUCCESS ∧
    getMutationStatus Code.kNotFound = Except.ok DOC_NOT_FOUND ∧
    getMutationStatus Code.kBusy = Except.ok MUTATION_FAILED ∧
    ∀ status : Code, status ≠ Code.kOk → status ≠ Code.kNotFound → status ≠ Code.kBusy →
      getMutationStatus status = Except.error Exn.runtime_error := by
  refine ⟨rfl, rfl, rfl, ?_⟩
  intro status h1 h2 h3
  cases status <;> first | rfl | exact absurd rfl h1 | exact absurd rfl h2 | exact absurd rfl h3

/-- Witness of C11: an I/O error is none of ok, not-found and busy, and makes
`getMutationStatus` throw. -/
theorem getMutationStatus_cases_witness :
    getMutationStatus Code.kIOError = Except.error Exn.runtime_error :=
  getMutationStatus_cases.2.2.2 Code.kIOError (by decide) (by decide) (by decide)

/-! ## C12: the metadata record read back -/

/-- C12: for every metadata value whose fields fit their C++ types (1-bit
deleted, 7-bit version, 8-bit datatype, 32-bit flags and value size, 64-bit
exptime, cas, rev_seqno and by_seqno), decoding the bytes `getDocMetaSlice`
wraps, followed by any body, as `makeItem` does, gives back the same value in
every field, the deleted bit included. -/
theorem metadata_roundtrip (m : MetaData) (body : Bytes) (h : m.WF) :
    MetaData.decode (m.encode ++ body) = m ∧
    (MetaData.decode (m.encode ++ body)).deleted = m.deleted ∧
    (MetaData.decode (m.encode ++ body)).version = m.version ∧
    (m.encode ++ body).length = sizeofMetaData + body.length := by
  rw [MetaData.decode_encode m body h]
  exact ⟨rfl, rfl, rfl, by simp [MetaData.encode_length]⟩

/-- Witness of C12: a deleted record of version 5 with every field at the top
of its range and a negative by_seqno. -/
theorem metadata_roundtrip_witness :
    MetaData.decode
      (({ deleted := true, version := 5, datatype := 255, flags := 4294967295,
          valueSize := 3, exptime := -1, cas := 18446744073709551615,
          revSeqno := 7, bySeqno := -9223372036854775808 } : MetaData).encode ++ [1, 2, 3])
      = { deleted := true, version := 5, datatype := 255, flags := 4294967295,
          valueSize := 3, exptime := -1, cas := 18446744073709551615,
          revSeqno := 7, bySeqno := -9223372036854775808 } :=
  (metadata_roundtrip _ [1, 2, 3] (by unfold MetaData.WF; norm_num)).1

/-! ## C13: the state blob read back -/

set_option maxRecDepth 100000 in
/-- C13, as stated, fails for the purge seqno: a state with purge seqno 7 is
written by `saveVBStateToBatch` and read back by `readVBState`, the blob being
parsed from its chars; the state read has purge seqno 0 (its max cas, 12, is
read back). It also fails for a failover table that is not in the form the
library prints: the table `[] `, an empty array and a blank, is read back as
`[]`. -/
theorem vbstate_purge_seqno_counterexample :
    purgedState.purgeSeqno = 7 ∧
    (readVBStateValue (cJSON_Parse flatArray)
      (KVRocksDB.empty.write (saveVBStateToBatch purgedState []))).toOption.map
      (fun st => (st.purgeSeqno, st.maxCas)) = some (0, 12) ∧
    blankFailoverState.failovers = "[] " ∧
    (readVBStateValue (cJSON_Parse flatArray)
      (KVRocksDB.empty.write (saveVBStateToBatch blankFailoverState []))).toOption.map
      (fun st => st.failovers) = some "[]" := by
  decide

/-- C13 (amended): for every vBucket state whose members fit their C++ types
and whose failover table is empty or an array the JSON library prints back as
it reads it, writing the batch of `saveVBStateToBatch` and reading the state
back with `readVBState`, which parses the chars of the blob with `cJSON_Parse`,
caches a state equal to the original in state, checkpoint id, max deleted
seqno, failover table, snap start, snap end, max cas, hlc-epoch seqno and
might-contain-xattrs; its purge seqno is 0 and its high seqno is the one read
from disk, neither being part of the blob. -/
theorem vbstate_roundtrip (s : RocksDBKVStore)
    (library : List Char → Option (cJSON × List Char))
    (vbid : Nat) (vbState : vbucket_state) (hwf : vbState.WF)
    (hfo : FailoverTableUnformatted library vbState.failovers) :
    ∃ s1 st,
      (s.setDB vbid ((s.vbDB vbid).write (saveVBStateToBatch vbState []))).readVBState
        (cJSON_Parse library) vbid = Except.ok s1 ∧
      s1.cachedVBStates vbid = some st ∧
      st.state = vbState.state ∧ st.checkpointId = vbState.checkpointId ∧
      st.maxDeletedSeqno = vbState.maxDeletedSeqno ∧ st.failovers = vbState.failovers ∧
      st.lastSnapStart = vbState.lastSnapStart ∧ st.lastSnapEnd = vbState.lastSnapEnd ∧
      st.maxCas = vbState.maxCas ∧ st.hlcCasEpochSeqno = vbState.hlcCasEpochSeqno ∧
      st.mightContainXattrs = vbState.mightContainXattrs ∧
      st.purgeSeqno = 0 ∧ st.highSeqno = readHighSeqnoFromDisk (s.vbDB vbid) := by
  have hget : ((s.vbDB vbid).write (saveVBStateToBatch vbState [])).localCF.get getVbstateKey
      = some (vbstateJSON vbState) := by
    simp [saveVBStateToBatch, KVRocksDB.write, KVRocksDB.applyOp, ColumnFamily.put,
      ColumnFamily.get]
  have hhigh : readHighSeqnoFromDisk ((s.vbDB vbid).write (saveVBStateToBatch vbState []))
      = readHighSeqnoFromDisk (s.vbDB vbid) := by
    simp [saveVBStateToBatch, KVRocksDB.write, KVRocksDB.applyOp, readHighSeqnoFromDisk,
      KVRocksDB.seqnoKeys]
  have h := readVBStateValue_roundtrip library _ vbState hwf hfo hget
  refine ⟨{ s.setDB vbid ((s.vbDB vbid).write (saveVBStateToBatch vbState [])) with
      cachedVBStates := fun v =>
        if v = vbid then
          some { vbState with highSeqno := readHighSeqnoFromDisk (s.vbDB vbid), purgeSeqno := 0 }
        else s.cachedVBStates v },
    { vbState with highSeqno := readHighSeqnoFromDisk (s.vbDB vbid), purgeSeqno := 0 },
    ?_, ?_, rfl, rfl, rfl, rfl, rfl, rfl, rfl, rfl, rfl, rfl, rfl⟩
  · simp only [RocksDBKVStore.readVBState, RocksDBKVStore.openDB, RocksDBKVStore.setDB, if_true,
      h, hhigh]
  · simp

set_option maxRecDepth 100000 in
/-- Witness of C13 (amended): an active state with max cas 12, the
uninitialised hlc-epoch seqno and a failover table of one entry, on the example
store. -/
theorem vbstate_roundtrip_witness :
    ∃ s1 st,
      (exampleStore.setDB 0 ((exampleStore.vbDB 0).write
        (saveVBStateToBatch failoverState []))).readVBState (cJSON_Parse flatArray) 0
        = Except.ok s1 ∧
      s1.cachedVBStates 0 = some st ∧
      st.state = vbucket_state_t.vbucket_state_active ∧ st.maxCas = 12 ∧
      st.hlcCasEpochSeqno = -1 ∧
      st.failovers = "[\x7b\"id\":1,\"seq\":0\x7d]" := by
  obtain ⟨s1, st, h1, h2, h3, -, -, h6, -, -, h4, h5, -⟩ := vbstate_roundtrip exampleStore
    flatArray 0 failoverState (by unfold vbucket_state.WF; decide)
    (flatArray_unformatted
      ['\x7b', '"', 'i', 'd', '"', ':', '1', ',', '"', 's', 'e', 'q', '"', ':', '0', '\x7d']
      (by decide))
  exact ⟨s1, st, h1, h2, h3, h4, h5, h6⟩

/-! ## C14: the decay of missing optional fields -/

/-- C14: for every stored state blob whose parsed object carries `state`,
`checkpoint_id` and `max_deleted_seqno` (non-empty strings, the last two
numbers), `readVBState` caches a state in which a missing `snap_start` or
`snap_end` is the high seqno read from disk, a missing `max_cas` is 0, a
missing `hlc_epoch` is the uninitialised sentinel, and every member that is
present is the one of the blob: the state named, the numbers read from the
texts, the xattrs flag and the printed failover table. Each optional numeric
member is given as `none` when missing and as its text and number when
present. -/
theorem readVBState_decay (s : RocksDBKVStore) (cJSON_Parse : String → Option cJSONObject)
    (vbid : Nat) (text vb_state checkpoint_id max_deleted_seqno : String)
    (checkpointId maxDeletedSeqno : Nat)
    (snapStart snapEnd maxCas hlcEpoch : Option (String × Nat)) (xattrs : Option Bool)
    (failover : Option cJSON)
    (hget : (s.openDB vbid).localCF.get getVbstateKey = some text)
    (hstate : cJSON_GetObjectItem (cJSON_Parse text) "state" = some (cJSON.cJSON_String vb_state))
    (hstate1 : vb_state ≠ "")
    (hcp : cJSON_GetObjectItem (cJSON_Parse text) "checkpoint_id"
      = some (cJSON.cJSON_String checkpoint_id))
    (hcp1 : checkpoint_id ≠ "") (hcp2 : stoull checkpoint_id = Except.ok checkpointId)
    (hmd : cJSON_GetObjectItem (cJSON_Parse text) "max_deleted_seqno"
      = some (cJSON.cJSON_String max_deleted_seqno))
    (hmd1 : max_deleted_seqno ≠ "") (hmd2 : stoull max_deleted_seqno = Except.ok maxDeletedSeqno)
    (hss : cJSON_GetObjectItem (cJSON_Parse text) "snap_start"
      = snapStart.map (fun p => cJSON.cJSON_String p.1))
    (hss1 : ∀ p, snapStart = some p → p.1 ≠ "" ∧ stoull p.1 = Except.ok p.2)
    (hse : cJSON_GetObjectItem (cJSON_Parse text) "snap_end"
      = snapEnd.map (fun p => cJSON.cJSON_String p.1))
    (hse1 : ∀ p, snapEnd = some p → p.1 ≠ "" ∧ stoull p.1 = Except.ok p.2)
    (hmc : cJSON_GetObjectItem (cJSON_Parse text) "max_cas"
      = maxCas.map (fun p => cJSON.cJSON_String p.1))
    (hmc1 : ∀ p, maxCas = some p → p.1 ≠ "" ∧ stoull p.1 = Except.ok p.2)
    (hhe : cJSON_GetObjectItem (cJSON_Parse text) "hlc_epoch"
      = hlcEpoch.map (fun p => cJSON.cJSON_String p.1))
    (hhe1 : ∀ p, hlcEpoch = some p → p.1 ≠ "" ∧ stoull p.1 = Except.ok p.2)
    (hxa : cJSON_GetObjectItem (cJSON_Parse text) "might_contain_xattrs"
      = xattrs.map (fun b => if b then cJSON.cJSON_True else cJSON.cJSON_False))
    (hfo : cJSON_GetObjectItem (cJSON_Parse text) "failover_table" = failover) :
    ∃ s1 st, s.readVBState cJSON_Parse vbid = Except.ok s1 ∧
      s1.cachedVBStates vbid = some st ∧
      st.lastSnapStart
        = (snapStart.map (fun p => p.2)).getD (toU64 (readHighSeqnoFromDisk (s.openDB vbid))) ∧
      st.lastSnapEnd
        = (snapEnd.map (fun p => p.2)).getD (toU64 (readHighSeqnoFromDisk (s.openDB vbid))) ∧
      st.maxCas = (maxCas.map (fun p => p.2)).getD 0 ∧
      st.hlcCasEpochSeqno = (hlcEpoch.map (fun p => toI64 p.2)).getD HlcCasSeqnoUninitialised ∧
      st.state = VBucket.fromString vb_state ∧ st.checkpointId = checkpointId ∧
      st.maxDeletedSeqno = maxDeletedSeqno ∧
      st.mightContainXattrs = xattrs.getD false ∧
      st.failovers = (failover.map cJSON_PrintUnformatted).getD "" ∧
      st.highSeqno = readHighSeqnoFromDisk (s.openDB vbid) := by
  have h := readVBStateValue_of_members cJSON_Parse (s.openDB vbid) text vb_state checkpoint_id
    max_deleted_seqno checkpointId maxDeletedSeqno snapStart snapEnd maxCas hlcEpoch xattrs
    failover hget hstate hstate1 hcp hcp1 hcp2 hmd hmd1 hmd2 hss hss1 hse hse1 hmc hmc1 hhe hhe1
    hxa hfo
  have key : ∃ st, readVBStateValue cJSON_Parse (s.openDB vbid) = Except.ok st ∧
      st.lastSnapStart
        = (snapStart.map (fun p => p.2)).getD (toU64 (readHighSeqnoFromDisk (s.openDB vbid))) ∧
      st.lastSnapEnd
        = (snapEnd.map (fun p => p.2)).getD (toU64 (readHighSeqnoFromDisk (s.openDB vbid))) ∧
      st.maxCas = (maxCas.map (fun p => p.2)).getD 0 ∧
      st.hlcCasEpochSeqno = (hlcEpoch.map (fun p => toI64 p.2)).getD HlcCasSeqnoUninitialised ∧
      st.state = VBucket.fromString vb_state ∧ st.checkpointId = checkpointId ∧
      st.maxDeletedSeqno = maxDeletedSeqno ∧
      st.mightContainXattrs = xattrs.getD false ∧
      st.failovers = (failover.map cJSON_PrintUnformatted).getD "" ∧
      st.highSeqno = readHighSeqnoFromDisk (s.openDB vbid) :=
    ⟨_, h, rfl, rfl, rfl, rfl, rfl, rfl, rfl, rfl, rfl, rfl⟩
  obtain ⟨st, hst, props⟩ := key
  exact ⟨{ s with cachedVBStates := fun v => if v = vbid then some st else s.cachedVBStates v },
    st, by simp only [RocksDBKVStore.readVBState, hst], by simp, props⟩

/-- Witness of C14: a blob that carries only `state`, `checkpoint_id` and
`max_deleted_seqno` in a database whose high seqno is 7; the state cached is
active with checkpoint id 3, both snapshot ends at 7, max cas 0 and the
sentinel as hlc epoch. -/
theorem readVBState_decay_witness :
    ∃ s1 st, (storeWithSnapshot minimalStateDB).readVBState minimalBlobParser 0 = Except.ok s1 ∧
      s1.cachedVBStates 0 = some st ∧
      st.lastSnapStart = 7 ∧ st.lastSnapEnd = 7 ∧ st.maxCas = 0 ∧
      st.hlcCasEpochSeqno = HlcCasSeqnoUninitialised ∧
      st.state = vbucket_state_t.vbucket_state_active ∧ st.checkpointId = 3 := by
  obtain ⟨s1, st, h1, h2, h3, h4, h5, h6, h7, h8, -⟩ := readVBState_decay
    (storeWithSnapshot minimalStateDB) minimalBlobParser 0 minimalBlob "active" "3" "0" 3 0
    none none none none none none
    (by decide) (by decide) (by decide) (by decide) (by decide) rfl (by decide)
    (by decide) rfl (by decide) (by simp) (by decide) (by simp) (by decide) (by simp)
    (by decide) (by simp) (by decide) (by decide)
  exact ⟨s1, st, h1, h2, h3, h4, h5, h6, h7, h8⟩

/-! ## C15: a state blob that fails to parse -/

set_option maxRecDepth 100000 in
/-- Counterexample to C16 as stated: with four vBuckets configured and one
vBucket, 1, discovered on disk, the list of `listPersistedVbuckets` has four
entries, not one: a null entry stands for each of the vBuckets 0, 2 and 3.
And where the state saved for vBucket 1 before the shutdown had purge seqno 7,
the entry of vBucket 1 has purge seqno 0. -/
theorem listPersistedVbuckets_length_counterexample :
    discoverVBuckets exampleConfig ["db/rocksdb.1"] = [1] ∧
    ((RocksDBKVStore.create exampleConfig ["db/rocksdb.1"] (fun _ => KVRocksDB.empty)
        (cJSON_Parse flatArray)).toOption.map
      (fun s => s.listPersistedVbuckets.map (fun entry => entry.map (fun st => st.state))))
      = some [none, some vbucket_state_t.vbucket_state_dead, none, none] ∧
    purgedState.purgeSeqno = 7 ∧
    ((RocksDBKVStore.create exampleConfig ["db/rocksdb.1"]
        (fun _ => KVRocksDB.empty.write (saveVBStateToBatch purgedState []))
        (cJSON_Parse flatArray)).toOption.map
      (fun s => s.listPersistedVbuckets.map (fun entry => entry.map (fun st => st.purgeSeqno))))
      = some [none, some 0, none, none] := by
  decide

/-- C16 (amended): when every vBucket discovered on disk is one of the
configured vBuckets and has a readable state, the constructor, which parses
the chars of each state blob with `cJSON_Parse`, returns a store whose
`listPersistedVbuckets` has one entry for each configured vBucket
(`maxVBuckets` entries, in the order of the ids): the entry of a discovered
vBucket is the state `readVBState` reads from its database, and the entry of
a vBucket that was not discovered is null. Where the state blob in the
database of a discovered vBucket is the text `saveVBStateToBatch` wrote for a
state `vbState`, the last state saved before the shutdown, the entry equals
`vbState` but for the purge seqno, which is 0, and the high seqno, which is
read from the seqno column family. -/
theorem listPersistedVbuckets_after_create (config : KVStoreConfig) (vbDirs : List String)
    (disk : Nat → KVRocksDB) (library : List Char → Option (cJSON × List Char))
    (hrange : ∀ v ∈ discoverVBuckets config vbDirs, v < config.maxVBuckets)
    (hok : ∀ v ∈ discoverVBuckets config vbDirs,
      ∃ st, readVBStateValue (cJSON_Parse library) (disk v) = Except.ok st) :
    ∃ s, RocksDBKVStore.create config vbDirs disk (cJSON_Parse library) = Except.ok s ∧
      s.listPersistedVbuckets.length = config.maxVBuckets ∧
      (∀ v, v < config.maxVBuckets →
        s.listPersistedVbuckets[v]? = some
          (if v ∈ discoverVBuckets config vbDirs
           then (readVBStateValue (cJSON_Parse library) (disk v)).toOption else none)) ∧
      (∀ v vbState, v ∈ discoverVBuckets config vbDirs → vbState.WF →
        FailoverTableUnformatted library vbState.failovers →
        (disk v).localCF.get getVbstateKey = some (vbstateJSON vbState) →
        s.listPersistedVbuckets[v]? = some (some
          { vbState with highSeqno := readHighSeqnoFromDisk (disk v), purgeSeqno := 0 })) := by
  obtain ⟨s, h1, h2, h3, h4⟩ := foldlM_readVBState (cJSON_Parse library)
    (discoverVBuckets config vbDirs)
    { vbDB := disk
      cachedVBStates := fun _ => none
      in_transaction := false
      transactionCtx := none
      pendingReqs := []
      scanCounter := 0
      scanSnapshots := []
      defaultWriteBufferSize := config.defaultWriteBufferSize
      seqnoWriteBufferSize := config.seqnoWriteBufferSize
      maxVBuckets := config.maxVBuckets } hok
  have hentry : ∀ v, v < config.maxVBuckets →
      s.listPersistedVbuckets[v]? = some
        (if v ∈ discoverVBuckets config vbDirs
         then (readVBStateValue (cJSON_Parse library) (disk v)).toOption else none) := by
    intro v hv
    have hv1 : v < s.maxVBuckets := by rw [h3]; exact hv
    simp only [RocksDBKVStore.listPersistedVbuckets, List.getElem?_map,
      List.getElem?_range hv1, Option.map_some', h4 v]
  refine ⟨s, h1, ?_, hentry, ?_⟩
  · simp only [RocksDBKVStore.listPersistedVbuckets, List.length_map, List.length_range, h3]
  · intro v vbState hv hwf hfo hget
    rw [hentry v (hrange v hv), if_pos hv,
      readVBStateValue_roundtrip library (disk v) vbState hwf hfo hget]
    rfl

set_option maxRecDepth 100000 in
/-- Witness of C16 (amended): four vBuckets configured; before the shutdown
one item was committed to vBucket 0 at seqno 7, which saved the state of the
vBucket with it, and the directory of vBucket 0 is the one discovered at the
restart. -/
theorem listPersistedVbuckets_after_create_witness :
    ∃ s, RocksDBKVStore.create exampleConfig ["db/rocksdb.0"]
        (storeAfterCommit [exampleItem 97 7 false]).vbDB (cJSON_Parse flatArray) = Except.ok s ∧
      s.listPersistedVbuckets.length = 4 ∧
      s.listPersistedVbuckets[0]? = some (some { exampleState with highSeqno := 7 }) ∧
      s.listPersistedVbuckets[1]? = some none := by
  have hd : discoverVBuckets exampleConfig ["db/rocksdb.0"] = [0] := by decide
  have hwf : exampleState.WF := by unfold vbucket_state.WF; decide
  have hget : ((storeAfterCommit [exampleItem 97 7 false]).vbDB 0).localCF.get getVbstateKey
      = some (vbstateJSON exampleState) := by decide
  have hhigh : readHighSeqnoFromDisk ((storeAfterCommit [exampleItem 97 7 false]).vbDB 0) = 7 := by
    decide
  obtain ⟨s, h1, h2, h3, h4⟩ := listPersistedVbuckets_after_create exampleConfig
    ["db/rocksdb.0"] (storeAfterCommit [exampleItem 97 7 false]).vbDB flatArray
    (by rw [hd]; intro v hv; simp at hv; subst hv; decide)
    (by
      rw [hd]
      intro v hv
      simp at hv
      subst hv
      exact ⟨_, readVBStateValue_roundtrip _ _ exampleState hwf (Or.inl rfl) hget⟩)
  refine ⟨s, h1, h2, ?_, ?_⟩
  · have := h4 0 exampleState (by rw [hd]; simp) hwf (Or.inl rfl) hget
    rw [this, hhigh]
    rfl
  · have := h3 1 (by decide)
    rw [this, hd]
    simp

/-! ## C17: the vBuckets discovered in the data directory -/

/-- C18: a scan whose document filter is NoDeletes passes no record with the
deleted flag set to the value callback; and a scan whose document filter is
IncludeDeletes (`ALL_ITEMS`), opened on a snapshot that holds the tombstone of a
key (a record with the deleted flag whose by_seqno is the seqno of its mapping,
within the range of the scan), passes that tombstone to the value callback with
`deleted = true` and the by_seqno of the delete, when the callbacks accept
every record and the scan returns success. -/
theorem scan_delete_filter :
    (∀ (σ : Type) (s : RocksDBKVStore) (cbs : ScanCallbacks σ) (iterFail : Option Nat)
        (ctx : ScanContext) (st : σ),
      ctx.docFilter = DocumentFilter.NO_DELETES →
      ∀ it ∈ delivered (s.scan cbs iterFail (some ctx) st).events, it.deleted = false) ∧
    (∀ (σ : Type) (s : RocksDBKVStore) (cbs : ScanCallbacks σ) (ctx : ScanContext) (st : σ)
        (snap : KVRocksDB) (q : Int) (k rec : Bytes),
      s.scanSnapshots.lookup ctx.scanId = some snap →
      ctx.docFilter = DocumentFilter.ALL_ITEMS →
      ctx.lastReadSeqno = 0 → ctx.maxSeqno ≠ 0 →
      ctx.startSeqno ≤ q → q ≤ ctx.maxSeqno →
      snap.seqnoCF.get q = some k → snap.defaultCF.get k = some rec →
      sizeofMetaData ≤ rec.length →
      (MetaData.decode rec).deleted = true → (MetaData.decode rec).bySeqno = q →
      (∀ st1 c, (cbs.lookup st1 c).2 ≠ ENGINE_ERROR_CODE.ENGINE_KEY_EEXISTS ∧
        (cbs.lookup st1 c).2 ≠ ENGINE_ERROR_CODE.ENGINE_ENOMEM) →
      (∀ st1 rv, (cbs.callback st1 rv).2 ≠ ENGINE_ERROR_CODE.ENGINE_ENOMEM) →
      (s.scan cbs none (some ctx) st).result = ScanResult.returned scan_error_t.scan_success →
      ∃ it ∈ delivered (s.scan cbs none (some ctx) st).events,
        it.deleted = true ∧ it.bySeqno = q ∧ it.key.data = k) := by
  constructor
  · intro σ s cbs iterFail ctx st hf it hit
    rcases scan_events_eq s cbs iterFail ctx st with ⟨h, _⟩ | ⟨snap, es, _, h, _⟩
    · rw [h] at hit; simp [delivered] at hit
    · rw [h] at hit
      obtain ⟨e, _, hc⟩ := scanLoop_delivered_candidate snap cbs ctx es _ st it hit
      exact scanEntry_candidate_deleted snap ctx e it hc hf
  · intro σ s cbs ctx st snap q k rec hsnap hf hlr hmax hstart hq hmap hrec hlen hdel hby hl hc hres
    have hne : ctx.lastReadSeqno ≠ ctx.maxSeqno := by rw [hlr]; exact fun h => hmax h.symm
    rw [scan_eq_loop s cbs ctx st snap hne hsnap] at hres ⊢
    simp only [hlr, ne_eq, not_true_eq_false, if_false] at hres ⊢
    obtain ⟨itm, hcand, hd, hb, hk⟩ := scanEntry_of_record snap ctx q k rec hrec hlen hby (Or.inl hf)
    refine ⟨itm, ?_, by rw [hd, hdel], hb, hk⟩
    apply scanLoop_delivers snap cbs ctx _ 0 st hl hc (seekSeqno_sorted snap _) ?_ (q, k) itm
      ((mem_seekSeqno snap _ q k).mpr ⟨hstart, hmap⟩) hq hcand
    have hret := scanLoop_returned snap cbs ctx (snap.seekSeqno ctx.startSeqno) 0 st
    generalize (scanLoop snap cbs ctx (snap.seekSeqno ctx.startSeqno) 0 st).loopEnd = le
      at hres hret
    cases le with
    | invalid => exact Or.inl rfl
    | pastEnd => exact Or.inr rfl
    | returned e =>
      simp only [ScanResult.returned.injEq] at hres
      have := hret e rfl
      rw [hres] at this
      exact scan_error_t.noConfusion this
    | threw e => exact ScanResult.noConfusion hres

set_option maxRecDepth 8000 in
/-- Witness of C18: scenario 2 of the spec. Key `k` is set at seqno 1 and
deleted at seqno 2; with NoDeletes the scan delivers no deleted record, with
IncludeDeletes it delivers the tombstone, `deleted = true` at seqno 2. -/
theorem scan_delete_filter_witness :
    (∀ it ∈ delivered ((storeWithSnapshot scenario2DB).scan okCallbacks none
        (some { freshContext 0 2 with docFilter := DocumentFilter.NO_DELETES }) ()).events,
      it.deleted = false) ∧
    ∃ it ∈ delivered ((storeWithSnapshot scenario2DB).scan okCallbacks none
        (some (freshContext 0 2)) ()).events,
      it.deleted = true ∧ it.bySeqno = 2 ∧ it.key.data = [107] :=
  ⟨scan_delete_filter.1 Unit (storeWithSnapshot scenario2DB) okCallbacks none
      { freshContext 0 2 with docFilter := DocumentFilter.NO_DELETES } () rfl,
   scan_delete_filter.2 Unit (storeWithSnapshot scenario2DB) okCallbacks (freshContext 0 2) ()
      scenario2DB 2 [107]
      (RocksRequest.make (exampleItem 107 2 true) MutationRequestCallback.delCb 1001).defaultRecord.2
      (by decide) rfl rfl (by decide) (by decide) (by decide) (by decide) (by decide) (by decide)
      (by decide) (by decide)
      (fun _ _ => ⟨by simp [okCallbacks], by simp [okCallbacks]⟩)
      (fun _ _ => by simp [okCallbacks]) (by decide)⟩

/-! ## C19: a key without a record -/

/-- C19: for every key with no record in the default column family of the
database of `vbid`, `get` and `getWithHeader` (with either value of
`getMetaOnly` and of `fetchDelete`) return key-not-found and no item. -/
theorem get_missing_key (s : RocksDBKVStore) (key : DocKey) (vbid : Nat)
    (getMetaOnly : GetMetaOnly) (fetchDelete : Bool)
    (h : (s.openDB vbid).defaultCF.get (getKeySlice key) = none) :
    s.get key vbid fetchDelete =
      Except.ok { item := none, status := ENGINE_ERROR_CODE.ENGINE_KEY_ENOENT, id := -1,
                  onlyKeys := false } ∧
    s.getWithHeader key vbid getMetaOnly fetchDelete =
      Except.ok { item := none, status := ENGINE_ERROR_CODE.ENGINE_KEY_ENOENT, id := -1,
                  onlyKeys := false } := by
  simp [RocksDBKVStore.get, RocksDBKVStore.getWithHeader, h]

/-- Witness of C19: the key `b` after only the key `a` was committed. -/
theorem get_missing_key_witness :
    (storeAfterCommit [exampleItem 97 1 false]).get
        { data := [98], ns := DocNamespace.DefaultCollection } 0 false =
      Except.ok { item := none, status := ENGINE_ERROR_CODE.ENGINE_KEY_ENOENT, id := -1,
                  onlyKeys := false } :=
  (get_missing_key (storeAfterCommit [exampleItem 97 1 false])
    { data := [98], ns := DocNamespace.DefaultCollection } 0 GetMetaOnly.No false
    (by decide)).1

/-! ## C20: a scan that starts past the high seqno -/

/-- C20: for every vBucket with a cached state and every start seqno (a 64-bit
signed seqno) greater than the high seqno of that state, `initScanContext`
gives a context on which a call of `scan`, with an iterator that does not fail,
returns `scan_success` without a single call of the cache-lookup callback or
of the value callback. -/
theorem scan_past_high_seqno {σ : Type} (s : RocksDBKVStore) (cbs : ScanCallbacks σ) (st : σ)
    (vbid startSeqno : Nat) (options : DocumentFilter) (valOptions : ValueFilter)
    (vbstate : vbucket_state)
    (hvb : s.cachedVBStates vbid = some vbstate)
    (hhigh : -(2 ^ 63) ≤ vbstate.highSeqno ∧ vbstate.highSeqno < 2 ^ 63)
    (hstart : startSeqno < 2 ^ 63)
    (hgt : vbstate.highSeqno < startSeqno) :
    ∃ ctx s1, s.initScanContext vbid startSeqno options valOptions = some (ctx, s1) ∧
      ctx.startSeqno = startSeqno ∧ ctx.maxSeqno = vbstate.highSeqno ∧
      (s1.scan cbs none (some ctx) st).result = ScanResult.returned scan_error_t.scan_success ∧
      (s1.scan cbs none (some ctx) st).events = [] := by
  have hmax : toI64 (toU64 vbstate.highSeqno) = vbstate.highSeqno :=
    toI64_toU64 _ hhigh.1 hhigh.2
  have hst : toI64 (startSeqno % 2 ^ 64) = (startSeqno : Int) := by
    unfold toI64
    have h1 : startSeqno % 2 ^ 64 = startSeqno := Nat.mod_eq_of_lt (by omega)
    rw [h1, if_pos hstart]
  refine ⟨{ vbid := vbid, scanId := s.scanCounter, startSeqno := toI64 (startSeqno % 2 ^ 64),
            maxSeqno := toI64 (toU64 vbstate.highSeqno), lastReadSeqno := 0,
            docFilter := options, valFilter := valOptions,
            documentCount :=
              (toU64 vbstate.highSeqno + 2 ^ 64 - startSeqno % 2 ^ 64 + 1) % 2 ^ 64 },
    { s with scanCounter := s.scanCounter + 1,
             scanSnapshots := s.scanSnapshots ++ [(s.scanCounter, s.openDB vbid)] },
    by simp only [RocksDBKVStore.initScanContext, hvb], hst, hmax, ?_⟩
  simp only [hmax, hst]
  by_cases h0 : (0 : Int) = vbstate.highSeqno
  · simp [RocksDBKVStore.scan, h0]
  · obtain ⟨snap, hsnap⟩ := lookup_append_some s.scanSnapshots s.scanCounter (s.openDB vbid)
    rw [scan_eq_loop _ cbs _ st snap h0 hsnap]
    simp only [ne_eq, not_true_eq_false, if_false]
    have hge := seekSeqno_ge snap (startSeqno : Int)
    cases hes : snap.seekSeqno (startSeqno : Int) with
    | nil => simp [scanLoop]
    | cons e rest =>
      have : vbstate.highSeqno < e.1 := by
        have := hge e.1 (by rw [hes]; simp)
        omega
      rw [scanLoop_cons]
      simp [this]

/-- Witness of C20: the example store after seqnos up to 7 were committed, a
scan opened at seqno 8. -/
theorem scan_past_high_seqno_witness :
    ∃ ctx s1, (storeAfterCommit [exampleItem 97 5 false, exampleItem 98 3 false,
        exampleItem 99 7 false]).initScanContext 0 8 DocumentFilter.ALL_ITEMS ValueFilter.VALUES
        = some (ctx, s1) ∧
      (s1.scan okCallbacks none (some ctx) ()).result
        = ScanResult.returned scan_error_t.scan_success ∧
      (s1.scan okCallbacks none (some ctx) ()).events = [] := by
  obtain ⟨ctx, s1, h1, -, -, h2, h3⟩ := scan_past_high_seqno
    (storeAfterCommit [exampleItem 97 5 false, exampleItem 98 3 false, exampleItem 99 7 false])
    okCallbacks () 0 8 DocumentFilter.ALL_ITEMS ValueFilter.VALUES
    { exampleState with highSeqno := 7 } (by decide) (by decide) (by decide) (by decide)
  exact ⟨ctx, s1, h1, h2, h3⟩

/-! ## C21: the result of a scan and the status of the iterator -/

/-- Counterexample to C21 as stated: the iterator over scenario 3 of the spec
reports an error after its first entry; `scan` does not return `scan_failed`:
the closing `cb_assert` on the status of the iterator fails. -/
theorem scan_iterator_error_counterexample :
    ((storeWithSnapshot scenario3DB).scan okCallbacks (some 1)
        (some (freshContext 0 7)) ()).result = ScanResult.threw Exn.assertion ∧
    ((storeWithSnapshot scenario3DB).scan okCallbacks (some 1)
        (some (freshContext 0 7)) ()).result ≠ ScanResult.returned scan_error_t.scan_failed := by
  decide

/-- C21 (amended): `scan` returns `scan_failed` for a null context and for no
other; on a context with something left to read and a pinned snapshot, when
the loop runs until the iterator is no longer valid or past the end and the
iterator reports no error, `scan` returns `scan_success`; when the iterator
reports an error after `n` entries and the loop reaches that point, `scan`
does not return: the assertion on the status of the iterator fails. -/
theorem scan_iterator_status {σ : Type} (s : RocksDBKVStore) (cbs : ScanCallbacks σ)
    (ctx : ScanContext) (st : σ) (snap : KVRocksDB)
    (hne : ctx.lastReadSeqno ≠ ctx.maxSeqno)
    (hsnap : s.scanSnapshots.lookup ctx.scanId = some snap) :
    (∀ iterFail, (s.scan cbs iterFail none st).result
        = ScanResult.returned scan_error_t.scan_failed) ∧
    (∀ iterFail, (s.scan cbs iterFail (some ctx) st).result
        ≠ ScanResult.returned scan_error_t.scan_failed) ∧
    (((scanLoop snap cbs ctx (snap.seekSeqno
          (if ctx.lastReadSeqno ≠ 0 then ctx.lastReadSeqno + 1 else ctx.startSeqno))
          ctx.lastReadSeqno st).loopEnd = LoopEnd.invalid ∨
        (scanLoop snap cbs ctx (snap.seekSeqno
          (if ctx.lastReadSeqno ≠ 0 then ctx.lastReadSeqno + 1 else ctx.startSeqno))
          ctx.lastReadSeqno st).loopEnd = LoopEnd.pastEnd) →
      (s.scan cbs none (some ctx) st).result = ScanResult.returned scan_error_t.scan_success) ∧
    (∀ n, (scanLoop snap cbs ctx ((snap.seekSeqno
          (if ctx.lastReadSeqno ≠ 0 then ctx.lastReadSeqno + 1 else ctx.startSeqno)).take n)
          ctx.lastReadSeqno st).loopEnd = LoopEnd.invalid →
      (s.scan cbs (some n) (some ctx) st).result = ScanResult.threw Exn.assertion) := by
  refine ⟨fun _ => rfl, ?_, ?_, ?_⟩
  · intro iterFail
    simp only [RocksDBKVStore.scan, hne, if_false, hsnap, getSeqnoSlice]
    generalize hr : scanLoop snap cbs ctx _ ctx.lastReadSeqno st = r
    cases hle : r.loopEnd with
    | returned e =>
      have := scanLoop_returned _ _ _ _ _ _ _ (by rw [hr]; exact hle)
      subst this
      simp
    | threw e => simp
    | pastEnd => simp
    | invalid => cases iterFail <;> simp
  · intro hend
    rw [scan_eq_loop s cbs ctx st snap hne hsnap]
    rcases hend with h | h <;> simp only [h]
  · intro n hend
    simp only [RocksDBKVStore.scan, hne, if_false, hsnap, getSeqnoSlice, hend, Option.isSome_some,
      if_true]

set_option maxRecDepth 100000 in
/-- Witness of C21 (amended): scenario 3 of the spec; without an iterator
error the scan returns success, with an error after the first entry the
assertion fails. -/
theorem scan_iterator_status_witness :
    ((storeWithSnapshot scenario3DB).scan okCallbacks none
        (some (freshContext 0 7)) ()).result = ScanResult.returned scan_error_t.scan_success ∧
    ((storeWithSnapshot scenario3DB).scan okCallbacks (some 1)
        (some (freshContext 0 7)) ()).result = ScanResult.threw Exn.assertion := by
  obtain ⟨-, -, h3, h4⟩ := scan_iterator_status (storeWithSnapshot scenario3DB) okCallbacks
    (freshContext 0 7) () scenario3DB (by decide) (by decide)
  exact ⟨h3 (by decide), h4 1 (by decide)⟩

/-! ## C22: the completion callbacks of a commit -/

/-- Counterexample to C22 as stated: one `set` is queued and every write fails
with an I/O error; `commit` invokes no completion callback at all, since
`getMutationStatus` throws before the first one. -/
theorem commit_no_callback_counterexample :
    (storeWithPending [exampleItem 107 1 false]).pendingReqs.length = 1 ∧
    ((storeWithPending [exampleItem 107 1 false]).commit (failEnv Code.kIOError)).2.2 = [] ∧
    ((storeWithPending [exampleItem 107 1 false]).commit (failEnv Code.kIOError)).1
      = CommitResult.threw Exn.runtime_error := by
  decide

/-- C22 (amended): for every open transaction with requests queued whose
`saveDocs` hands back a status: when the status is ok, not-found or busy,
`commit` invokes one completion callback for each queued request, in queue
order and with the transaction context; the callback of a request that is not
a delete receives `(1, true)` whatever that status, and the callback of a
delete receives 1, or -1 when the status is busy. For every other status
`commit` invokes no callback and throws a runtime error. -/
theorem commit_callbacks (s s2 : RocksDBKVStore) (env : WriteEnv) (status : Code)
    (hin : s.in_transaction = true) (hne : s.pendingReqs ≠ [])
    (hs : ({ s with pendingReqs := [] } : RocksDBKVStore).saveDocs env
      s.commitVBucket s.pendingReqs = Except.ok (status, s2)) :
    (status = Code.kOk ∨ status = Code.kNotFound ∨ status = Code.kBusy →
      (s.commit env).2.2 = s.pendingReqs.map (fun r =>
        if r.deleted then
          CallbackEvent.delCallback r s.transactionCtx (if status = Code.kBusy then -1 else 1)
        else CallbackEvent.setCallback r s.transactionCtx (1, true))) ∧
    (¬ (status = Code.kOk ∨ status = Code.kNotFound ∨ status = Code.kBusy) →
      (s.commit env).2.2 = [] ∧ (s.commit env).1 = CommitResult.threw Exn.runtime_error) := by
  have htx : s2.transactionCtx = s.transactionCtx :=
    saveDocs_transactionCtx ({ s with pendingReqs := [] }) s2 env _ _ status hne hs
  rw [commit_eq s env hin hne, hs]
  simp only [htx]
  constructor
  · intro hst
    have hrv : ∃ rv, getMutationStatus status = Except.ok rv ∧
        (if rv ≠ -1 then 1 else rv) = (if status = Code.kBusy then (-1 : Int) else 1) := by
      rcases hst with h | h | h <;> subst h <;>
        simp [getMutationStatus, MUTATION_SUCCESS, DOC_NOT_FOUND, MUTATION_FAILED]
    obtain ⟨rv, h1, h2⟩ := hrv
    rw [commitCallback_events _ _ rv _ h1]
    simp only [h2]
    split_ifs <;> rfl
  · intro hst
    have herr : getMutationStatus status = Except.error Exn.runtime_error := by
      cases status <;> simp_all [getMutationStatus]
    cases hreqs : s.pendingReqs with
    | nil => exact absurd hreqs hne
    | cons r rest => simp [commitCallback, herr]

/-- Witness of C22 (amended): a `set` and a delete are queued and every write
fails with busy; the `set` callback receives `(1, true)` and the delete
callback receives -1, in this order. -/
theorem commit_callbacks_witness :
    ((((storeWithPending [exampleItem 97 1 false]).del (exampleItem 98 2 true) 1001).2.commit
        (failEnv Code.kBusy)).2.2)
      = [CallbackEvent.setCallback
          (RocksRequest.make (exampleItem 97 1 false) MutationRequestCallback.setCb 1000) none
          (1, true),
         CallbackEvent.delCallback
          (RocksRequest.make (exampleItem 98 2 true) MutationRequestCallback.delCb 1001) none
          (-1)] :=
  ((commit_callbacks ((storeWithPending [exampleItem 97 1 false]).del (exampleItem 98 2 true) 1001).2
    (({ ((storeWithPending [exampleItem 97 1 false]).del (exampleItem 98 2 true) 1001).2 with
      pendingReqs := [] } : RocksDBKVStore).setDB 0 (exampleStore.vbDB 0))
    (failEnv Code.kBusy) Code.kBusy (by decide) (by decide) (by rfl)).1
    (Or.inr (Or.inr rfl))).trans (by decide)

/-! ## C23: statistics aggregated across the vBuckets -/

set_option maxRecDepth 100000 in
/-- C23, evaluated where the code leaves it. Two vBuckets are open, the
statistics object counts 5 block-cache hits over both databases, and the
memtables of the default column family take 100 and 20 bytes. With `value`
holding 0, `getStat` reports 10 block-cache hits: the ticker of the shared
object is added once for each open database. With `value` holding 7 it
reports 127 bytes of memtables instead of 120, and 17 block-cache hits: what
`value` held before the call is added to. The memory-usage statistics assign
`value`, whatever it held. -/
theorem getStat_accumulates :
    (getStat exampleStats "rocksdb.block.cache.hit" 0).toOption = some (true, 10) ∧
    (getStat exampleStats "rocksdb.block.cache.hit" 7).toOption = some (true, 17) ∧
    (getStat exampleStats "default_kSizeAllMemTables" 0).toOption = some (true, 120) ∧
    (getStat exampleStats "default_kSizeAllMemTables" 7).toOption = some (true, 127) ∧
    (getStat exampleStats "kMemTableTotal" 7).toOption = some (true, 0) := by
  decide

/-! ## C24: deleting a vBucket while a scan is open -/

/-- Counterexample to C24 as stated: a scan is opened on vBucket 4 and its
context is kept; `delVBucket(4)` then returns, without waiting, with the
directory of the vBucket destroyed, while the snapshot of the scan is still
registered: the context holds no copy of the shared pointer. -/
theorem delVBucket_open_scan_counterexample :
    (exampleHandles.initScanContext 4).1 = 0 ∧
    (((exampleHandles.initScanContext 4).2.delVBucket 4 Code.kOk).1 = DelResult.returned) ∧
    (((exampleHandles.initScanContext 4).2.delVBucket 4 Code.kOk).2.directory 4 = false) ∧
    (((exampleHandles.initScanContext 4).2.delVBucket 4 Code.kOk).2.scanSnapshots = [(0, 4)]) := by
  decide

/-- C24 (amended): `delVBucket(v)` on a vBucket with a database waits as long
as a call in flight holds a copy of the shared pointer of that database, the
directory staying as it is; once no copy is left it destroys the database,
whatever scans are open: when `DestroyDB` succeeds it returns and the
directory `rocksdb.<v>` does not exist, otherwise it throws a runtime error.
Opening a scan leaves no copy of the shared pointer behind and destroying a
scan drops none, so an open scan context does not make `delVBucket` wait. -/
theorem delVBucket_waits_for_copies (h : VBucketHandles) (vbid : Nat) (destroyStatus : Code)
    (hopen : h.vbDB vbid = true) :
    (h.useCount vbid ≠ 0 →
      (h.delVBucket vbid destroyStatus).1 = DelResult.waiting ∧
      (h.delVBucket vbid destroyStatus).2.directory = h.directory) ∧
    (h.useCount vbid = 0 →
      (h.delVBucket vbid destroyStatus).2.scanSnapshots = h.scanSnapshots ∧
      (destroyStatus = Code.kOk →
        (h.delVBucket vbid destroyStatus).1 = DelResult.returned ∧
        (h.delVBucket vbid destroyStatus).2.directory vbid = false) ∧
      (destroyStatus ≠ Code.kOk →
        (h.delVBucket vbid destroyStatus).1 = DelResult.threw Exn.runtime_error)) ∧
    (∀ v, (h.initScanContext v).2.useCount = h.useCount) ∧
    (∀ scanId, (h.destroyScanContext scanId).useCount = h.useCount) := by
  refine ⟨?_, ?_, ?_, fun _ => rfl⟩
  · intro hc
    simp [VBucketHandles.delVBucket, hopen, hc]
  · intro hc
    refine ⟨?_, ?_, ?_⟩
    · simp only [VBucketHandles.delVBucket, hopen, hc]
      cases destroyStatus <;> simp [Code.ok]
    · intro hs
      subst hs
      simp [VBucketHandles.delVBucket, hopen, hc, Code.ok]
    · intro hs
      have : destroyStatus.ok = false := by simpa [Code.ok] using hs
      simp [VBucketHandles.delVBucket, hopen, hc, this]
  · intro v
    funext w
    simp only [VBucketHandles.initScanContext, VBucketHandles.release, VBucketHandles.openDB]
    split_ifs <;> omega

/-- Witness of C24 (amended): with a call in flight on vBucket 4 `delVBucket`
waits; once the call has dropped its copy, `delVBucket` returns and the
directory is gone, though a scan opened before is still open. -/
theorem delVBucket_waits_for_copies_witness :
    ((((exampleHandles.initScanContext 4).2.openDB 4).delVBucket 4 Code.kOk).1
      = DelResult.waiting) ∧
    ((((exampleHandles.initScanContext 4).2.openDB 4).release 4).delVBucket 4 Code.kOk).1
      = DelResult.returned ∧
    ((((exampleHandles.initScanContext 4).2.openDB 4).release 4).delVBucket 4
      Code.kOk).2.directory 4 = false ∧
    ((((exampleHandles.initScanContext 4).2.openDB 4).release 4).delVBucket 4
      Code.kOk).2.scanSnapshots = [(0, 4)] := by
  have h1 := (delVBucket_waits_for_copies ((exampleHandles.initScanContext 4).2.openDB 4) 4
    Code.kOk (by decide)).1 (by decide)
  have h2 := (delVBucket_waits_for_copies
    (((exampleHandles.initScanContext 4).2.openDB 4).release 4) 4 Code.kOk (by decide)).2.1
    (by decide)
  exact ⟨h1.1, (h2.2.1 rfl).1, (h2.2.1 rfl).2, h2.1.trans (by decide)⟩

/-! ## C25: the cached high seqno after a commit -/

set_option maxRecDepth 100000 in
/-- Counterexample to C26 as stated: on the empty vBucket 0 one transaction
queues key `k` at seqno 5 and then at seqno 3, and its commit returns true.
The seqnos are distinct and nothing was committed earlier, yet the mapping of
seqno 5 to `k` is ahead of the record of `k`, whose by_seqno is 3, and a scan
of the database throws the logic error of the index. -/
theorem scan_batch_order_counterexample :
    exampleStore.vbDB 0 = KVRocksDB.empty ∧
    (exampleStore.transaction okEnv [exampleSet 107 5, exampleSet 107 3]).1
      = CommitResult.returned true ∧
    ([exampleSet 107 5, exampleSet 107 3].map (fun m => m.item.bySeqno)).Nodup ∧
    ((exampleStore.transaction okEnv [exampleSet 107 5, exampleSet 107 3]).2.vbDB 0).seqnoCF.get 5
      = some [107] ∧
    (((exampleStore.transaction okEnv [exampleSet 107 5, exampleSet 107 3]).2.vbDB 0).defaultCF.get
      [107]).map (fun rec => (MetaData.decode rec).bySeqno) = some 3 ∧
    ((storeWithSnapshot
        ((exampleStore.transaction okEnv [exampleSet 107 5, exampleSet 107 3]).2.vbDB 0)).scan
        okCallbacks none (some (freshContext 0 7)) ()).result
      = ScanResult.threw Exn.logic_error := by
  decide

/-- C26 (amended): for every vBucket `v` whose database was built, from empty,
by transactions whose commits returned true, the by_seqno of each mutation
greater than that of every mutation of an earlier transaction, and two
mutations of one transaction for the same key queued in the order of their
by_seqnos: the record of the key of every seqno mapping has a by_seqno not
below the seqno of the mapping, and no call of `scan` on a snapshot of that
database throws the logic error of an index ahead of its record, whatever the
context, the callbacks and the iterator do. -/
theorem scan_never_corrupt {σ : Type} (s0 s sc : RocksDBKVStore) (env : WriteEnv)
    (txs : List (List Mutation)) (v : Nat) (cbs : ScanCallbacks σ) (iterFail : Option Nat)
    (ctx : ScanContext) (st : σ)
    (hempty : s0.vbDB v = KVRocksDB.empty) (hpend : s0.pendingReqs = [])
    (hbuilt : s0.transactions env txs = some s)
    (hitems : ∀ m ∈ txs.flatten, m.item.vbucketId = v ∧ m.item.WF ∧
      (-(2 ^ 63) ≤ m.now ∧ m.now < 2 ^ 63))
    (hearlier : txs.Pairwise (fun earlier later =>
      ∀ m ∈ earlier, ∀ n ∈ later, m.item.bySeqno < n.item.bySeqno))
    (hbatch : ∀ ops ∈ txs, ops.Pairwise (fun m n =>
      m.item.key.data = n.item.key.data → m.item.bySeqno < n.item.bySeqno))
    (hsnap : sc.scanSnapshots.lookup ctx.scanId = some (s.vbDB v)) :
    (∀ q k rec, (s.vbDB v).seqnoCF.get q = some k → (s.vbDB v).defaultCF.get k = some rec →
      q ≤ (MetaData.decode rec).bySeqno) ∧
    (sc.scan cbs iterFail (some ctx) st).result ≠ ScanResult.threw Exn.logic_error := by
  obtain ⟨hd, hs⟩ := transactions_db txs s0 s env v hpend
    (fun ops ho m hm => (hitems m (List.mem_flatten.mpr ⟨ops, ho, hm⟩)).1) hbuilt
  rw [hempty] at hd hs
  simp only [KVRocksDB.empty, List.append_nil, ← List.map_reverse] at hd hs
  have hflat : txs.flatten.Pairwise (fun m n =>
      m.item.key.data = n.item.key.data → m.item.bySeqno < n.item.bySeqno) := by
    rw [List.pairwise_flatten]
    exact ⟨hbatch, hearlier.imp (fun h m hm n hn _ => h m hm n hn)⟩
  have hkey : (txs.flatten.reverse.map Mutation.request).Pairwise (fun r r1 =>
      r.key.data = r1.key.data → r1.docMeta.bySeqno < r.docMeta.bySeqno) := by
    rw [List.pairwise_map, List.pairwise_reverse]
    exact hflat.imp (fun h hk => h hk.symm)
  have hle := requests_seqno_le _ hkey
    (by
      intro r hr
      obtain ⟨m, hm, rfl⟩ := List.mem_map.mp hr
      exact RocksRequest.make_docMeta_WF _ _ _ (hitems m (List.mem_reverse.mp hm)).2.1
        (hitems m (List.mem_reverse.mp hm)).2.2)
  have hinv : ∀ q k rec, (s.vbDB v).seqnoCF.get q = some k →
      (s.vbDB v).defaultCF.get k = some rec → q ≤ (MetaData.decode rec).bySeqno := by
    intro q k rec hq hk
    rw [hs] at hq
    rw [hd] at hk
    obtain ⟨-, rec1, h1, -, h2⟩ := hle q k hq
    rw [hk] at h1
    injection h1 with h1
    rw [h1]
    exact h2
  refine ⟨hinv, ?_⟩
  intro hres
  obtain ⟨snap, start, es, h1, h2, h3⟩ := scan_threw_logic_error sc cbs iterFail ctx st hres
  rw [hsnap] at h1
  injection h1 with h1
  subst h1
  obtain ⟨e, he, hthrow⟩ := scanLoop_threw _ _ _ _ _ _ _ h3
  obtain ⟨rec, hrec, hlt⟩ := scanEntry_logic_error _ _ _ hthrow
  have hmap := ((mem_seekSeqno (s.vbDB v) _ e.1 e.2).mp (h2 e he)).2
  exact absurd (hinv e.1 e.2 rec hmap hrec) (not_le.mpr hlt)

set_option maxRecDepth 100000 in
/-- Witness of C26 (amended): one transaction queues key `j` at seqno 2 and
then key `k` at seqno 1, a second one key `k` at seqno 3 and then key `j` at
seqno 4; the mappings of the seqnos 1 and 2 are stale, and a scan of the
database does not throw. -/
theorem scan_never_corrupt_witness :
    (∀ q k rec, (mixedOrderStore.vbDB 0).seqnoCF.get q = some k →
      (mixedOrderStore.vbDB 0).defaultCF.get k = some rec →
      q ≤ (MetaData.decode rec).bySeqno) ∧
    ((storeWithSnapshot (mixedOrderStore.vbDB 0)).scan okCallbacks none
        (some (freshContext 0 4)) ()).result ≠ ScanResult.threw Exn.logic_error :=
  scan_never_corrupt exampleStore mixedOrderStore
    (storeWithSnapshot (mixedOrderStore.vbDB 0)) okEnv mixedOrderTransactions 0 okCallbacks none
    (freshContext 0 4) () rfl rfl rfl
    (by
      intro m hm
      simp only [mixedOrderTransactions, List.flatten, List.append_nil, List.cons_append,
        List.nil_append, List.mem_cons, List.mem_singleton, List.not_mem_nil, or_false] at hm
      rcases hm with rfl | rfl | rfl | rfl <;>
        exact ⟨rfl, by unfold Item.WF; decide, by decide⟩)
    (by unfold mixedOrderTransactions; decide) (by unfold mixedOrderTransactions; decide) rfl

/-! ## C27: the vBucket a commit writes to -/

set_option maxRecDepth 100000 in
/-- C27: for every open transaction with requests queued, a cached state for
the vBucket of the first request and writes that all succeed, `commit` returns
true and changes the database of that one vBucket only: it becomes the
database before the commit with the puts of every queued request and the put
of the state blob of that vBucket written to it, so the record and the seqno
mapping of every request are in that database, whatever vBucket id the
request carries. -/
theorem commit_one_vbucket (s : RocksDBKVStore) (env : WriteEnv) (r : RocksRequest)
    (rest : List RocksRequest) (vbstate : vbucket_state) (hin : s.in_transaction = true)
    (hreqs : s.pendingReqs = r :: rest)
    (hvb : s.cachedVBStates r.vbucketId = some vbstate)
    (hw : ∀ n, env.writeStatus n = Code.kOk) :
    (s.commit env).1 = CommitResult.returned true ∧
    (s.commit env).2.1.vbDB = (fun v =>
      if v = r.vbucketId then (s.vbDB r.vbucketId).write (atomicBatch (r :: rest) vbstate)
      else s.vbDB v) ∧
    (∀ q ∈ r :: rest,
      q.defaultRecord ∈ ((s.commit env).2.1.vbDB r.vbucketId).defaultCF ∧
      q.seqnoRecord ∈ ((s.commit env).2.1.vbDB r.vbucketId).seqnoCF) ∧
    ((s.commit env).2.1.vbDB r.vbucketId).localCF.get getVbstateKey
      = some (vbstateJSON vbstate) := by
  have hne : s.pendingReqs ≠ [] := by rw [hreqs]; simp
  have hcv : s.commitVBucket = r.vbucketId := by
    simp [RocksDBKVStore.commitVBucket, hreqs]
  obtain ⟨h1, h2⟩ := commit_of_writes_ok s env vbstate hin hne (by rw [hcv]; exact hvb) hw
  rw [hcv, hreqs] at h2
  refine ⟨h1, h2, ?_, ?_⟩
  · intro q hq
    rw [h2]
    simp only [if_true, write_defaultCF, write_seqnoCF, defaultPuts_atomicBatch,
      seqnoPuts_atomicBatch, List.mem_append, List.mem_reverse]
    exact ⟨Or.inl (List.mem_map_of_mem _ hq), Or.inl (List.mem_map_of_mem _ hq)⟩
  · rw [h2]
    simp only [if_true, write_localCF, localPuts_atomicBatch, List.reverse_singleton,
      List.singleton_append, ColumnFamily.get_cons_self]

set_option maxRecDepth 100000 in
/-- Witness of C27: an item of vBucket 0 and then an item of vBucket 1 are
queued; the commit writes both into the database of vBucket 0 and leaves that
of vBucket 1 empty. -/
theorem commit_one_vbucket_witness :
    ((((exampleStore.begin none).2.set (exampleItem 97 1 false) 1000).2.set
        (otherVBucketItem 98 2) 1000).2.commit okEnv).1 = CommitResult.returned true ∧
    ((((((exampleStore.begin none).2.set (exampleItem 97 1 false) 1000).2.set
        (otherVBucketItem 98 2) 1000).2.commit okEnv).2.1.vbDB 0).seqnoCF.map Prod.fst)
      = [2, 1] ∧
    (((((exampleStore.begin none).2.set (exampleItem 97 1 false) 1000).2.set
        (otherVBucketItem 98 2) 1000).2.commit okEnv).2.1.vbDB 1) = KVRocksDB.empty := by
  obtain ⟨h1, h2, -, -⟩ := commit_one_vbucket
    (((exampleStore.begin none).2.set (exampleItem 97 1 false) 1000).2.set
      (otherVBucketItem 98 2) 1000).2 okEnv
    (RocksRequest.make (exampleItem 97 1 false) MutationRequestCallback.setCb 1000)
    [RocksRequest.make (otherVBucketItem 98 2) MutationRequestCallback.setCb 1000]
    exampleState (by decide) (by decide) (by decide) (fun _ => rfl)
  refine ⟨h1, ?_, ?_⟩
  · rw [h2]
    decide
  · rw [h2]
    decide

/-! ## C28: the pending requests after a failed commit -/

/-- C28: for every open transaction with a request queued whose `commit` does
not return true (it returns false or throws), the store it leaves has an
empty pending-request buffer and is still in a transaction; a `commit` called
again right away, whatever its writes would do, returns true, invokes no
callback, leaves every database as the failed commit left it and closes the
transaction. -/
theorem commit_failed_retry (s : RocksDBKVStore) (env env2 : WriteEnv)
    (hin : s.in_transaction = true) (hne : s.pendingReqs ≠ [])
    (hfail : (s.commit env).1 ≠ CommitResult.returned true) :
    (s.commit env).2.1.pendingReqs = [] ∧
    (s.commit env).2.1.in_transaction = true ∧
    ((s.commit env).2.1.commit env2).1 = CommitResult.returned true ∧
    ((s.commit env).2.1.commit env2).2.2 = [] ∧
    ((s.commit env).2.1.commit env2).2.1.vbDB = (s.commit env).2.1.vbDB ∧
    ((s.commit env).2.1.commit env2).2.1.in_transaction = false := by
  have key : (s.commit env).2.1.pendingReqs = [] ∧ (s.commit env).2.1.in_transaction = true := by
    rw [commit_eq s env hin hne] at hfail ⊢
    generalize hsd : ({ s with pendingReqs := [] } : RocksDBKVStore).saveDocs env
        s.commitVBucket s.pendingReqs = r at hfail ⊢
    rcases r with e | ⟨status, s2⟩
    · exact ⟨rfl, hin⟩
    · have hs2 : s2.pendingReqs = [] ∧ s2.in_transaction = true := by
        by_cases hk : status = Code.kOk
        · subst hk
          obtain ⟨vbstate, -, h2⟩ := saveDocs_kOk _ _ _ _ _ hne hsd
          subst h2
          exact ⟨rfl, hin⟩
        · obtain ⟨-, h1, h2, -, -⟩ := saveDocs_failed _ _ _ _ _ _ hk hsd
          exact ⟨h2, by rw [h1]; exact hin⟩
      simp only at hfail ⊢
      generalize hcb : (commitCallback s2.transactionCtx status s.pendingReqs).2 = c at hfail ⊢
      cases c with
      | some e => exact hs2
      | none =>
        simp only at hfail ⊢
        by_cases hok : status.ok = true
        · simp [hok] at hfail
        · simp only [hok]
          exact hs2
  obtain ⟨h1, h2⟩ := key
  refine ⟨h1, h2, ?_⟩
  generalize (s.commit env).2.1 = t at h1 h2 ⊢
  simp [RocksDBKVStore.commit, h1, h2]

/-- Witness of C28: one request queued and every write failing with busy; the
commit returns false, the buffer is empty, and a second commit returns
true. -/
theorem commit_failed_retry_witness :
    ((storeWithPending [exampleItem 107 1 false]).commit (failEnv Code.kBusy)).1
      = CommitResult.returned false ∧
    ((storeWithPending [exampleItem 107 1 false]).commit (failEnv Code.kBusy)).2.1.pendingReqs
      = [] ∧
    ((storeWithPending [exampleItem 107 1 false]).commit (failEnv Code.kBusy)).2.1.in_transaction
      = true ∧
    (((storeWithPending [exampleItem 107 1 false]).commit (failEnv Code.kBusy)).2.1.commit
      okEnv).1 = CommitResult.returned true ∧
    ((((storeWithPending [exampleItem 107 1 false]).commit (failEnv Code.kBusy)).2.1.commit
      okEnv).2.1.vbDB 0).defaultCF = [] := by
  obtain ⟨h1, h2, h3, -, h5, -⟩ := commit_failed_retry (storeWithPending [exampleItem 107 1 false])
    (failEnv Code.kBusy) okEnv (by decide) (by decide) (by decide)
  refine ⟨by decide, h1, h2, h3, ?_⟩
  rw [h5]
  decide

/-! ## C29: commit to a vBucket without a cached state -/

/-- C29: for every open transaction whose first queued request targets a
vBucket for which no state is cached, `commit` raises a logic error, leaves
every database as it was, invokes no completion callback, and leaves the
pending-request buffer empty (the transaction stays open). -/
theorem commit_without_state (s : RocksDBKVStore) (env : WriteEnv) (r : RocksRequest)
    (rest : List RocksRequest) (hin : s.in_transaction = true)
    (hreqs : s.pendingReqs = r :: rest) (hvb : s.cachedVBStates r.vbucketId = none) :
    (s.commit env).1 = CommitResult.threw Exn.logic_error ∧
    (s.commit env).2.1.vbDB = s.vbDB ∧
    (s.commit env).2.2 = [] ∧
    (s.commit env).2.1.pendingReqs = [] ∧
    (s.commit env).2.1.in_transaction = true := by
  have hne : s.pendingReqs ≠ [] := by rw [hreqs]; simp
  have hcv : s.commitVBucket = r.vbucketId := by
    simp [RocksDBKVStore.commitVBucket, hreqs]
  have hsd : ({ s with pendingReqs := [] } : RocksDBKVStore).saveDocs env s.commitVBucket
      s.pendingReqs = Except.error Exn.logic_error := by
    simp [RocksDBKVStore.saveDocs, hreqs, hcv, hvb]
  rw [commit_eq s env hin hne, hsd]
  exact ⟨rfl, rfl, rfl, rfl, hin⟩

/-- Witness of C29: the example store caches a state for vBucket 0 only; a
transaction with one item of vBucket 1 is committed. -/
theorem commit_without_state_witness :
    (((exampleStore.begin none).2.set (otherVBucketItem 107 1) 1000).2.commit okEnv).1
      = CommitResult.threw Exn.logic_error ∧
    (((exampleStore.begin none).2.set (otherVBucketItem 107 1) 1000).2.commit okEnv).2.2 = [] ∧
    (((exampleStore.begin none).2.set (otherVBucketItem 107 1) 1000).2.commit
      okEnv).2.1.pendingReqs = [] := by
  obtain ⟨h1, -, h3, h4, -⟩ := commit_without_state
    ((exampleStore.begin none).2.set (otherVBucketItem 107 1) 1000).2 okEnv
    (RocksRequest.make (otherVBucketItem 107 1) MutationRequestCallback.setCb 1000) []
    (by decide) (by decide) (by decide)
  exact ⟨h1, h3, h4⟩

/-! ## C30: what a failed commit leaves on disk -/

/-- C30: for every open transaction with requests queued for a vBucket that
has a cached state, and every write `j` of the commit that is the first to
fail (the writes before it succeed; the writes of the commit are those of the
split batches of `splitBatches`, in order, then the final write with the state
blob): `commit` does not return true; the databases it leaves are those from
before the commit except for the database of the vBucket of the commit, which
has exactly the split batches before the write `j` written to it, one after
the other, these batches and the batch in hand at the end being the puts of
the queued requests cut into pieces; the state blob is not written, the local
column family being as before, and the cached states, the high seqno among
them, are unchanged. When a split batch was written before the failing write,
the seqno column family has grown, so the failed commit has left a part of
its puts on disk. -/
theorem commit_failure_partial (s : RocksDBKVStore) (env : WriteEnv) (vbstate : vbucket_state)
    (j : Nat) (hin : s.in_transaction = true) (hne : s.pendingReqs ≠ [])
    (hcached : s.cachedVBStates s.commitVBucket = some vbstate)
    (hj : j ≤ (splitBatches env ((s.defaultWriteBufferSize + s.seqnoWriteBufferSize) % 2 ^ 64)
      s.pendingReqs []).1.length)
    (hbefore : ∀ i, i < j → env.writeStatus i = Code.kOk)
    (hfail : env.writeStatus j ≠ Code.kOk) :
    (s.commit env).1 ≠ CommitResult.returned true ∧
    (s.commit env).2.1.vbDB = (fun v =>
      if v = s.commitVBucket then
        ((splitBatches env ((s.defaultWriteBufferSize + s.seqnoWriteBufferSize) % 2 ^ 64)
          s.pendingReqs []).1.take j).foldl KVRocksDB.write (s.vbDB s.commitVBucket)
      else s.vbDB v) ∧
    (splitBatches env ((s.defaultWriteBufferSize + s.seqnoWriteBufferSize) % 2 ^ 64)
        s.pendingReqs []).1.flatten ++
      (splitBatches env ((s.defaultWriteBufferSize + s.seqnoWriteBufferSize) % 2 ^ 64)
        s.pendingReqs []).2 = s.pendingReqs.foldl addRequestToWriteBatch [] ∧
    ((s.commit env).2.1.vbDB s.commitVBucket).localCF = (s.vbDB s.commitVBucket).localCF ∧
    (s.commit env).2.1.cachedVBStates = s.cachedVBStates ∧
    (0 < j → (s.vbDB s.commitVBucket).seqnoCF.length
      < ((s.commit env).2.1.vbDB s.commitVBucket).seqnoCF.length) := by
  have hs := saveDocs_first_failure ({ s with pendingReqs := [] } : RocksDBKVStore) env
    s.commitVBucket s.pendingReqs vbstate j hne hcached hj hbefore hfail
  have hnot : (env.writeStatus j).ok = false := by simpa [Code.ok] using hfail
  have hcommit : (s.commit env).1 ≠ CommitResult.returned true ∧
      (s.commit env).2.1 = ({ s with pendingReqs := [] } : RocksDBKVStore).setDB s.commitVBucket
        (((splitBatches env ((s.defaultWriteBufferSize + s.seqnoWriteBufferSize) % 2 ^ 64)
          s.pendingReqs []).1.take j).foldl KVRocksDB.write (s.vbDB s.commitVBucket)) := by
    rw [commit_eq s env hin hne, hs]
    simp only
    cases (commitCallback _ (env.writeStatus j) s.pendingReqs).2 with
    | some e => exact ⟨by simp, rfl⟩
    | none => simp [hnot]
  obtain ⟨hres, hstore⟩ := hcommit
  have hputs := foldl_write_puts
    ((splitBatches env ((s.defaultWriteBufferSize + s.seqnoWriteBufferSize) % 2 ^ 64)
      s.pendingReqs []).1.take j) (s.vbDB s.commitVBucket)
    (fun b hb => splitBatches_puts env _ s.pendingReqs [] rfl b (List.mem_of_mem_take hb))
  refine ⟨hres, ?_, splitBatches_flatten env _ s.pendingReqs [], ?_, ?_, ?_⟩
  · rw [hstore]
    rfl
  · rw [hstore]
    simp only [RocksDBKVStore.setDB, if_true]
    exact hputs.1
  · rw [hstore]
    rfl
  · intro hpos
    rw [hstore]
    simp only [RocksDBKVStore.setDB, if_true]
    have hlen := hputs.2
    rw [List.length_take, Nat.min_eq_left hj] at hlen
    omega

set_option maxRecDepth 100000 in
/-- Witness of C30: three requests, the batch is split after the second, the
first write succeeds and the second, the final write, fails with busy. The
commit returns false, the first two requests are on disk (seqnos 1 and 2), the
third is not, and no state blob was written: the failed commit is not atomic. -/
theorem commit_failure_partial_witness :
    ((storeWithPending [exampleItem 97 1 false, exampleItem 98 2 false,
        exampleItem 99 3 false]).commit (failLaterEnv Code.kBusy)).1
      = CommitResult.returned false ∧
    ((((storeWithPending [exampleItem 97 1 false, exampleItem 98 2 false,
        exampleItem 99 3 false]).commit (failLaterEnv Code.kBusy)).2.1.vbDB 0).seqnoCF.map
      Prod.fst) = [2, 1] ∧
    (((storeWithPending [exampleItem 97 1 false, exampleItem 98 2 false,
        exampleItem 99 3 false]).commit (failLaterEnv Code.kBusy)).2.1.vbDB 0).localCF = [] ∧
    ((storeWithPending [exampleItem 97 1 false, exampleItem 98 2 false,
        exampleItem 99 3 false]).commit (failLaterEnv Code.kBusy)).2.1.cachedVBStates 0
      = some exampleState := by
  obtain ⟨-, h2, -, h4, h5, -⟩ := commit_failure_partial
    (storeWithPending [exampleItem 97 1 false, exampleItem 98 2 false, exampleItem 99 3 false])
    (failLaterEnv Code.kBusy) exampleState 1 (by decide) (by decide) (by decide) (by decide)
    (by intro i hi; interval_cases i; decide) (by decide)
  have h0 : (storeWithPending [exampleItem 97 1 false, exampleItem 98 2 false,
      exampleItem 99 3 false]).commitVBucket = 0 := by decide
  refine ⟨by decide, ?_, ?_, ?_⟩
  · rw [h2, h0]
    decide
  · rw [h0] at h4
    rw [h4]
    decide
  · rw [h5]
    decide

end RocksKV
